import Mathlib

/-!
Shallow embedding of `src/generate_show/scripture_reference.py`.

The Python module defines a closed enumeration `Book` of scripture books, a
`Verse` value (book, chapter, optional verse number), a `ScriptureReference`
range value with a normalizing pydantic validator, a regex-based parser
`ScriptureReference.from_string`, a canonical renderer `__str__`, a catalog
lookup `get_scripture_text` over the nested `{Book: {chapter: {Verse: text}}}`
index built by `get_scriptures`, and a range splitter `split_chapters`.

Strings are modelled as `List Char`; Python's decimal formatting of `Nat`
(f-strings) is modelled by `natToDigits`, and `int(...)` on a digit string by
`decValue`.  The regular expression `SCRIPTUREVERSE_REGEX` (source line 23) is
embedded as a deterministic matcher over `List Char`; each piece of the regex
is matched greedily by a maximal character-class run, mirroring Python's
leftmost greedy backtracking semantics (for this particular pattern the greedy
run is the only candidate the backtracking engine can commit to: every
quantified subpattern is a single character class, and each point where the
engine could give characters back is followed by a mandatory `\d+` that can
never match a character taken from `[a-zA-Z\s]` or `\s`).  Python's `\s` and
`str.strip` use the Unicode whitespace set, embedded in `isPySpace`; `\d` and
`[a-zA-Z]` are embedded over their ASCII ranges, which cover every character
the module's book names and rendered references produce.
-/

namespace ScriptureRef

/-- The characters of the source's `DASHES_REGEX` class `[–\-—-]` (source line
21): en dash U+2013, ASCII hyphen (twice), em dash U+2014. -/
def isDash (c : Char) : Bool := c = '–' || c = '-' || c = '—'

/-- Python's `\s` / `str.strip` whitespace set (Unicode whitespace), by code
point: space, `\t\n\v\f\r`, the C1 separators 0x1c-0x1f, NEL, NBSP, and the
Unicode space separators. -/
def isPySpace (c : Char) : Bool :=
  c.toNat = 32 || c.toNat = 9 || c.toNat = 10 || c.toNat = 11 || c.toNat = 12 ||
  c.toNat = 13 || (28 ≤ c.toNat && c.toNat ≤ 31) || c.toNat = 0x85 ||
  c.toNat = 0xa0 || c.toNat = 0x1680 || (0x2000 ≤ c.toNat && c.toNat ≤ 0x200a) ||
  c.toNat = 0x2028 || c.toNat = 0x2029 || c.toNat = 0x202f || c.toNat = 0x205f ||
  c.toNat = 0x3000

/-- The regex class `\d` over its ASCII range `0-9`. -/
def isDigitC (c : Char) : Bool := 48 ≤ c.toNat && c.toNat ≤ 57

/-- The regex class `[a-zA-Z\s]` from `BOOK_NAME_REGEX` (source line 22). -/
def isAlphaSpace (c : Char) : Bool :=
  (97 ≤ c.toNat && c.toNat ≤ 122) || (65 ≤ c.toNat && c.toNat ≤ 90) || isPySpace c

/-- The regex class `[a-z]` (source line 24, group 7). -/
def isLowerAlpha (c : Char) : Bool := 97 ≤ c.toNat && c.toNat ≤ 122

/-- Split a character list into a maximal prefix satisfying `p` and the rest;
this is how every greedy quantified character class of the regex matches. -/
def takeSpan (p : Char → Bool) (cs : List Char) : List Char × List Char :=
  (cs.takeWhile p, cs.dropWhile p)

/-- Decimal digit character for `n < 10`, as produced by Python's f-string
formatting of a nonnegative int. -/
def digitChar (n : Nat) : Char := Char.ofNat (48 + n)

/-- Worker for `natToDigits`, structurally recursive on a fuel bound that
dominates the digit count (each recursive call strictly decreases the
number). -/
def natToDigitsFuel : Nat → Nat → List Char
  | 0, _ => []
  | fuel + 1, n =>
    if n < 10 then [digitChar n]
    else natToDigitsFuel fuel (n / 10) ++ [digitChar (n % 10)]

/-- Decimal rendering of a natural number (Python `f"{n}"`). -/
def natToDigits (n : Nat) : List Char := natToDigitsFuel (n + 1) n

/-- Value of a decimal digit string (Python `int(...)` on the strings captured
by the regex's `\d+` groups). -/
def decValue (l : List Char) : Nat :=
  l.foldl (fun acc c => 10 * acc + (c.toNat - 48)) 0

/-- Python `str.strip()`: remove leading and trailing whitespace. -/
def pyStrip (cs : List Char) : List Char :=
  ((cs.dropWhile isPySpace).reverse.dropWhile isPySpace).reverse

/-- Worker for `collapseSpaces`; `inRun` records whether the previous character
was whitespace (already replaced). -/
def collapseSpacesAux : Bool → List Char → List Char
  | _, [] => []
  | inRun, c :: rest =>
    if isPySpace c then
      if inRun then collapseSpacesAux true rest else ' ' :: collapseSpacesAux true rest
    else c :: collapseSpacesAux false rest

/-- Python `re.sub(r"\s+", " ", s)` (source lines 257 and 261): collapse every
whitespace run to a single ASCII space. -/
def collapseSpaces (cs : List Char) : List Char := collapseSpacesAux false cs

/-- Worker for `subJosephSmith`. -/
def subJosephSmithFuel : Nat → List Char → List Char
  | 0, l => l
  | _ + 1, [] => []
  | fuel + 1, c :: rest =>
    if c = 'J' ∧ rest.take 11 = "oseph Smith".data ∧ (rest.drop 11).head?.any isDash then
      "Joseph Smith—".data ++ subJosephSmithFuel fuel (rest.drop 12)
    else c :: subJosephSmithFuel fuel rest

/-- Python `re.sub(rf"Joseph Smith{DASHES_REGEX}", "Joseph Smith—", s)`
(source lines 258 and 263): normalize the dash in the two Joseph Smith book
names to the em dash; left-to-right, non-overlapping, structurally recursive
on a fuel bound that dominates the number of replacement steps. -/
def subJosephSmith (l : List Char) : List Char := subJosephSmithFuel l.length l

/-- The books of scripture: the `Book` str-enum (source lines 32-121), in
declaration order. -/
inductive Book
  | GENESIS
  | EXODUS
  | LEVITICUS
  | NUMBERS
  | DEUTERONOMY
  | JOSHUA
  | JUDGES
  | RUTH
  | SAMUEL1
  | SAMUEL2
  | KINGS1
  | KINGS2
  | CHRONICLES1
  | CHRONICLES2
  | EZRA
  | NEHEMIAH
  | ESTHER
  | JOB
  | PSALMS
  | PROVERBS
  | ECCLESIASTES
  | SONG_OF_SOLOMON
  | ISAIAH
  | JEREMIAH
  | LAMENTATIONS
  | EZEKIEL
  | DANIEL
  | HOSEA
  | JOEL
  | AMOS
  | OBADIAH
  | JONAH
  | MICAH
  | NAHUM
  | HABAKKUK
  | ZEPHANIAH
  | HAGGAI
  | ZECHARIAH
  | MALACHI
  | MATTHEW
  | MARK
  | LUKE
  | JOHN
  | ACTS
  | ROMANS
  | CORINTHIANS1
  | CORINTHIANS2
  | GALATIANS
  | EPHESIANS
  | PHILIPPIANS
  | COLOSSIANS
  | THESSALONIANS1
  | THESSALONIANS2
  | TIMOTHY1
  | TIMOTHY2
  | TITUS
  | PHILEMON
  | HEBREWS
  | JAMES
  | PETER1
  | PETER2
  | JOHN1
  | JOHN2
  | JOHN3
  | JUDE
  | REVELATION
  | NEPHI1
  | NEPHI2
  | JACOB
  | ENOS
  | JAROM
  | OMNI
  | WORDS_OF_MORMON
  | MOSIAH
  | ALMA
  | HELAMAN
  | NEPHI3
  | NEPHI4
  | MORMON
  | ETHER
  | MORONI
  | DOCTRINE_AND_COVENANTS
  | MOSES
  | ABRAHAM
  | AOF
  | JOSEPH_SMITH_HISTORY
  | JOSEPH_SMITH_MATTHEW
deriving DecidableEq, BEq, Repr

/-- The value string of each `Book` member. -/
def Book.value : Book → String
  | .GENESIS => "Genesis"
  | .EXODUS => "Exodus"
  | .LEVITICUS => "Leviticus"
  | .NUMBERS => "Numbers"
  | .DEUTERONOMY => "Deuteronomy"
  | .JOSHUA => "Joshua"
  | .JUDGES => "Judges"
  | .RUTH => "Ruth"
  | .SAMUEL1 => "1 Samuel"
  | .SAMUEL2 => "2 Samuel"
  | .KINGS1 => "1 Kings"
  | .KINGS2 => "2 Kings"
  | .CHRONICLES1 => "1 Chronicles"
  | .CHRONICLES2 => "2 Chronicles"
  | .EZRA => "Ezra"
  | .NEHEMIAH => "Nehemiah"
  | .ESTHER => "Esther"
  | .JOB => "Job"
  | .PSALMS => "Psalms"
  | .PROVERBS => "Proverbs"
  | .ECCLESIASTES => "Ecclesiastes"
  | .SONG_OF_SOLOMON => "Song of Solomon"
  | .ISAIAH => "Isaiah"
  | .JEREMIAH => "Jeremiah"
  | .LAMENTATIONS => "Lamentations"
  | .EZEKIEL => "Ezekiel"
  | .DANIEL => "Daniel"
  | .HOSEA => "Hosea"
  | .JOEL => "Joel"
  | .AMOS => "Amos"
  | .OBADIAH => "Obadiah"
  | .JONAH => "Jonah"
  | .MICAH => "Micah"
  | .NAHUM => "Nahum"
  | .HABAKKUK => "Habakkuk"
  | .ZEPHANIAH => "Zephaniah"
  | .HAGGAI => "Haggai"
  | .ZECHARIAH => "Zechariah"
  | .MALACHI => "Malachi"
  | .MATTHEW => "Matthew"
  | .MARK => "Mark"
  | .LUKE => "Luke"
  | .JOHN => "John"
  | .ACTS => "Acts"
  | .ROMANS => "Romans"
  | .CORINTHIANS1 => "1 Corinthians"
  | .CORINTHIANS2 => "2 Corinthians"
  | .GALATIANS => "Galatians"
  | .EPHESIANS => "Ephesians"
  | .PHILIPPIANS => "Philippians"
  | .COLOSSIANS => "Colossians"
  | .THESSALONIANS1 => "1 Thessalonians"
  | .THESSALONIANS2 => "2 Thessalonians"
  | .TIMOTHY1 => "1 Timothy"
  | .TIMOTHY2 => "2 Timothy"
  | .TITUS => "Titus"
  | .PHILEMON => "Philemon"
  | .HEBREWS => "Hebrews"
  | .JAMES => "James"
  | .PETER1 => "1 Peter"
  | .PETER2 => "2 Peter"
  | .JOHN1 => "1 John"
  | .JOHN2 => "2 John"
  | .JOHN3 => "3 John"
  | .JUDE => "Jude"
  | .REVELATION => "Revelation"
  | .NEPHI1 => "1 Nephi"
  | .NEPHI2 => "2 Nephi"
  | .JACOB => "Jacob"
  | .ENOS => "Enos"
  | .JAROM => "Jarom"
  | .OMNI => "Omni"
  | .WORDS_OF_MORMON => "Words of Mormon"
  | .MOSIAH => "Mosiah"
  | .ALMA => "Alma"
  | .HELAMAN => "Helaman"
  | .NEPHI3 => "3 Nephi"
  | .NEPHI4 => "4 Nephi"
  | .MORMON => "Mormon"
  | .ETHER => "Ether"
  | .MORONI => "Moroni"
  | .DOCTRINE_AND_COVENANTS => "Doctrine and Covenants"
  | .MOSES => "Moses"
  | .ABRAHAM => "Abraham"
  | .AOF => "Articles of Faith"
  | .JOSEPH_SMITH_HISTORY => "Joseph Smith—History"
  | .JOSEPH_SMITH_MATTHEW => "Joseph Smith—Matthew"

/-- Declaration (canon) order index of a book, as computed by the
`book_order` dictionaries (source lines 314 and 360). -/
def Book.idx : Book → Nat
  | .GENESIS => 0
  | .EXODUS => 1
  | .LEVITICUS => 2
  | .NUMBERS => 3
  | .DEUTERONOMY => 4
  | .JOSHUA => 5
  | .JUDGES => 6
  | .RUTH => 7
  | .SAMUEL1 => 8
  | .SAMUEL2 => 9
  | .KINGS1 => 10
  | .KINGS2 => 11
  | .CHRONICLES1 => 12
  | .CHRONICLES2 => 13
  | .EZRA => 14
  | .NEHEMIAH => 15
  | .ESTHER => 16
  | .JOB => 17
  | .PSALMS => 18
  | .PROVERBS => 19
  | .ECCLESIASTES => 20
  | .SONG_OF_SOLOMON => 21
  | .ISAIAH => 22
  | .JEREMIAH => 23
  | .LAMENTATIONS => 24
  | .EZEKIEL => 25
  | .DANIEL => 26
  | .HOSEA => 27
  | .JOEL => 28
  | .AMOS => 29
  | .OBADIAH => 30
  | .JONAH => 31
  | .MICAH => 32
  | .NAHUM => 33
  | .HABAKKUK => 34
  | .ZEPHANIAH => 35
  | .HAGGAI => 36
  | .ZECHARIAH => 37
  | .MALACHI => 38
  | .MATTHEW => 39
  | .MARK => 40
  | .LUKE => 41
  | .JOHN => 42
  | .ACTS => 43
  | .ROMANS => 44
  | .CORINTHIANS1 => 45
  | .CORINTHIANS2 => 46
  | .GALATIANS => 47
  | .EPHESIANS => 48
  | .PHILIPPIANS => 49
  | .COLOSSIANS => 50
  | .THESSALONIANS1 => 51
  | .THESSALONIANS2 => 52
  | .TIMOTHY1 => 53
  | .TIMOTHY2 => 54
  | .TITUS => 55
  | .PHILEMON => 56
  | .HEBREWS => 57
  | .JAMES => 58
  | .PETER1 => 59
  | .PETER2 => 60
  | .JOHN1 => 61
  | .JOHN2 => 62
  | .JOHN3 => 63
  | .JUDE => 64
  | .REVELATION => 65
  | .NEPHI1 => 66
  | .NEPHI2 => 67
  | .JACOB => 68
  | .ENOS => 69
  | .JAROM => 70
  | .OMNI => 71
  | .WORDS_OF_MORMON => 72
  | .MOSIAH => 73
  | .ALMA => 74
  | .HELAMAN => 75
  | .NEPHI3 => 76
  | .NEPHI4 => 77
  | .MORMON => 78
  | .ETHER => 79
  | .MORONI => 80
  | .DOCTRINE_AND_COVENANTS => 81
  | .MOSES => 82
  | .ABRAHAM => 83
  | .AOF => 84
  | .JOSEPH_SMITH_HISTORY => 85
  | .JOSEPH_SMITH_MATTHEW => 86

/-- All members of `Book` in declaration order. -/
def Book.all : List Book := [
  Book.GENESIS,
  Book.EXODUS,
  Book.LEVITICUS,
  Book.NUMBERS,
  Book.DEUTERONOMY,
  Book.JOSHUA,
  Book.JUDGES,
  Book.RUTH,
  Book.SAMUEL1,
  Book.SAMUEL2,
  Book.KINGS1,
  Book.KINGS2,
  Book.CHRONICLES1,
  Book.CHRONICLES2,
  Book.EZRA,
  Book.NEHEMIAH,
  Book.ESTHER,
  Book.JOB,
  Book.PSALMS,
  Book.PROVERBS,
  Book.ECCLESIASTES,
  Book.SONG_OF_SOLOMON,
  Book.ISAIAH,
  Book.JEREMIAH,
  Book.LAMENTATIONS,
  Book.EZEKIEL,
  Book.DANIEL,
  Book.HOSEA,
  Book.JOEL,
  Book.AMOS,
  Book.OBADIAH,
  Book.JONAH,
  Book.MICAH,
  Book.NAHUM,
  Book.HABAKKUK,
  Book.ZEPHANIAH,
  Book.HAGGAI,
  Book.ZECHARIAH,
  Book.MALACHI,
  Book.MATTHEW,
  Book.MARK,
  Book.LUKE,
  Book.JOHN,
  Book.ACTS,
  Book.ROMANS,
  Book.CORINTHIANS1,
  Book.CORINTHIANS2,
  Book.GALATIANS,
  Book.EPHESIANS,
  Book.PHILIPPIANS,
  Book.COLOSSIANS,
  Book.THESSALONIANS1,
  Book.THESSALONIANS2,
  Book.TIMOTHY1,
  Book.TIMOTHY2,
  Book.TITUS,
  Book.PHILEMON,
  Book.HEBREWS,
  Book.JAMES,
  Book.PETER1,
  Book.PETER2,
  Book.JOHN1,
  Book.JOHN2,
  Book.JOHN3,
  Book.JUDE,
  Book.REVELATION,
  Book.NEPHI1,
  Book.NEPHI2,
  Book.JACOB,
  Book.ENOS,
  Book.JAROM,
  Book.OMNI,
  Book.WORDS_OF_MORMON,
  Book.MOSIAH,
  Book.ALMA,
  Book.HELAMAN,
  Book.NEPHI3,
  Book.NEPHI4,
  Book.MORMON,
  Book.ETHER,
  Book.MORONI,
  Book.DOCTRINE_AND_COVENANTS,
  Book.MOSES,
  Book.ABRAHAM,
  Book.AOF,
  Book.JOSEPH_SMITH_HISTORY,
  Book.JOSEPH_SMITH_MATTHEW
  ]

/-- Python `Book(s)`: enum lookup by value, `none` when `s` is not the
value of any member (Python raises a plain `ValueError`). -/
def Book.fromValue (s : String) : Option Book :=
  Book.all.find? (fun b => b.value == s)

/-- A verse in scripture (source lines 124-131).  `verse = none` models the
`None` verse number ("whole chapter").  pydantic's frozen `BaseModel` compares
and hashes by field values, so structural equality is Python `==`. -/
structure Verse where
  book : Book
  chapter : Nat
  verse : Option Nat
deriving DecidableEq, BEq, Repr

/-- `Verse.__lt__` (source lines 139-153).  Returns `none` where Python does
not produce a boolean: `NotImplemented` for a different book (so `<` raises
`TypeError` with no reflected comparison available), and the `TypeError`
raised by comparing `None` with an `int` inside the tuple comparison
`(self.chapter, self.verse) < (other.chapter, other.verse)` when the chapters
are equal and exactly one verse number is absent.  Python tuple comparison
finds the first unequal component and compares it with `<`; two `None` verse
components are equal, making the tuples equal (so `<` is `False`). -/
def Verse.ltPy (a b : Verse) : Option Bool :=
  if a.book ≠ b.book then none
  else if a.chapter ≠ b.chapter then some (decide (a.chapter < b.chapter))
  else
    match a.verse, b.verse with
    | none, none => some false
    | some x, some y => some (decide (x < y))
    | _, _ => none

/-- `Verse.__str__` (source lines 155-162): `"{book} {chapter}"`, with
`":{verse}"` appended when the verse number is present.  (`self.chapter` is
typed `int`, never `None`, so its branch always fires.) -/
def Verse.render (v : Verse) : List Char :=
  v.book.value.data ++ ' ' :: natToDigits v.chapter ++
    (match v.verse with
     | some n => ':' :: natToDigits n
     | none => [])

/-- A reference to a range of scripture verses (source lines 165-169). -/
structure ScriptureReference where
  start_verse : Verse
  end_verse : Option Verse
deriving DecidableEq, BEq, Repr

/-- Constructing a `ScriptureReference` runs the `verify_start_end` model
validator (source lines 200-207): an end verse equal to the start verse is
normalized to an absent end. -/
def ScriptureReference.make (s : Verse) (e : Option Verse) : ScriptureReference :=
  match e with
  | none => ⟨s, none⟩
  | some v => if v = s then ⟨s, none⟩ else ⟨s, some v⟩

/-- `ScriptureReference.__eq__` (source lines 209-227).  (`other.start_verse ==
other.end_verse` compares a `Verse` with an `Option`al verse; pydantic model
equality against `None` is `False`, modelled by comparing in `Option`.) -/
def ScriptureReference.eqPy (a b : ScriptureReference) : Bool :=
  if a.start_verse ≠ b.start_verse then false
  else if a.end_verse = none ∧ (b.end_verse = none ∨ some b.start_verse = b.end_verse) then true
  else if b.end_verse = none ∧ some a.start_verse = a.end_verse then true
  else a.end_verse = b.end_verse

/-- `ScriptureReference.__str__` (source lines 171-198), translated branch by
branch. -/
def ScriptureReference.render (r : ScriptureReference) : List Char :=
  match r.end_verse with
  | none => r.start_verse.render
  | some e =>
    if r.start_verse = e then r.start_verse.render
    else
      let s1 := r.start_verse.render ++ ['-']
      if r.start_verse.book = e.book ∧ r.start_verse.verse = none ∧ e.verse = none then
        s1 ++ natToDigits e.chapter
      else if r.start_verse.book ≠ e.book ∨ e.verse = none then
        s1 ++ e.render
      else
        let s2 :=
          if r.start_verse.chapter ≠ e.chapter ∨
              (r.start_verse.book = e.book ∧ r.start_verse.verse = none ∧ e.verse ≠ none) then
            s1 ++ natToDigits e.chapter ++ (if e.verse ≠ none then [':'] else [])
          else s1
        s2 ++ (match e.verse with
               | some v => natToDigits v
               | none => [])

/-- The second `BOOK_NAME_REGEX` alternative
`Joseph Smith{DASHES_REGEX}(?:History|Matthew)` (source line 22): a literal
`"Joseph Smith"`, one dash character, then `"History"` or `"Matthew"`.
Returns the captured text (with the original dash character) and the rest. -/
def matchJosephSmith (cs : List Char) : Option (List Char × List Char) :=
  if cs.take 12 = "Joseph Smith".data then
    match cs.drop 12 with
    | d :: rest =>
      if isDash d then
        if rest.take 7 = "History".data then
          some ("Joseph Smith".data ++ d :: "History".data, rest.drop 7)
        else if rest.take 7 = "Matthew".data then
          some ("Joseph Smith".data ++ d :: "Matthew".data, rest.drop 7)
        else none
      else none
    | [] => none
  else none

/-- `({BOOK_NAME_REGEX})\s*(\d+)`: the mandatory book capture (group 1)
followed by the chapter digits (group 2).  The first alternative
`\d*\s*[a-zA-Z\s]+` is a maximal digit run followed by a maximal run of
`[a-zA-Z\s]` (the run subsumes the inner `\s*` since `\s ⊆ [a-zA-Z\s]`, and
the separating `\s*` before the digits always matches empty because the
greedy run already took every space); it succeeds exactly when the letter run
is nonempty and chapter digits follow — giving characters back can never
expose a digit for the mandatory `\d+`, so the greedy split is the one the
backtracking engine commits to.  If it fails, the `Joseph Smith` alternative
is tried at the same position, with `\s*(\d+)` as its continuation. -/
def matchBookChap (cs : List Char) : Option (List Char × List Char × List Char) :=
  let (d, r1) := takeSpan isDigitC cs
  let (a, r2) := takeSpan isAlphaSpace r1
  let (n, r3) := takeSpan isDigitC r2
  if a ≠ [] ∧ n ≠ [] then some (d ++ a, n, r3)
  else
    match matchJosephSmith cs with
    | some (cap, rest) =>
      let (_, r4) := takeSpan isPySpace rest
      let (n2, r5) := takeSpan isDigitC r4
      if n2 ≠ [] then some (cap, n2, r5) else none
    | none => none

/-- `(?::(\d+))?`: an optional colon followed by captured digits; when the
colon is not followed by a digit the group matches empty and consumes
nothing. -/
def matchOptColonDigits (cs : List Char) : Option (List Char) × List Char :=
  match cs with
  | ':' :: rest =>
    let (n, r) := takeSpan isDigitC rest
    if n ≠ [] then (some n, r) else (none, cs)
  | _ => (none, cs)

/-- `({BOOK_NAME_REGEX})?\s*(\d+)` inside the range clause: the optional end
book (group 5) and the mandatory range number (group 6).  Preference order is
Python's: book via the first alternative, book via the `Joseph Smith`
alternative, then no book — each attempt must be followed by digits. -/
def matchEndBookChap (cs : List Char) : Option (Option (List Char) × List Char × List Char) :=
  let (d, r1) := takeSpan isDigitC cs
  let (a, r2) := takeSpan isAlphaSpace r1
  let (n, r3) := takeSpan isDigitC r2
  if a ≠ [] ∧ n ≠ [] then some (some (d ++ a), n, r3)
  else
    let noBook :=
      let (_, r4) := takeSpan isPySpace cs
      let (n2, r5) := takeSpan isDigitC r4
      if n2 ≠ [] then some (none, n2, r5) else none
    match matchJosephSmith cs with
    | some (cap, rest) =>
      let (_, r6) := takeSpan isPySpace rest
      let (n3, r7) := takeSpan isDigitC r6
      if n3 ≠ [] then some (some cap, n3, r7) else noBook
    | none => noBook

/-- `(?:\s*([a-z]+)\s*(\d+))?` (groups 7 and 8, captured by the regex but
never read by `from_string`): optionally consume a lowercase word and digits;
when the whole group cannot match it consumes nothing. -/
def matchOptWordDigits (cs : List Char) : List Char :=
  let (_, r1) := takeSpan isPySpace cs
  let (w, r2) := takeSpan isLowerAlpha r1
  let (_, r3) := takeSpan isPySpace r2
  let (n, r4) := takeSpan isDigitC r3
  if w ≠ [] ∧ n ≠ [] then r4 else cs

/-- The optional range clause
`(\s*DASH\s*({BOOK})?\s*(\d+)(?:\s*([a-z]+)\s*(\d+))?(?::(\d+))?)?`
(group 4): returns the captures `(group 5, group 6, group 9)` when the clause
matches, `none` when it does not (in which case the whole clause matches
empty: `re.match` only needs a prefix). -/
def matchRange (cs : List Char) :
    Option (Option (List Char) × List Char × Option (List Char)) :=
  let (_, r1) := takeSpan isPySpace cs
  match r1 with
  | d :: r2 =>
    if isDash d then
      let (_, r3) := takeSpan isPySpace r2
      match matchEndBookChap r3 with
      | some (g5, g6, r4) =>
        let r5 := matchOptWordDigits r4
        let (g9, _) := matchOptColonDigits r5
        some (g5, g6, g9)
      | none => none
    else none
  | [] => none

/-- The captures of `SCRIPTUREVERSE_REGEX` read by `from_string`: group 1
(book), group 2 (chapter digits), group 3 (verse digits), group 5 (range book),
group 6 (range number digits), group 9 (range verse digits).  Group 4 (the
whole range) and groups 7/8 are never read. -/
structure Groups where
  g1 : List Char
  g2 : List Char
  g3 : Option (List Char)
  g5 : Option (List Char)
  g6 : Option (List Char)
  g9 : Option (List Char)
deriving DecidableEq, Repr

/-- `SCRIPTUREVERSE_REGEX.match(ref)` (source lines 23-25 and 240): anchored
prefix match returning the captures, `none` when the string does not match at
position 0. -/
def regexMatch (cs : List Char) : Option Groups :=
  match matchBookChap cs with
  | none => none
  | some (g1, g2, rest) =>
    let (g3, r1) := matchOptColonDigits rest
    match matchRange r1 with
    | some (g5, g6, g9) => some ⟨g1, g2, g3, g5, some g6, g9⟩
    | none => some ⟨g1, g2, g3, none, none, none⟩

/-- The exceptions `from_string` and `get_scripture_text` can raise.
`ScriptureReferenceError` (source line 28) subclasses `ValueError`; the bare
`ValueError` raised by a failed `Book(...)` enum lookup and the pydantic
`ValidationError` raised by a nonpositive chapter/verse number are
`ValueError`s but not `ScriptureReferenceError`s; `IndexError` (from
`list(...)[-1]` on an empty chapter, source line 310) is not a `ValueError`. -/
inductive PyErr
  | scriptureReferenceError (msg : String)
  | valueError (msg : String)
  | validationError
  | indexError
deriving DecidableEq, Repr

/-- Whether the exception is an instance of `ValueError`. -/
def PyErr.isValueError : PyErr → Bool
  | .scriptureReferenceError _ => true
  | .valueError _ => true
  | .validationError => true
  | .indexError => false

/-- Whether the exception is an instance of `ScriptureReferenceError`. -/
def PyErr.isScriptureReferenceError : PyErr → Bool
  | .scriptureReferenceError _ => true
  | _ => false

/-- `Verse(book=..., chapter=..., verse=...)`: pydantic validates
`chapter > 0` and `verse > 0` (`Annotated[int, Gt(0)]`, source lines
130-131), raising `ValidationError` otherwise. -/
def mkVerse (b : Book) (chapter : Nat) (verse : Option Nat) : Except PyErr Verse :=
  if chapter = 0 then .error .validationError
  else if verse = some 0 then .error .validationError
  else .ok ⟨b, chapter, verse⟩

/-- The group post-processing of `from_string` (source lines 243-277). -/
def buildRef (refData : List Char) (g : Groups) : Except PyErr ScriptureReference :=
  let start_book0 := pyStrip g.g1
  let start_chapter := decValue g.g2
  let start_verse : Option Nat := g.g3.map decValue
  let end_book0 : Option (List Char) := g.g5.map pyStrip
  let end_chapter0 : Option Nat := g.g6.map decValue
  let end_verse0 : Option Nat := g.g9.map decValue
  let swap : Bool :=
    refData.count ':' = 1 ∧ end_chapter0 ≠ none ∧ end_verse0 = none ∧ end_book0 = none
  let end_verse : Option Nat := if swap then end_chapter0 else end_verse0
  let end_chapter : Option Nat := if swap then some start_chapter else end_chapter0
  let start_book := subJosephSmith (collapseSpaces start_book0)
  let end_book := end_book0.map (fun eb => subJosephSmith (collapseSpaces eb))
  match Book.fromValue (String.mk (end_book.getD start_book)) with
  | none => .error (.valueError "is not a valid Book")
  | some end_book_obj =>
    let end_verse_objE : Except PyErr (Option Verse) :=
      if end_chapter = none ∧ end_verse = none then .ok none
      else if end_chapter = none then
        (mkVerse end_book_obj start_chapter end_verse).map some
      else
        (mkVerse end_book_obj (end_chapter.getD 0) end_verse).map some
    match end_verse_objE with
    | .error err => .error err
    | .ok end_verse_obj =>
      match Book.fromValue (String.mk start_book) with
      | none => .error (.valueError "is not a valid Book")
      | some start_book_obj =>
        match mkVerse start_book_obj start_chapter start_verse with
        | .error err => .error err
        | .ok sv => .ok (ScriptureReference.make sv end_verse_obj)

/-- `ScriptureReference.from_string` (source lines 229-277), stage by stage:
regex match, then `buildRef`: group extraction with `strip`, the single-colon
range disambiguation (lines 250-254), whitespace collapsing and Joseph Smith
dash normalization (lines 256-263), the end `Book` lookup (line 265, raising a
bare `ValueError` when the name is not an enum value), end verse construction
(lines 267-272), then the start book lookup and verse construction inside the
final constructor call (lines 274-277), whose validator is `make`. -/
def ScriptureReference.from_string (ref : String) : Except PyErr ScriptureReference :=
  match regexMatch ref.data with
  | none => .error (.scriptureReferenceError ("Invalid scripture reference: " ++ ref))
  | some g => buildRef ref.data g

/-- One chapter of the catalog: the insertion-ordered dict `{Verse: text}`. -/
abbrev VerseDict := List (Verse × String)

/-- One book of the catalog: the insertion-ordered dict `{chapter: verses}`. -/
abbrev ChapterDict := List (Nat × VerseDict)

/-- The catalog index returned by `get_scriptures` (source lines 456-476):
the insertion-ordered `defaultdict` `{Book: {chapter: {Verse: text}}}`. -/
abbrev Scriptures := List (Book × ChapterDict)

/-- `chapters[c]` on the inner `defaultdict(dict)`: return the verse dict for
chapter `c`, inserting an empty entry at the end when absent. -/
def ChapterDict.getTouch (d : ChapterDict) (c : Nat) : VerseDict × ChapterDict :=
  match d with
  | [] => ([], [(c, [])])
  | (c', vs) :: rest =>
    if c' = c then (vs, (c', vs) :: rest)
    else
      let (r, rest') := ChapterDict.getTouch rest c
      (r, (c', vs) :: rest')

/-- `scriptures[b][c]` on the memoized `defaultdict(lambda: defaultdict(dict))`:
return chapter `c`'s verse dict of book `b`, inserting empty book and chapter
entries when absent (this is the only way any scripture operation writes to the
shared index). -/
def Scriptures.getTouch (s : Scriptures) (b : Book) (c : Nat) : VerseDict × Scriptures :=
  match s with
  | [] => ([], [(b, [(c, [])])])
  | (b', chaps) :: rest =>
    if b' = b then
      let (vs, chaps') := ChapterDict.getTouch chaps c
      (vs, (b', chaps') :: rest)
    else
      let (r, rest') := Scriptures.getTouch rest b c
      (r, (b', chaps) :: rest')

/-- Python `dict.get(key)`: first entry with the key, no insertion. -/
def dictGet (d : VerseDict) (k : Verse) : Option String :=
  (d.find? (fun p => decide (p.1 = k))).map (·.2)

/-- Python f-string interpolation of an optional value: `None` prints as the
four characters `"None"`. -/
def pyShowOpt : Option String → String
  | some t => t
  | none => "None"

/-- A `"{verse} {text}"` line of `get_scripture_text`. -/
def verseLine (v : Verse) (t : String) : String :=
  String.mk v.render ++ " " ++ t

/-- The innermost loop of `get_scripture_text` (source lines 322-332) over one
chapter's verse dict: `started` is the flag carried across chapters; returns
the updated flag, whether `found_end` was set (the enclosing loops then
break), and the `"{verse} {text}"` lines appended.  The `if found_end: break`
test sits before the append, so the loop stops right after emitting the
ending verse. -/
def verseLoop (startV endV : Verse) (started : Bool) : VerseDict → Bool × Bool × List String
  | [] => (started, false, [])
  | (v, t) :: rest =>
    if started ∨ v = startV then
      if v = endV then (true, true, [verseLine v t])
      else
        let (st, fe, ls) := verseLoop startV endV true rest
        (st, fe, verseLine v t :: ls)
    else verseLoop startV endV started rest

/-- The chapter loop of `get_scripture_text` (source lines 319-334): skip the
chapters of the starting book before the starting chapter, walk each remaining
chapter's verses, and break once the end was found. -/
def chapterLoop (book : Book) (startV endV : Verse) (started : Bool) :
    ChapterDict → Bool × Bool × List String
  | [] => (started, false, [])
  | (ch, verses) :: rest =>
    if book = startV.book ∧ ch < startV.chapter then
      chapterLoop book startV endV started rest
    else
      let (st, fe, ls) := verseLoop startV endV started verses
      if fe then (st, true, ls)
      else
        let (st2, fe2, ls2) := chapterLoop book startV endV st rest
        (st2, fe2, ls ++ ls2)

/-- The book loop of `get_scripture_text` (source lines 316-336): skip books
before the starting book in canon order, walk the rest, break once the end
was found. -/
def bookLoop (startV endV : Verse) (started : Bool) : Scriptures → Bool × Bool × List String
  | [] => (started, false, [])
  | (book, chapters) :: rest =>
    if Book.idx book < Book.idx startV.book then bookLoop startV endV started rest
    else
      let (st, fe, ls) := chapterLoop book startV endV started chapters
      if fe then (st, true, ls)
      else
        let (st2, fe2, ls2) := bookLoop startV endV st rest
        (st2, fe2, ls ++ ls2)

/-- `ScriptureReference.get_scripture_text` (source lines 279-338) as the list
of `"{verse} {text}"` lines it joins with newlines, paired with the state of
the shared index after the call (the `defaultdict` subscripts on lines 291,
296 and 310 insert empty entries for absent books/chapters).  The result is
`.error .indexError` when `list(scriptures[end.book][end.chapter].keys())[-1]`
(line 310) is taken on an empty chapter. -/
def ScriptureReference.get_scripture_lines (self : ScriptureReference)
    (scriptures : Scriptures) : Except PyErr (List String) × Scriptures :=
  match self.end_verse with
  | none =>
    match self.start_verse.verse with
    | some _ =>
      let (verses, s1) := scriptures.getTouch self.start_verse.book self.start_verse.chapter
      let verse_text := dictGet verses self.start_verse
      (.ok [String.mk self.start_verse.render ++ " " ++ pyShowOpt verse_text], s1)
    | none =>
      let (verses, s1) := scriptures.getTouch self.start_verse.book self.start_verse.chapter
      (.ok (verses.map (fun p => verseLine p.1 p.2)), s1)
  | some endv =>
    let starting_verse : Verse :=
      match self.start_verse.verse with
      | none => ⟨self.start_verse.book, self.start_verse.chapter, some 1⟩
      | some _ => self.start_verse
    let (ending_verse?, s1) :=
      match endv.verse with
      | none =>
        let (verses, s1) := scriptures.getTouch endv.book endv.chapter
        ((verses.getLast?).map (·.1), s1)
      | some _ => (some endv, scriptures)
    match ending_verse? with
    | none => (.error .indexError, s1)
    | some ending_verse =>
      (.ok (bookLoop starting_verse ending_verse false s1).2.2, s1)

/-- `ScriptureReference.get_scripture_text` proper: the lines joined with
`"\n"` (the single-verse branch returns its one line directly). -/
def ScriptureReference.get_scripture_text (self : ScriptureReference)
    (scriptures : Scriptures) : Except PyErr String × Scriptures :=
  let (r, s1) := self.get_scripture_lines scriptures
  (r.map (String.intercalate "\n"), s1)

/-- Worker for `chapterWhile`. -/
def chapterWhileFuel : Nat → Book → Verse → Nat → Nat → List ScriptureReference
  | 0, _, _, _, _ => []
  | fuel + 1, book, endv, current, numChapters =>
    if current ≤ numChapters then
      if book = endv.book ∧ current = endv.chapter then
        [ScriptureReference.make ⟨book, current, some 1⟩ (some endv)]
      else
        ScriptureReference.make ⟨book, current, some 1⟩ (some ⟨book, current, none⟩) ::
          chapterWhileFuel fuel book endv (current + 1) numChapters
    else []

/-- The `while current_chapter <= len(chapters)` loop of `split_chapters`
(source lines 388-406): emit one whole-chapter reference per chapter number,
stopping with the final partial reference at the end book and chapter;
structurally recursive on the exact iteration count. -/
def chapterWhile (book : Book) (endv : Verse) (current numChapters : Nat) :
    List ScriptureReference :=
  chapterWhileFuel (numChapters + 1 - current) book endv current numChapters

/-- The book loop of `split_chapters` (source lines 376-406): skip books
before the start book and, once started, books after the end book; the start
book begins at the chapter after the start chapter, later books at chapter
1. -/
def splitBooks (startV endv : Verse) (started : Bool) : Scriptures → List ScriptureReference
  | [] => []
  | (book, chapters) :: rest =>
    if Book.idx book < Book.idx startV.book ∨ (started ∧ Book.idx endv.book < Book.idx book) then
      splitBooks startV endv started rest
    else
      let cs : Nat × Bool :=
        if book = startV.book ∧ started = false then (startV.chapter + 1, true)
        else (1, started)
      chapterWhile book endv cs.1 chapters.length ++ splitBooks startV endv cs.2 rest

/-- `ScriptureReference.split_chapters` (source lines 340-408). -/
def ScriptureReference.split_chapters (self : ScriptureReference)
    (scriptures : Scriptures) : List ScriptureReference :=
  match self.end_verse with
  | none => [self]
  | some endv =>
    if self.start_verse.book = endv.book ∧ self.start_verse.chapter = endv.chapter then [self]
    else
      ScriptureReference.make self.start_verse
          (some ⟨self.start_verse.book, self.start_verse.chapter, none⟩) ::
        splitBooks self.start_verse endv false scriptures

/-- Shape of a book value that the first `BOOK_NAME_REGEX` alternative
`\d*\s*[a-zA-Z\s]+` consumes in full: a (possibly empty) digit prefix
followed by a nonempty run of `[a-zA-Z\s]` characters. -/
def alt1BookOK (l : List Char) : Bool :=
  decide (l.dropWhile isDigitC ≠ []) && (l.dropWhile isDigitC).all isAlphaSpace

/-- What group 1 (resp. group 5) captures when a rendered book value is
followed by a space and digits: the first regex alternative is greedy through
the following space, while the `Joseph Smith` alternative stops at the book
name. -/
def bookCap (b : Book) : List Char :=
  if b = Book.JOSEPH_SMITH_HISTORY ∨ b = Book.JOSEPH_SMITH_MATTHEW then b.value.data
  else b.value.data ++ [' ']

/-- The facts about one book value that the round-trip proof needs: the regex
matches it (as start book and as range book) when a space and the chapter
digits follow, the post-processing pipeline maps the capture back to the value
string, the enum lookup finds the member, and the value contains no colon and
does not start with whitespace. -/
structure BookParses (b : Book) : Prop where
  chap : ∀ ds rest, (∀ c ∈ ds, isDigitC c = true) → ds ≠ [] →
    (∀ c, rest.head? = some c → isDigitC c = false) →
    matchBookChap (b.value.data ++ (' ' :: (ds ++ rest))) = some (bookCap b, ds, rest)
  endChap : ∀ ds rest, (∀ c ∈ ds, isDigitC c = true) → ds ≠ [] →
    (∀ c, rest.head? = some c → isDigitC c = false) →
    matchEndBookChap (b.value.data ++ (' ' :: (ds ++ rest))) =
      some (some (bookCap b), ds, rest)
  norm : subJosephSmith (collapseSpaces (pyStrip (bookCap b))) = b.value.data
  lookup : Book.fromValue (String.mk b.value.data) = some b
  colonFree : b.value.data.count ':' = 0
  headNotSpace : b.value.data.head?.all (fun c => !isPySpace c) = true
  valNe : b.value.data ≠ []

/-- The multiset of verse-to-text entries of a catalog, flattened: the
payload that "read-only after construction" is about. -/
def verseEntries (s : Scriptures) : List (Verse × String) :=
  (s.map (fun bc => (bc.2.map (fun cv => cv.2)).flatten)).flatten

/-- A small concrete catalog in canon order (Jarom with three chapters, Omni
with one), used to evaluate the catalog operations at concrete inputs. -/
def sampleScriptures : Scriptures :=
  [(Book.JAROM,
    [(1, [(⟨Book.JAROM, 1, some 1⟩, "ta"), (⟨Book.JAROM, 1, some 2⟩, "tb")]),
     (2, [(⟨Book.JAROM, 2, some 1⟩, "tc"), (⟨Book.JAROM, 2, some 2⟩, "td")]),
     (3, [(⟨Book.JAROM, 3, some 1⟩, "te"), (⟨Book.JAROM, 3, some 2⟩, "tf")])]),
   (Book.OMNI,
    [(1, [(⟨Book.OMNI, 1, some 1⟩, "tg"), (⟨Book.OMNI, 1, some 2⟩, "th")])])]

/-- Take entries up to and including the first whose key is `x` (how the
range walk of `get_scripture_text` stops at the ending verse). -/
def takeThrough (x : Verse) : List (Verse × String) → List (Verse × String)
  | [] => []
  | p :: rest => if p.1 = x then [p] else p :: takeThrough x rest

/-- Drop entries before the first whose key is `x` (how the range walk skips
to the starting verse). -/
def dropBefore (x : Verse) (l : List (Verse × String)) : List (Verse × String) :=
  l.dropWhile (fun p => decide (p.1 ≠ x))

/-- Strict canon order on (book, chapter) pairs: book declaration order, then
chapter number. -/
def canonLt (a b : Book × Nat) : Prop :=
  Book.idx a.1 < Book.idx b.1 ∨ (a.1 = b.1 ∧ a.2 < b.2)

instance (a b : Book × Nat) : Decidable (canonLt a b) := by
  unfold canonLt
  infer_instance

/-- The chapters of the catalog strictly between two (book, chapter)
positions, in catalog order, each with its verse dict. -/
def chaptersBetween (s : Scriptures) (ps pe : Book × Nat) : List (Book × Nat × VerseDict) :=
  ((s.map (fun bc => bc.2.map (fun cv => (bc.1, cv.1, cv.2)))).flatten).filter
    (fun t => decide (canonLt ps (t.1, t.2.1)) && decide (canonLt (t.1, t.2.1) pe))

/-- Well-formed chapter of the catalog: nonempty, with verse keys
`Verse(b, c, 1), Verse(b, c, 2), …` in order. -/
def chapterWF (b : Book) (c : Nat) (vs : VerseDict) : Prop :=
  vs ≠ [] ∧ ∀ j (h : j < vs.length), (vs.get ⟨j, h⟩).1 = ⟨b, c, some (j + 1)⟩

/-- Well-formed book of the catalog: chapters keyed `1, 2, …` in order, each
well-formed. -/
def bookWF (b : Book) (chs : ChapterDict) : Prop :=
  ∀ i (h : i < chs.length), (chs.get ⟨i, h⟩).1 = i + 1 ∧ chapterWF b (i + 1) (chs.get ⟨i, h⟩).2

/-- Well-formed catalog: books in strictly increasing canon order, each book
well-formed.  This is the shape `get_scriptures` produces from the canon-
ordered source file. -/
def scripturesWF (s : Scriptures) : Prop :=
  (s.map (fun p => Book.idx p.1)).Chain' (· < ·) ∧ ∀ p ∈ s, bookWF p.1 p.2

instance (b : Book) (c : Nat) (vs : VerseDict) : Decidable (chapterWF b c vs) :=
  inferInstanceAs (Decidable (vs ≠ [] ∧ ∀ j (h : j < vs.length),
    (vs.get ⟨j, h⟩).1 = ⟨b, c, some (j + 1)⟩))

instance (b : Book) (chs : ChapterDict) : Decidable (bookWF b chs) :=
  inferInstanceAs (Decidable (∀ i (h : i < chs.length),
    (chs.get ⟨i, h⟩).1 = i + 1 ∧ chapterWF b (i + 1) (chs.get ⟨i, h⟩).2))

/-- Whether a verse key occurs in an entry list. -/
def containsKey (x : Verse) (l : List (Verse × String)) : Bool :=
  l.any (fun p => decide (p.1 = x))

/-- The verse entries of one book's chapter dict, flattened in order. -/
def chapterVersesList (chs : ChapterDict) : List (Verse × String) :=
  (chs.map (fun cv => cv.2)).flatten

/-! ### Basic lemmas about the character-run combinators and decimal digits -/

theorem digit_not_alphaSpace {c : Char} (h : isDigitC c = true) : isAlphaSpace c = false := by
  simp [isDigitC, isAlphaSpace, isPySpace] at *
  omega

theorem digit_not_pySpace {c : Char} (h : isDigitC c = true) : isPySpace c = false := by
  simp [isDigitC, isPySpace] at *
  omega

theorem takeWhile_append_all {α : Type} {p : α → Bool} {l l' : List α} (h : ∀ a ∈ l, p a = true) :
    (l ++ l').takeWhile p = l ++ l'.takeWhile p := by
  induction l with
  | nil => rfl
  | cons x xs ih =>
    simp [List.cons_append, List.takeWhile_cons, h x (by simp), ih
      (fun a ha => h a (by simp [ha]))]

theorem dropWhile_append_all {α : Type} {p : α → Bool} {l l' : List α} (h : ∀ a ∈ l, p a = true) :
    (l ++ l').dropWhile p = l'.dropWhile p := by
  induction l with
  | nil => rfl
  | cons x xs ih =>
    simp [List.cons_append, List.dropWhile_cons, h x (by simp), ih
      (fun a ha => h a (by simp [ha]))]

theorem takeWhile_eq_nil_of_head {α : Type} {p : α → Bool} {l : List α}
    (h : ∀ c, l.head? = some c → p c = false) : l.takeWhile p = [] := by
  cases l with
  | nil => rfl
  | cons x xs => simp [List.takeWhile_cons, h x rfl]

theorem dropWhile_eq_self_of_head {α : Type} {p : α → Bool} {l : List α}
    (h : ∀ c, l.head? = some c → p c = false) : l.dropWhile p = l := by
  cases l with
  | nil => rfl
  | cons x xs => simp [List.dropWhile_cons, h x rfl]

/-- A maximal run splits a concatenation at a boundary where the left part all
satisfies `p` and the right part starts with a character that does not. -/
theorem takeSpan_boundary {p : Char → Bool} {l r : List Char} (hl : ∀ a ∈ l, p a = true)
    (hr : ∀ c, r.head? = some c → p c = false) : takeSpan p (l ++ r) = (l, r) := by
  simp [takeSpan, takeWhile_append_all hl, dropWhile_append_all hl,
    takeWhile_eq_nil_of_head hr, dropWhile_eq_self_of_head hr]

theorem takeSpan_nil_head {p : Char → Bool} {l : List Char}
    (h : ∀ c, l.head? = some c → p c = false) : takeSpan p l = ([], l) := by
  simp [takeSpan, takeWhile_eq_nil_of_head h, dropWhile_eq_self_of_head h]

theorem head?_dropWhile {p : Char → Bool} (l : List Char) :
    ∀ c, (l.dropWhile p).head? = some c → p c = false := by
  induction l with
  | nil => intro c h; simp at h
  | cons x xs ih =>
    intro c h
    rw [List.dropWhile_cons] at h
    by_cases hx : p x
    · exact ih c (by simpa [hx] using h)
    · simp [hx] at h
      subst h
      simpa using hx

theorem mem_takeWhile {p : Char → Bool} (l : List Char) :
    ∀ a ∈ l.takeWhile p, p a = true := by
  induction l with
  | nil => simp
  | cons x xs ih =>
    intro a ha
    rw [List.takeWhile_cons] at ha
    by_cases hx : p x
    · simp [hx] at ha
      rcases ha with h | h
      · exact h ▸ hx
      · exact ih a h
    · simp [hx] at ha

theorem digitChar_toNat {n : Nat} (h : n < 10) : (digitChar n).toNat = 48 + n := by
  interval_cases n <;> rfl

theorem isDigitC_digitChar {n : Nat} (h : n < 10) : isDigitC (digitChar n) = true := by
  interval_cases n <;> rfl

theorem natToDigitsFuel_irrel : ∀ f1 f2 n, n < f1 → n < f2 →
    natToDigitsFuel f1 n = natToDigitsFuel f2 n := by
  intro f1
  induction f1 with
  | zero => omega
  | succ f ih =>
    intro f2 n h1 h2
    cases f2 with
    | zero => omega
    | succ f2' =>
      simp only [natToDigitsFuel]
      by_cases h10 : n < 10
      · simp [h10]
      · have hdiv : n / 10 < n := Nat.div_lt_self (by omega) (by norm_num)
        simp only [h10, if_false]
        rw [ih f2' (n / 10) (by omega) (by omega)]

/-- The recursion equation of `natToDigits`. -/
theorem natToDigits_eq (n : Nat) : natToDigits n =
    if n < 10 then [digitChar n] else natToDigits (n / 10) ++ [digitChar (n % 10)] := by
  show natToDigitsFuel (n + 1) n = _
  simp only [natToDigitsFuel]
  by_cases h10 : n < 10
  · simp [h10]
  · have hdiv : n / 10 < n := Nat.div_lt_self (by omega) (by norm_num)
    simp only [h10, if_false]
    rw [natToDigitsFuel_irrel n (n / 10 + 1) (n / 10) (by omega) (by omega)]
    rfl

theorem natToDigits_all_digits (n : Nat) : ∀ c ∈ natToDigits n, isDigitC c = true := by
  induction n using Nat.strong_induction_on with
  | _ n ih =>
    rw [natToDigits_eq]
    split
    · intro c hc
      simp at hc
      exact hc ▸ isDigitC_digitChar (by omega)
    · intro c hc
      rcases List.mem_append.mp hc with h | h
      · exact ih (n / 10) (Nat.div_lt_self (by omega) (by norm_num)) c h
      · simp at h
        exact h ▸ isDigitC_digitChar (Nat.mod_lt _ (by norm_num))

theorem natToDigits_ne_nil (n : Nat) : natToDigits n ≠ [] := by
  rw [natToDigits_eq]
  split
  · simp
  · simp

theorem decValue_append_singleton (l : List Char) (c : Char) :
    decValue (l ++ [c]) = 10 * decValue l + (c.toNat - 48) := by
  simp [decValue, List.foldl_append]

theorem decValue_natToDigits (n : Nat) : decValue (natToDigits n) = n := by
  induction n using Nat.strong_induction_on with
  | _ n ih =>
    rw [natToDigits_eq]
    split
    · next h =>
      simp [decValue, digitChar_toNat h]
    · next h =>
      rw [decValue_append_singleton, ih (n / 10) (Nat.div_lt_self (by omega) (by norm_num)),
        digitChar_toNat (Nat.mod_lt _ (by norm_num))]
      omega

theorem count_colon_natToDigits (n : Nat) : (natToDigits n).count ':' = 0 := by
  refine List.count_eq_zero.mpr (fun h => ?_)
  have := natToDigits_all_digits n ':' h
  simp [isDigitC] at this

theorem head?_natToDigits_digit (n : Nat) :
    ∀ c, (natToDigits n).head? = some c → isDigitC c = true := by
  intro c h
  exact natToDigits_all_digits n c (List.mem_of_mem_head? h)

/-! ### Matching the regex against canonically rendered references -/

theorem dash_not_pySpace {c : Char} (h : isDash c = true) : isPySpace c = false := by
  simp [isDash] at h
  rcases h with (h | h) | h <;> subst h <;> decide

theorem take12_head {l : List Char} (h : l.take 12 = "Joseph Smith".data) :
    l.head? = some 'J' := by
  cases l with
  | nil => simp at h
  | cons x xs =>
    have h' : x :: xs.take 11 = 'J' :: "oseph Smith".data := h
    injection h' with h1 _
    simp [h1]

theorem matchBookChap_alt1 {bv : List Char} (hok : alt1BookOK bv = true)
    (ds rest : List Char) (hds : ∀ c ∈ ds, isDigitC c = true) (hne : ds ≠ [])
    (hrest : ∀ c, rest.head? = some c → isDigitC c = false) :
    matchBookChap (bv ++ (' ' :: (ds ++ rest))) = some (bv ++ [' '], ds, rest) := by
  simp only [alt1BookOK, Bool.and_eq_true, decide_eq_true_eq, List.all_eq_true] at hok
  obtain ⟨hA, hAall⟩ := hok
  obtain ⟨a0, A', hAeq⟩ := List.exists_cons_of_ne_nil hA
  have hD : ∀ c ∈ bv.takeWhile isDigitC, isDigitC c = true := mem_takeWhile bv
  have hsplit : bv.takeWhile isDigitC ++ bv.dropWhile isDigitC = bv :=
    List.takeWhile_append_dropWhile _ _
  have ha0 : isDigitC a0 = false := head?_dropWhile bv a0 (by rw [hAeq]; rfl)
  obtain ⟨d0, ds', hdseq⟩ := List.exists_cons_of_ne_nil hne
  have span1 : takeSpan isDigitC (bv ++ (' ' :: (ds ++ rest))) =
      (bv.takeWhile isDigitC, bv.dropWhile isDigitC ++ (' ' :: (ds ++ rest))) := by
    have heq : bv ++ (' ' :: (ds ++ rest)) =
        bv.takeWhile isDigitC ++ (bv.dropWhile isDigitC ++ (' ' :: (ds ++ rest))) := by
      conv_lhs => rw [← hsplit]
      rw [List.append_assoc]
    rw [heq]
    refine takeSpan_boundary hD ?_
    intro c h
    rw [hAeq] at h
    simp at h
    exact h ▸ ha0
  have span2 : takeSpan isAlphaSpace (bv.dropWhile isDigitC ++ (' ' :: (ds ++ rest))) =
      (bv.dropWhile isDigitC ++ [' '], ds ++ rest) := by
    have heq : bv.dropWhile isDigitC ++ (' ' :: (ds ++ rest)) =
        (bv.dropWhile isDigitC ++ [' ']) ++ (ds ++ rest) := by simp
    rw [heq]
    refine takeSpan_boundary ?_ ?_
    · intro a ha
      rcases List.mem_append.mp ha with h | h
      · exact hAall a h
      · simp at h
        subst h
        decide
    · rw [hdseq]
      intro c h
      simp at h
      subst h
      exact digit_not_alphaSpace (hds d0 (by rw [hdseq]; simp))
  have span3 : takeSpan isDigitC (ds ++ rest) = (ds, rest) := takeSpan_boundary hds hrest
  have hAne : bv.dropWhile isDigitC ++ [' '] ≠ [] := by simp
  simp only [matchBookChap, span1, span2, span3, hAne, hne, ne_eq, not_false_iff,
    true_and, and_true, if_true]
  rw [← List.append_assoc, hsplit]

theorem matchEndBookChap_alt1 {bv : List Char} (hok : alt1BookOK bv = true)
    (ds rest : List Char) (hds : ∀ c ∈ ds, isDigitC c = true) (hne : ds ≠ [])
    (hrest : ∀ c, rest.head? = some c → isDigitC c = false) :
    matchEndBookChap (bv ++ (' ' :: (ds ++ rest))) = some (some (bv ++ [' ']), ds, rest) := by
  simp only [alt1BookOK, Bool.and_eq_true, decide_eq_true_eq, List.all_eq_true] at hok
  obtain ⟨hA, hAall⟩ := hok
  obtain ⟨a0, A', hAeq⟩ := List.exists_cons_of_ne_nil hA
  have hD : ∀ c ∈ bv.takeWhile isDigitC, isDigitC c = true := mem_takeWhile bv
  have hsplit : bv.takeWhile isDigitC ++ bv.dropWhile isDigitC = bv :=
    List.takeWhile_append_dropWhile _ _
  have ha0 : isDigitC a0 = false := head?_dropWhile bv a0 (by rw [hAeq]; rfl)
  obtain ⟨d0, ds', hdseq⟩ := List.exists_cons_of_ne_nil hne
  have span1 : takeSpan isDigitC (bv ++ (' ' :: (ds ++ rest))) =
      (bv.takeWhile isDigitC, bv.dropWhile isDigitC ++ (' ' :: (ds ++ rest))) := by
    have heq : bv ++ (' ' :: (ds ++ rest)) =
        bv.takeWhile isDigitC ++ (bv.dropWhile isDigitC ++ (' ' :: (ds ++ rest))) := by
      conv_lhs => rw [← hsplit]
      rw [List.append_assoc]
    rw [heq]
    refine takeSpan_boundary hD ?_
    intro c h
    rw [hAeq] at h
    simp at h
    exact h ▸ ha0
  have span2 : takeSpan isAlphaSpace (bv.dropWhile isDigitC ++ (' ' :: (ds ++ rest))) =
      (bv.dropWhile isDigitC ++ [' '], ds ++ rest) := by
    have heq : bv.dropWhile isDigitC ++ (' ' :: (ds ++ rest)) =
        (bv.dropWhile isDigitC ++ [' ']) ++ (ds ++ rest) := by simp
    rw [heq]
    refine takeSpan_boundary ?_ ?_
    · intro a ha
      rcases List.mem_append.mp ha with h | h
      · exact hAall a h
      · simp at h
        subst h
        decide
    · rw [hdseq]
      intro c h
      simp at h
      subst h
      exact digit_not_alphaSpace (hds d0 (by rw [hdseq]; simp))
  have span3 : takeSpan isDigitC (ds ++ rest) = (ds, rest) := takeSpan_boundary hds hrest
  have hAne : bv.dropWhile isDigitC ++ [' '] ≠ [] := by simp
  simp only [matchEndBookChap, span1, span2, span3, hAne, hne, ne_eq, not_false_iff,
    true_and, and_true, if_true]
  rw [← List.append_assoc, hsplit]

theorem head?_bound (a : Char) {l : List Char} (hl : l.head? = some a)
    {p : Char → Bool} (ha : p a = false) : ∀ c, l.head? = some c → p c = false := by
  intro c hc
  rw [hl] at hc
  injection hc with hc
  exact hc ▸ ha

theorem matchJosephSmith_build (tail : List Char)
    (htail : tail = "History".data ∨ tail = "Matthew".data) (rest : List Char) :
    matchJosephSmith ("Joseph Smith".data ++ ('—' :: (tail ++ rest))) =
      some ("Joseph Smith".data ++ '—' :: tail, rest) := by
  have htake : ("Joseph Smith".data ++ ('—' :: (tail ++ rest))).take 12 = "Joseph Smith".data := by
    have : ("Joseph Smith".data ++ ('—' :: (tail ++ rest))).take ("Joseph Smith".data).length =
        "Joseph Smith".data := List.take_left _ _
    simpa using this
  have hdrop : ("Joseph Smith".data ++ ('—' :: (tail ++ rest))).drop 12 = '—' :: (tail ++ rest) := by
    have : ("Joseph Smith".data ++ ('—' :: (tail ++ rest))).drop ("Joseph Smith".data).length =
        '—' :: (tail ++ rest) := List.drop_left _ _
    simpa using this
  rcases htail with h | h <;> subst h
  · have htake7 : ("History".data ++ rest).take 7 = "History".data := by
      have := List.take_left "History".data rest
      simpa using this
    have hdrop7 : ("History".data ++ rest).drop 7 = rest := by
      have := List.drop_left "History".data rest
      simpa using this
    simp [matchJosephSmith, htake, hdrop, htake7, hdrop7, isDash]
  · have htake7 : ("Matthew".data ++ rest).take 7 = "Matthew".data := by
      have := List.take_left "Matthew".data rest
      simpa using this
    have hdrop7 : ("Matthew".data ++ rest).drop 7 = rest := by
      have := List.drop_left "Matthew".data rest
      simpa using this
    simp [matchJosephSmith, htake, hdrop, htake7, hdrop7, isDash]

theorem matchBookChap_js (tail : List Char)
    (htail : tail = "History".data ∨ tail = "Matthew".data)
    (ds rest : List Char) (hds : ∀ c ∈ ds, isDigitC c = true) (hne : ds ≠ [])
    (hrest : ∀ c, rest.head? = some c → isDigitC c = false) :
    matchBookChap (("Joseph Smith".data ++ '—' :: tail) ++ (' ' :: (ds ++ rest))) =
      some ("Joseph Smith".data ++ '—' :: tail, ds, rest) := by
  obtain ⟨d0, ds', hdseq⟩ := List.exists_cons_of_ne_nil hne
  have hshape : ("Joseph Smith".data ++ '—' :: tail) ++ (' ' :: (ds ++ rest)) =
      "Joseph Smith".data ++ ('—' :: (tail ++ (' ' :: (ds ++ rest)))) := by simp
  have htail' : ∀ c ∈ tail, isAlphaSpace c = true := by
    rcases htail with h | h <;> subst h <;> decide
  have span1 : takeSpan isDigitC
      ("Joseph Smith".data ++ ('—' :: (tail ++ (' ' :: (ds ++ rest))))) =
      ([], "Joseph Smith".data ++ ('—' :: (tail ++ (' ' :: (ds ++ rest))))) := by
    refine takeSpan_nil_head ?_
    intro c h
    have h' : some 'J' = some c := h
    injection h' with h'
    exact h' ▸ (by decide)
  have span2 : takeSpan isAlphaSpace
      ("Joseph Smith".data ++ ('—' :: (tail ++ (' ' :: (ds ++ rest))))) =
      ("Joseph Smith".data, '—' :: (tail ++ (' ' :: (ds ++ rest)))) := by
    refine takeSpan_boundary ?_ ?_
    · decide
    intro c h
    have h' : some '—' = some c := h
    injection h' with h'
    exact h' ▸ (by decide)
  have span3 : takeSpan isDigitC ('—' :: (tail ++ (' ' :: (ds ++ rest)))) =
      ([], '—' :: (tail ++ (' ' :: (ds ++ rest)))) := by
    refine takeSpan_nil_head ?_
    intro c h
    have h' : some '—' = some c := h
    injection h' with h'
    exact h' ▸ (by decide)
  have hjs := matchJosephSmith_build tail htail (' ' :: (ds ++ rest))
  have span4 : takeSpan isPySpace (' ' :: (ds ++ rest)) = ([' '], ds ++ rest) := by
    have heq : ' ' :: (ds ++ rest) = [' '] ++ (ds ++ rest) := by simp
    rw [heq, hdseq]
    refine takeSpan_boundary ?_ ?_
    · decide
    intro c h
    have h' : some d0 = some c := h
    injection h' with h'
    exact h' ▸ digit_not_pySpace (hds d0 (by rw [hdseq]; simp))
  have span5 : takeSpan isDigitC (ds ++ rest) = (ds, rest) := takeSpan_boundary hds hrest
  rw [hshape]
  simp only [matchBookChap, span1, span2, span3, hjs, span4, span5, hne, ne_eq,
    not_false_iff, and_true, and_false, false_and, if_false, if_true]
  simp

theorem matchEndBookChap_js (tail : List Char)
    (htail : tail = "History".data ∨ tail = "Matthew".data)
    (ds rest : List Char) (hds : ∀ c ∈ ds, isDigitC c = true) (hne : ds ≠ [])
    (hrest : ∀ c, rest.head? = some c → isDigitC c = false) :
    matchEndBookChap (("Joseph Smith".data ++ '—' :: tail) ++ (' ' :: (ds ++ rest))) =
      some (some ("Joseph Smith".data ++ '—' :: tail), ds, rest) := by
  obtain ⟨d0, ds', hdseq⟩ := List.exists_cons_of_ne_nil hne
  have hshape : ("Joseph Smith".data ++ '—' :: tail) ++ (' ' :: (ds ++ rest)) =
      "Joseph Smith".data ++ ('—' :: (tail ++ (' ' :: (ds ++ rest)))) := by simp
  have span1 : takeSpan isDigitC
      ("Joseph Smith".data ++ ('—' :: (tail ++ (' ' :: (ds ++ rest))))) =
      ([], "Joseph Smith".data ++ ('—' :: (tail ++ (' ' :: (ds ++ rest))))) := by
    refine takeSpan_nil_head ?_
    intro c h
    have h' : some 'J' = some c := h
    injection h' with h'
    exact h' ▸ (by decide)
  have span2 : takeSpan isAlphaSpace
      ("Joseph Smith".data ++ ('—' :: (tail ++ (' ' :: (ds ++ rest))))) =
      ("Joseph Smith".data, '—' :: (tail ++ (' ' :: (ds ++ rest)))) := by
    refine takeSpan_boundary ?_ ?_
    · decide
    intro c h
    have h' : some '—' = some c := h
    injection h' with h'
    exact h' ▸ (by decide)
  have span3 : takeSpan isDigitC ('—' :: (tail ++ (' ' :: (ds ++ rest)))) =
      ([], '—' :: (tail ++ (' ' :: (ds ++ rest)))) := by
    refine takeSpan_nil_head ?_
    intro c h
    have h' : some '—' = some c := h
    injection h' with h'
    exact h' ▸ (by decide)
  have hjs := matchJosephSmith_build tail htail (' ' :: (ds ++ rest))
  have span4 : takeSpan isPySpace (' ' :: (ds ++ rest)) = ([' '], ds ++ rest) := by
    have heq : ' ' :: (ds ++ rest) = [' '] ++ (ds ++ rest) := by simp
    rw [heq, hdseq]
    refine takeSpan_boundary ?_ ?_
    · decide
    intro c h
    have h' : some d0 = some c := h
    injection h' with h'
    exact h' ▸ digit_not_pySpace (hds d0 (by rw [hdseq]; simp))
  have span5 : takeSpan isDigitC (ds ++ rest) = (ds, rest) := takeSpan_boundary hds hrest
  rw [hshape]
  simp only [matchEndBookChap, span1, span2, span3, hjs, span4, span5, hne, ne_eq,
    not_false_iff, and_true, and_false, false_and, if_false, if_true]
  simp

theorem matchEndBookChap_noBook (ds rest : List Char)
    (hds : ∀ c ∈ ds, isDigitC c = true) (hne : ds ≠ [])
    (hrest : ∀ c, rest.head? = some c → isDigitC c = false ∧ isAlphaSpace c = false) :
    matchEndBookChap (ds ++ rest) = some (none, ds, rest) := by
  obtain ⟨d0, ds', hdseq⟩ := List.exists_cons_of_ne_nil hne
  have hd0 : isDigitC d0 = true := hds d0 (by rw [hdseq]; simp)
  have span1 : takeSpan isDigitC (ds ++ rest) = (ds, rest) :=
    takeSpan_boundary hds (fun c h => (hrest c h).1)
  have span2 : takeSpan isAlphaSpace rest = ([], rest) := by
    exact takeSpan_nil_head (fun c h => (hrest c h).2)
  have span3 : takeSpan isDigitC rest = ([], rest) := by
    exact takeSpan_nil_head (fun c h => (hrest c h).1)
  have hjs : matchJosephSmith (ds ++ rest) = none := by
    unfold matchJosephSmith
    by_cases h : (ds ++ rest).take 12 = "Joseph Smith".data
    · have hJ : (ds ++ rest).head? = some 'J' := take12_head h
      rw [hdseq] at hJ
      simp at hJ
      subst hJ
      exact absurd hd0 (by decide)
    · simp [h]
  have span4 : takeSpan isPySpace (ds ++ rest) = ([], ds ++ rest) := by
    rw [hdseq]
    refine takeSpan_nil_head ?_
    intro c h
    have h' : some d0 = some c := h
    injection h' with h'
    exact h' ▸ digit_not_pySpace hd0
  simp only [matchEndBookChap, span1, span2, span3, hjs, span4, hne, ne_eq, not_false_iff,
    and_true, and_false, false_and, if_false, if_true]
  simp

theorem bookParses (b : Book) : BookParses b := by
  cases b <;>
  first
  | exact ⟨fun ds rest hds hne hrest => matchBookChap_alt1 (by decide) ds rest hds hne hrest,
      fun ds rest hds hne hrest => matchEndBookChap_alt1 (by decide) ds rest hds hne hrest,
      by decide, by decide, by decide, by decide, by decide⟩
  | exact ⟨fun ds rest hds hne hrest =>
        matchBookChap_js "History".data (Or.inl rfl) ds rest hds hne hrest,
      fun ds rest hds hne hrest =>
        matchEndBookChap_js "History".data (Or.inl rfl) ds rest hds hne hrest,
      by decide, by decide, by decide, by decide, by decide⟩
  | exact ⟨fun ds rest hds hne hrest =>
        matchBookChap_js "Matthew".data (Or.inr rfl) ds rest hds hne hrest,
      fun ds rest hds hne hrest =>
        matchEndBookChap_js "Matthew".data (Or.inr rfl) ds rest hds hne hrest,
      by decide, by decide, by decide, by decide, by decide⟩

theorem matchOptColonDigits_nil : matchOptColonDigits [] = (none, []) := rfl

theorem matchOptColonDigits_colon (ds rest : List Char)
    (hds : ∀ c ∈ ds, isDigitC c = true) (hne : ds ≠ [])
    (hrest : ∀ c, rest.head? = some c → isDigitC c = false) :
    matchOptColonDigits (':' :: (ds ++ rest)) = (some ds, rest) := by
  have span : takeSpan isDigitC (ds ++ rest) = (ds, rest) := takeSpan_boundary hds hrest
  simp [matchOptColonDigits, span, hne]

theorem matchOptColonDigits_other (c : Char) (l : List Char) (hc : c ≠ ':') :
    matchOptColonDigits (c :: l) = (none, c :: l) := by
  unfold matchOptColonDigits
  split
  · next heq =>
    injection heq with h1 h2
    exact absurd h1 hc
  · rfl

theorem matchOptWordDigits_id (l : List Char)
    (h : ∀ c, l.head? = some c → isPySpace c = false ∧ isLowerAlpha c = false) :
    matchOptWordDigits l = l := by
  have span1 : takeSpan isPySpace l = ([], l) := takeSpan_nil_head (fun c hc => (h c hc).1)
  have span2 : takeSpan isLowerAlpha l = ([], l) := takeSpan_nil_head (fun c hc => (h c hc).2)
  simp [matchOptWordDigits, span1, span2]

theorem matchRange_nil : matchRange [] = none := rfl

theorem matchRange_build (dash : Char) (hdash : isDash dash = true) (tail : List Char)
    (g5o : Option (List Char)) (g6 r4 : List Char)
    (hhead : ∀ c, tail.head? = some c → isPySpace c = false)
    (hend : matchEndBookChap tail = some (g5o, g6, r4))
    (hr4 : ∀ c, r4.head? = some c → isPySpace c = false ∧ isLowerAlpha c = false) :
    matchRange (dash :: tail) = some (g5o, g6, (matchOptColonDigits r4).1) := by
  have span1 : takeSpan isPySpace (dash :: tail) = ([], dash :: tail) := by
    refine takeSpan_nil_head ?_
    intro c h
    injection h with h
    exact h ▸ dash_not_pySpace hdash
  have span2 : takeSpan isPySpace tail = ([], tail) := takeSpan_nil_head hhead
  have hword := matchOptWordDigits_id r4 hr4
  rcases hoc : matchOptColonDigits r4 with ⟨g9, rr⟩
  simp [matchRange, span1, span2, hdash, hend, hword, hoc]

theorem data_mk (l : List Char) : (String.mk l).data = l := rfl

theorem head?_pred {P : Char → Prop} (a : Char) {l : List Char} (hl : l.head? = some a)
    (ha : P a) : ∀ c, l.head? = some c → P c := by
  intro c hc
  rw [hl] at hc
  injection hc with hc
  exact hc ▸ ha

theorem head?_pred_nil {P : Char → Prop} : ∀ c, ([] : List Char).head? = some c → P c := by
  intro c hc
  simp at hc

theorem optAll_head {l : List Char} {p : Char → Bool} (h : l.head?.all (fun c => !p c) = true) :
    ∀ c, l.head? = some c → p c = false := by
  intro c hc
  rw [hc] at h
  simpa using h

theorem natToDigits_head_not {p : Char → Bool} (n : Nat)
    (hp : ∀ c, isDigitC c = true → p c = false) :
    ∀ c, (natToDigits n).head? = some c → p c = false := by
  intro c hc
  exact hp c (natToDigits_all_digits n c (List.mem_of_mem_head? hc))

theorem digits_append_head_not {p : Char → Bool} (n : Nat) (X : List Char)
    (hp : ∀ c, isDigitC c = true → p c = false) :
    ∀ c, (natToDigits n ++ X).head? = some c → p c = false := by
  intro c hc
  rw [List.head?_append_of_ne_nil _ (natToDigits_ne_nil n)] at hc
  exact natToDigits_head_not n hp c hc

/-- Round-trip: parsing the canonical rendering of a representable reference
(same-book, validator-normalized, positive chapter/verse numbers) returns the
reference itself. -/
theorem from_string_render (b : Book) (c : Nat) (sv : Option Nat) (e : Option Verse)
    (hsame : ∀ ev, e = some ev → ev.book = b)
    (hnorm : e ≠ some ⟨b, c, sv⟩)
    (hc : c ≠ 0) (hv : ∀ n, sv = some n → n ≠ 0)
    (hec : ∀ ev, e = some ev → ev.chapter ≠ 0)
    (hev : ∀ ev n, e = some ev → ev.verse = some n → n ≠ 0) :
    ScriptureReference.from_string (String.mk (ScriptureReference.render ⟨⟨b, c, sv⟩, e⟩)) =
      .ok ⟨⟨b, c, sv⟩, e⟩ := by
  have hp := bookParses b
  have hnd := natToDigits_all_digits
  have hnn := natToDigits_ne_nil
  rcases e with _ | ⟨b', c', ev⟩
  · -- no end verse
    rcases sv with _ | v
    · -- F1 "Book c"
      have hform : ScriptureReference.render ⟨⟨b, c, none⟩, none⟩ =
          b.value.data ++ (' ' :: (natToDigits c ++ [])) := by
        simp [ScriptureReference.render, Verse.render]
      have hchap := hp.chap (natToDigits c) [] (hnd c) (hnn c) head?_pred_nil
      have hregex : regexMatch (b.value.data ++ (' ' :: (natToDigits c ++ []))) =
          some ⟨bookCap b, natToDigits c, none, none, none, none⟩ := by
        simp only [regexMatch, hchap, matchOptColonDigits_nil, matchRange_nil]
      rw [hform]
      simp only [ScriptureReference.from_string, data_mk, hregex]
      simp [buildRef, Except.map, Except.bind, Bind.bind, Pure.pure, Except.pure, Except.map, Except.bind, Bind.bind, Pure.pure, Except.pure, hp.norm, hp.lookup, mkVerse, decValue_natToDigits, hc,
        ScriptureReference.make]
    · -- F2 "Book c:v"
      have hv' : v ≠ 0 := hv v rfl
      have hform : ScriptureReference.render ⟨⟨b, c, some v⟩, none⟩ =
          b.value.data ++ (' ' :: (natToDigits c ++ (':' :: (natToDigits v ++ [])))) := by
        simp [ScriptureReference.render, Verse.render]
      have hchap := hp.chap (natToDigits c) (':' :: (natToDigits v ++ [])) (hnd c) (hnn c)
        (head?_pred ':' rfl (by decide))
      have hcolon := matchOptColonDigits_colon (natToDigits v) [] (hnd v) (hnn v) head?_pred_nil
      have hregex : regexMatch
          (b.value.data ++ (' ' :: (natToDigits c ++ (':' :: (natToDigits v ++ []))))) =
          some ⟨bookCap b, natToDigits c, some (natToDigits v), none, none, none⟩ := by
        simp only [regexMatch, hchap, hcolon, matchRange_nil]
      rw [hform]
      simp only [ScriptureReference.from_string, data_mk, hregex]
      simp [buildRef, Except.map, Except.bind, Bind.bind, Pure.pure, Except.pure, Except.map, Except.bind, Bind.bind, Pure.pure, Except.pure, hp.norm, hp.lookup, mkVerse, decValue_natToDigits, hc, hv',
        ScriptureReference.make]
  · -- with an end verse
    have hb' : b' = b := hsame ⟨b', c', ev⟩ rfl
    subst hb'
    rcases sv with _ | v
    · rcases ev with _ | v'
      · -- F3 "Book c-c'"
        have hcc : ¬ c' = c := by
          intro h
          exact hnorm (by rw [h])
        have hcc2 : ¬ c = c' := fun h => hcc h.symm
        have hc' : c' ≠ 0 := hec ⟨b', c', none⟩ rfl
        have hform : ScriptureReference.render ⟨⟨b', c, none⟩, some ⟨b', c', none⟩⟩ =
            b'.value.data ++ (' ' :: (natToDigits c ++ ('-' :: natToDigits c'))) := by
          simp [ScriptureReference.render, Verse.render, Verse.mk.injEq, hcc, hcc2]
        have hchap := hp.chap (natToDigits c) ('-' :: natToDigits c') (hnd c) (hnn c)
          (head?_pred '-' rfl (by decide))
        have hcolon := matchOptColonDigits_other '-' (natToDigits c') (by decide)
        have hend : matchEndBookChap (natToDigits c') = some (none, natToDigits c', []) := by
          have := matchEndBookChap_noBook (natToDigits c') [] (hnd c') (hnn c') head?_pred_nil
          simpa using this
        have hrange := matchRange_build '-' (by decide) (natToDigits c') none (natToDigits c') []
          (natToDigits_head_not c' (fun ch h => digit_not_pySpace h)) hend head?_pred_nil
        have hregex : regexMatch
            (b'.value.data ++ (' ' :: (natToDigits c ++ ('-' :: natToDigits c')))) =
            some ⟨bookCap b', natToDigits c, none, none, some (natToDigits c'), none⟩ := by
          simp only [regexMatch, hchap, hcolon, hrange, matchOptColonDigits_nil]
        have hcount : (b'.value.data ++ (' ' :: (natToDigits c ++ ('-' :: natToDigits c')))).count ':'
            = 0 := by
          simp [List.count_append, List.count_cons, hp.colonFree, count_colon_natToDigits]
        rw [hform]
        simp only [ScriptureReference.from_string, data_mk, hregex]
        simp [buildRef, Except.map, Except.bind, Bind.bind, Pure.pure, Except.pure, Except.map, Except.bind, Bind.bind, Pure.pure, Except.pure, Except.map, Except.bind, Bind.bind, Pure.pure, Except.pure, hcount, hp.norm, hp.lookup, mkVerse, decValue_natToDigits, hc, hc',
          ScriptureReference.make, Verse.mk.injEq, hcc]
      · -- F4 "Book c-c':v'"
        have hc' : c' ≠ 0 := hec ⟨b', c', some v'⟩ rfl
        have hv' : v' ≠ 0 := hev ⟨b', c', some v'⟩ v' rfl rfl
        have hform : ScriptureReference.render ⟨⟨b', c, none⟩, some ⟨b', c', some v'⟩⟩ =
            b'.value.data ++ (' ' :: (natToDigits c ++
              ('-' :: (natToDigits c' ++ (':' :: (natToDigits v' ++ [])))))) := by
          simp [ScriptureReference.render, Verse.render]
        have hchap := hp.chap (natToDigits c)
          ('-' :: (natToDigits c' ++ (':' :: (natToDigits v' ++ [])))) (hnd c) (hnn c)
          (head?_pred '-' rfl (by decide))
        have hcolon := matchOptColonDigits_other '-'
          (natToDigits c' ++ (':' :: (natToDigits v' ++ []))) (by decide)
        have hend := matchEndBookChap_noBook (natToDigits c') (':' :: (natToDigits v' ++ []))
          (hnd c') (hnn c') (head?_pred ':' rfl (by decide))
        have hcolon2 := matchOptColonDigits_colon (natToDigits v') [] (hnd v') (hnn v')
          head?_pred_nil
        have hrange := matchRange_build '-' (by decide)
          (natToDigits c' ++ (':' :: (natToDigits v' ++ []))) none (natToDigits c')
          (':' :: (natToDigits v' ++ []))
          (digits_append_head_not c' _ (fun ch h => digit_not_pySpace h)) hend
          (head?_pred ':' rfl (by decide))
        have hregex : regexMatch (b'.value.data ++ (' ' :: (natToDigits c ++
            ('-' :: (natToDigits c' ++ (':' :: (natToDigits v' ++ []))))))) =
            some ⟨bookCap b', natToDigits c, none, none, some (natToDigits c'),
              some (natToDigits v')⟩ := by
          simp only [regexMatch, hchap, hcolon, hrange, hcolon2]
        have hcount : (b'.value.data ++ (' ' :: (natToDigits c ++
            ('-' :: (natToDigits c' ++ (':' :: (natToDigits v' ++ []))))))).count ':' = 1 := by
          simp [List.count_append, List.count_cons, hp.colonFree, count_colon_natToDigits]
        rw [hform]
        simp only [ScriptureReference.from_string, data_mk, hregex]
        simp [buildRef, Except.map, Except.bind, Bind.bind, Pure.pure, Except.pure, Except.map, Except.bind, Bind.bind, Pure.pure, Except.pure, Except.map, Except.bind, Bind.bind, Pure.pure, Except.pure, hcount, hp.norm, hp.lookup, mkVerse, decValue_natToDigits, hc, hc', hv',
          ScriptureReference.make, Verse.mk.injEq]
    · rcases ev with _ | v'
      · -- F5 "Book c:v-Book c'"
        have hvv : v ≠ 0 := hv v rfl
        have hc' : c' ≠ 0 := hec ⟨b', c', none⟩ rfl
        have hform : ScriptureReference.render ⟨⟨b', c, some v⟩, some ⟨b', c', none⟩⟩ =
            b'.value.data ++ (' ' :: (natToDigits c ++ (':' :: (natToDigits v ++
              ('-' :: (b'.value.data ++ (' ' :: natToDigits c'))))))) := by
          simp [ScriptureReference.render, Verse.render]
        have hchap := hp.chap (natToDigits c) (':' :: (natToDigits v ++
            ('-' :: (b'.value.data ++ (' ' :: natToDigits c'))))) (hnd c) (hnn c)
          (head?_pred ':' rfl (by decide))
        have hcolon := matchOptColonDigits_colon (natToDigits v)
          ('-' :: (b'.value.data ++ (' ' :: natToDigits c'))) (hnd v) (hnn v)
          (head?_pred '-' rfl (by decide))
        have hend : matchEndBookChap (b'.value.data ++ (' ' :: natToDigits c')) =
            some (some (bookCap b'), natToDigits c', []) := by
          have := hp.endChap (natToDigits c') [] (hnd c') (hnn c') head?_pred_nil
          simpa using this
        obtain ⟨a0, A0, hval⟩ := List.exists_cons_of_ne_nil hp.valNe
        have hhead : ∀ ch, (b'.value.data ++ (' ' :: natToDigits c')).head? = some ch →
            isPySpace ch = false := by
          intro ch h
          rw [hval] at h
          simp at h
          subst h
          have := optAll_head hp.headNotSpace a0 (by rw [hval]; rfl)
          exact this
        have hrange := matchRange_build '-' (by decide)
          (b'.value.data ++ (' ' :: natToDigits c')) (some (bookCap b')) (natToDigits c') []
          hhead hend head?_pred_nil
        have hregex : regexMatch (b'.value.data ++ (' ' :: (natToDigits c ++ (':' ::
            (natToDigits v ++ ('-' :: (b'.value.data ++ (' ' :: natToDigits c')))))))) =
            some ⟨bookCap b', natToDigits c, some (natToDigits v), some (bookCap b'),
              some (natToDigits c'), none⟩ := by
          simp only [regexMatch, hchap, hcolon, hrange, matchOptColonDigits_nil]
        rw [hform]
        simp only [ScriptureReference.from_string, data_mk, hregex]
        simp [buildRef, Except.map, Except.bind, Bind.bind, Pure.pure, Except.pure, Except.map, Except.bind, Bind.bind, Pure.pure, Except.pure, Except.map, Except.bind, Bind.bind, Pure.pure, Except.pure, hp.norm, hp.lookup, mkVerse, decValue_natToDigits, hc, hc', hvv,
          ScriptureReference.make, Verse.mk.injEq]
      · -- F6/F7 "Book c:v-c':v'" / "Book c:v-v'"
        have hvv : v ≠ 0 := hv v rfl
        have hc' : c' ≠ 0 := hec ⟨b', c', some v'⟩ rfl
        have hv' : v' ≠ 0 := hev ⟨b', c', some v'⟩ v' rfl rfl
        by_cases hcc : c = c'
        · -- F7: same chapter, "Book c:v-v'"
          subst hcc
          have hne : ¬ v' = v := by
            intro h
            exact hnorm (by rw [h])
          have hne2 : ¬ v = v' := fun h => hne h.symm
          have hform : ScriptureReference.render ⟨⟨b', c, some v⟩, some ⟨b', c, some v'⟩⟩ =
              b'.value.data ++ (' ' :: (natToDigits c ++ (':' :: (natToDigits v ++
                ('-' :: natToDigits v'))))) := by
            simp [ScriptureReference.render, Verse.render, Verse.mk.injEq, hne, hne2]
          have hchap := hp.chap (natToDigits c)
            (':' :: (natToDigits v ++ ('-' :: natToDigits v'))) (hnd c) (hnn c)
            (head?_pred ':' rfl (by decide))
          have hcolon := matchOptColonDigits_colon (natToDigits v) ('-' :: natToDigits v')
            (hnd v) (hnn v) (head?_pred '-' rfl (by decide))
          have hend : matchEndBookChap (natToDigits v') = some (none, natToDigits v', []) := by
            have := matchEndBookChap_noBook (natToDigits v') [] (hnd v') (hnn v') head?_pred_nil
            simpa using this
          have hrange := matchRange_build '-' (by decide) (natToDigits v') none (natToDigits v')
            [] (natToDigits_head_not v' (fun ch h => digit_not_pySpace h)) hend head?_pred_nil
          have hregex : regexMatch (b'.value.data ++ (' ' :: (natToDigits c ++ (':' ::
              (natToDigits v ++ ('-' :: natToDigits v')))))) =
              some ⟨bookCap b', natToDigits c, some (natToDigits v), none,
                some (natToDigits v'), none⟩ := by
            simp only [regexMatch, hchap, hcolon, hrange, matchOptColonDigits_nil]
          have hcount : (b'.value.data ++ (' ' :: (natToDigits c ++ (':' ::
              (natToDigits v ++ ('-' :: natToDigits v')))))).count ':' = 1 := by
            simp [List.count_append, List.count_cons, hp.colonFree, count_colon_natToDigits]
          rw [hform]
          simp only [ScriptureReference.from_string, data_mk, hregex]
          simp [buildRef, Except.map, Except.bind, Bind.bind, Pure.pure, Except.pure, hcount, hp.norm, hp.lookup, mkVerse, decValue_natToDigits, hc, hvv,
            hv', ScriptureReference.make, Verse.mk.injEq, hne]
        · -- F6: different chapter, "Book c:v-c':v'"
          have hccs : ¬ c = c' := hcc
          have hform : ScriptureReference.render ⟨⟨b', c, some v⟩, some ⟨b', c', some v'⟩⟩ =
              b'.value.data ++ (' ' :: (natToDigits c ++ (':' :: (natToDigits v ++
                ('-' :: (natToDigits c' ++ (':' :: (natToDigits v' ++ [])))))))) := by
            simp [ScriptureReference.render, Verse.render, Verse.mk.injEq, hccs]
          have hchap := hp.chap (natToDigits c) (':' :: (natToDigits v ++
              ('-' :: (natToDigits c' ++ (':' :: (natToDigits v' ++ [])))))) (hnd c) (hnn c)
            (head?_pred ':' rfl (by decide))
          have hcolon := matchOptColonDigits_colon (natToDigits v)
            ('-' :: (natToDigits c' ++ (':' :: (natToDigits v' ++ [])))) (hnd v) (hnn v)
            (head?_pred '-' rfl (by decide))
          have hend := matchEndBookChap_noBook (natToDigits c') (':' :: (natToDigits v' ++ []))
            (hnd c') (hnn c') (head?_pred ':' rfl (by decide))
          have hcolon2 := matchOptColonDigits_colon (natToDigits v') [] (hnd v') (hnn v')
            head?_pred_nil
          have hrange := matchRange_build '-' (by decide)
            (natToDigits c' ++ (':' :: (natToDigits v' ++ []))) none (natToDigits c')
            (':' :: (natToDigits v' ++ []))
            (digits_append_head_not c' _ (fun ch h => digit_not_pySpace h)) hend
            (head?_pred ':' rfl (by decide))
          have hregex : regexMatch (b'.value.data ++ (' ' :: (natToDigits c ++ (':' ::
              (natToDigits v ++ ('-' :: (natToDigits c' ++ (':' ::
                (natToDigits v' ++ []))))))))) =
              some ⟨bookCap b', natToDigits c, some (natToDigits v), none,
                some (natToDigits c'), some (natToDigits v')⟩ := by
            simp only [regexMatch, hchap, hcolon, hrange, hcolon2]
          have hcount : (b'.value.data ++ (' ' :: (natToDigits c ++ (':' ::
              (natToDigits v ++ ('-' :: (natToDigits c' ++ (':' ::
                (natToDigits v' ++ []))))))))).count ':' = 2 := by
            simp [List.count_append, List.count_cons, hp.colonFree, count_colon_natToDigits]
          rw [hform]
          simp only [ScriptureReference.from_string, data_mk, hregex]
          simp [buildRef, Except.map, Except.bind, Bind.bind, Pure.pure, Except.pure, hcount,
            hp.norm, hp.lookup, mkVerse, decValue_natToDigits, hc, hc', hvv, hv',
            ScriptureReference.make, Verse.mk.injEq]
          exact fun h => absurd h.symm hccs

theorem eqPy_refl (r : ScriptureReference) : r.eqPy r = true := by
  rcases r with ⟨s, _ | e⟩ <;> simp [ScriptureReference.eqPy]

/-- C1 — Round-trip law: for every representable `ScriptureReference` (start
and any end verse in the same book, chapter and verse numbers positive, the
validator normalization applied, i.e. the end verse is not equal to the start
verse), parsing the canonical rendering yields a reference that is Python-`==`
to the original, and rendering the parse result yields the identical string:
`from_string(str(ref)) == ref` and `str(from_string(str(ref))) == str(ref)`. -/
theorem round_trip_law (r : ScriptureReference)
    (hsame : ∀ e, r.end_verse = some e → e.book = r.start_verse.book)
    (hnorm : r.end_verse ≠ some r.start_verse)
    (hc : 0 < r.start_verse.chapter)
    (hv : ∀ n, r.start_verse.verse = some n → 0 < n)
    (hec : ∀ e, r.end_verse = some e → 0 < e.chapter)
    (hev : ∀ e n, r.end_verse = some e → e.verse = some n → 0 < n) :
    ∃ r' : ScriptureReference,
      ScriptureReference.from_string (String.mk r.render) = .ok r' ∧
      r'.eqPy r = true ∧ r'.render = r.render := by
  obtain ⟨⟨b, c, sv⟩, e⟩ := r
  refine ⟨⟨⟨b, c, sv⟩, e⟩, ?_, eqPy_refl _, rfl⟩
  exact from_string_render b c sv e hsame hnorm
    (Nat.pos_iff_ne_zero.mp hc)
    (fun n hn => Nat.pos_iff_ne_zero.mp (hv n hn))
    (fun ev he => Nat.pos_iff_ne_zero.mp (hec ev he))
    (fun ev n he hn => Nat.pos_iff_ne_zero.mp (hev ev n he hn))

/-- Witness for C1 at `"Jarom 1:1-2"`. -/
theorem round_trip_law_witness :
    ∃ r' : ScriptureReference,
      ScriptureReference.from_string
        (String.mk (ScriptureReference.render
          ⟨⟨Book.JAROM, 1, some 1⟩, some ⟨Book.JAROM, 1, some 2⟩⟩)) = .ok r' ∧
      r'.eqPy ⟨⟨Book.JAROM, 1, some 1⟩, some ⟨Book.JAROM, 1, some 2⟩⟩ = true ∧
      r'.render = ScriptureReference.render
        ⟨⟨Book.JAROM, 1, some 1⟩, some ⟨Book.JAROM, 1, some 2⟩⟩ :=
  round_trip_law ⟨⟨Book.JAROM, 1, some 1⟩, some ⟨Book.JAROM, 1, some 2⟩⟩
    (by intro e he; injection he with he; rw [← he])
    (by decide) (by decide)
    (by intro n hn; injection hn with hn; omega)
    (by intro e he; injection he with he; rw [← he]; decide)
    (by intro e n he hn; injection he with he; rw [← he] at hn; injection hn with hn; omega)

/-- C5 — Single-verse end normalization: constructing a reference whose end
verse equals its start verse produces the same value as constructing it with
an absent end, and Python `==` agrees. -/
theorem single_verse_end_normalization (v : Verse) :
    ScriptureReference.make v (some v) = ScriptureReference.make v none ∧
    (ScriptureReference.make v (some v)).eqPy (ScriptureReference.make v none) = true := by
  simp [ScriptureReference.make, ScriptureReference.eqPy]

/-- C6 — Verse ordering law: within one book and for positive chapter/verse
numbers, `Verse.__lt__` returns a boolean, true exactly when `(c1, v1)` is
lexicographically smaller than `(c2, v2)`. -/
theorem verse_ordering_law (b : Book) (c1 v1 c2 v2 : Nat)
    (_h1 : 0 < c1) (_h2 : 0 < v1) (_h3 : 0 < c2) (_h4 : 0 < v2) :
    Verse.ltPy ⟨b, c1, some v1⟩ ⟨b, c2, some v2⟩ =
      some (decide (c1 < c2 ∨ (c1 = c2 ∧ v1 < v2))) := by
  by_cases hcc : c1 = c2
  · subst hcc
    by_cases hvv : v1 < v2 <;> simp [Verse.ltPy, hvv]
  · by_cases hlt : c1 < c2 <;> simp [Verse.ltPy, hcc, hlt]

/-- Witness for C6. -/
theorem verse_ordering_law_witness :
    Verse.ltPy ⟨Book.ALMA, 1, some 5⟩ ⟨Book.ALMA, 2, some 3⟩ =
      some (decide ((1 : Nat) < 2 ∨ ((1 : Nat) = 2 ∧ (5 : Nat) < 3))) :=
  verse_ordering_law Book.ALMA 1 5 2 3 (by decide) (by decide) (by decide) (by decide)

/-- C10 — `Verse.__lt__` on the same book and equal chapters with exactly one
absent verse number does not return a boolean (the tuple comparison raises
`TypeError`, modelled by `none`); the within-book comparison does produce a
boolean whenever both verse numbers are present or the chapters differ. -/
theorem verse_lt_mixed_none_not_boolean :
    (∀ b c vn, Verse.ltPy ⟨b, c, none⟩ ⟨b, c, some vn⟩ = none ∧
               Verse.ltPy ⟨b, c, some vn⟩ ⟨b, c, none⟩ = none) ∧
    (∀ b c1 x1 c2 x2, c1 ≠ c2 → (Verse.ltPy ⟨b, c1, x1⟩ ⟨b, c2, x2⟩).isSome = true) ∧
    (∀ b c1 v1 c2 v2, (Verse.ltPy ⟨b, c1, some v1⟩ ⟨b, c2, some v2⟩).isSome = true) := by
  refine ⟨fun b c vn => ⟨by simp [Verse.ltPy], by simp [Verse.ltPy]⟩,
    fun b c1 x1 c2 x2 h => by simp [Verse.ltPy, h], fun b c1 v1 c2 v2 => ?_⟩
  by_cases h : c1 = c2 <;> simp [Verse.ltPy, h]

/-- Witness for C10. -/
theorem verse_lt_mixed_none_not_boolean_witness :
    Verse.ltPy ⟨Book.JAROM, 1, none⟩ ⟨Book.JAROM, 1, some 2⟩ = none ∧
    (Verse.ltPy ⟨Book.JAROM, 1, none⟩ ⟨Book.JAROM, 2, none⟩).isSome = true :=
  ⟨(verse_lt_mixed_none_not_boolean.1 Book.JAROM 1 2).1,
   verse_lt_mixed_none_not_boolean.2.1 Book.JAROM 1 none 2 none (by decide)⟩

theorem mkVerse_error {b : Book} {c : Nat} {v : Option Nat} {e : PyErr}
    (h : mkVerse b c v = .error e) : e = .validationError := by
  unfold mkVerse at h
  split at h
  · injection h with h
    exact h.symm
  · split at h
    · injection h with h
      exact h.symm
    · exact absurd h (by simp)

theorem map_some_error {x : Except PyErr Verse} {e : PyErr}
    (h : Except.map some x = .error e) : x = .error e := by
  cases x with
  | error err => simpa [Except.map] using h
  | ok v => simp [Except.map] at h

theorem buildRef_error_isValueError (l : List Char) (g : Groups) (e : PyErr)
    (h : buildRef l g = .error e) : e.isValueError = true := by
  simp only [buildRef] at h
  split at h
  · injection h with h
    rw [← h]
    rfl
  · split at h
    · next err heq =>
      injection h with h
      subst h
      by_cases hswap : (List.count ':' l = 1 ∧ ¬g.g6 = none ∧ g.g9 = none ∧ g.g5 = none)
      · simp [hswap] at heq
        rw [mkVerse_error (map_some_error heq)]
        rfl
      · simp [hswap] at heq
        split at heq
        all_goals try split at heq
        all_goals first
          | simp at heq
          | (rw [mkVerse_error (map_some_error heq)]; rfl)
    · split at h
      · injection h with h
        rw [← h]
        rfl
      · split at h
        · next err heq =>
          injection h with h
          rw [← h, mkVerse_error heq]
          rfl
        · exact absurd h (by simp)

/-- C7 (amended) — Parse failure taxonomy: an input that does not match the
citation grammar raises `ScriptureReferenceError`; every failure of
`from_string` is a `ValueError` (the `ScriptureReferenceError` subtype for a
grammar mismatch, a plain `ValueError` from the `Book` enum lookup for an
unknown book name, pydantic's `ValidationError` for a nonpositive number), but
the unknown-book failure is not a `ScriptureReferenceError`. -/
theorem parse_failure_taxonomy (s : String) :
    (regexMatch s.data = none →
      ScriptureReference.from_string s =
        .error (.scriptureReferenceError ("Invalid scripture reference: " ++ s))) ∧
    (∀ e, ScriptureReference.from_string s = .error e → e.isValueError = true) := by
  constructor
  · intro h
    simp [ScriptureReference.from_string, h]
  · intro e he
    unfold ScriptureReference.from_string at he
    cases hm : regexMatch s.data with
    | none =>
      rw [hm] at he
      injection he with he
      rw [← he]
      rfl
    | some g =>
      rw [hm] at he
      exact buildRef_error_isValueError s.data g e he

/-- Witness for C7's amended taxonomy at the non-matching input `"Jarom"`. -/
theorem parse_failure_taxonomy_witness :
    ScriptureReference.from_string "Jarom" =
      .error (.scriptureReferenceError ("Invalid scripture reference: " ++ "Jarom")) :=
  (parse_failure_taxonomy "Jarom").1 (by rfl)

/-- C7 counterexample — the claim as stated is false: on `"NotABook 1:1"` the
grammar matches but the book name is unknown, and `from_string` raises the
plain `ValueError` of the `Book` enum lookup, which is not a
`ScriptureReferenceError` (`except ScriptureReferenceError` would not catch
it). -/
theorem parse_unknown_book_counterexample :
    ScriptureReference.from_string "NotABook 1:1" =
      .error (.valueError "is not a valid Book") ∧
    (PyErr.valueError "is not a valid Book").isScriptureReferenceError = false := by
  constructor
  · rfl
  · rfl

/-- C2 — Single-colon ambiguity rule: whenever the regex matches an input
containing exactly one colon, with a range number (group 6) but no range verse
(group 9) and no range book (group 5), `from_string` interprets the trailing
number as the end verse and reuses the start chapter as the end chapter
(source lines 250-254). -/
theorem single_colon_ambiguity (s : String) (g : Groups) (d6 : List Char) (b : Book)
    (hm : regexMatch s.data = some g)
    (hcount : s.data.count ':' = 1)
    (h6 : g.g6 = some d6) (h9 : g.g9 = none) (h5 : g.g5 = none)
    (hb : Book.fromValue (String.mk (subJosephSmith (collapseSpaces (pyStrip g.g1)))) = some b)
    (hch : decValue g.g2 ≠ 0)
    (hv3 : ∀ d3, g.g3 = some d3 → decValue d3 ≠ 0)
    (hd6 : decValue d6 ≠ 0) :
    ScriptureReference.from_string s =
      .ok (ScriptureReference.make ⟨b, decValue g.g2, g.g3.map decValue⟩
        (some ⟨b, decValue g.g2, some (decValue d6)⟩)) := by
  obtain ⟨g1, g2, g3, g5, g6, g9⟩ := g
  simp only at h6 h9 h5 hb hch hv3 ⊢
  subst h6 h9 h5
  simp only [ScriptureReference.from_string, data_mk, hm]
  rcases g3 with _ | d3
  · simp [buildRef, Except.map, hcount, hb, mkVerse, hch, hd6]
  · have h3 : decValue d3 ≠ 0 := hv3 d3 rfl
    simp [buildRef, Except.map, hcount, hb, mkVerse, hch, hd6, h3]

/-- Witness for C2: `from_string("Jarom 1:1-2")` yields start
`Verse(Jarom, 1, 1)` and end `Verse(Jarom, 1, 2)` — an end verse in the start
chapter, not an end chapter 2. -/
theorem single_colon_ambiguity_witness :
    ScriptureReference.from_string "Jarom 1:1-2" =
      .ok (ScriptureReference.make ⟨Book.JAROM, 1, some 1⟩
        (some ⟨Book.JAROM, 1, some 2⟩)) := by
  have h := single_colon_ambiguity "Jarom 1:1-2"
    ⟨"Jarom ".data, ['1'], some ['1'], none, some ['2'], none⟩ ['2'] Book.JAROM
    (by rfl) (by rfl) rfl rfl rfl (by rfl) (by decide)
    (by intro d3 hd; injection hd with hd; subst hd; decide) (by decide)
  exact h

theorem make_start (s : Verse) (e : Option Verse) :
    (ScriptureReference.make s e).start_verse = s := by
  rcases e with _ | v
  · rfl
  · by_cases h : v = s <;> simp [ScriptureReference.make, h]

theorem chapterWhileFuel_shape : ∀ fuel book endv cur n r,
    r ∈ chapterWhileFuel fuel book endv cur n →
    r.start_verse.verse = some 1 ∧
      (r.end_verse = some ⟨r.start_verse.book, r.start_verse.chapter, none⟩ ∨
        r = ScriptureReference.make ⟨endv.book, endv.chapter, some 1⟩ (some endv)) := by
  intro fuel
  induction fuel with
  | zero => intro _ _ _ _ r h; simp [chapterWhileFuel] at h
  | succ f ih =>
    intro book endv cur n r h
    simp only [chapterWhileFuel] at h
    split at h
    · split at h
      · rename_i hcond
        simp at h
        subst h
        constructor
        · rw [make_start]
        · right
          rw [hcond.1, hcond.2]
      · simp at h
        rcases h with h | h
        · subst h
          have hmk : ScriptureReference.make ⟨book, cur, some 1⟩ (some ⟨book, cur, none⟩) =
              ⟨⟨book, cur, some 1⟩, some ⟨book, cur, none⟩⟩ := by
            simp [ScriptureReference.make]
          rw [hmk]
          exact ⟨rfl, Or.inl rfl⟩
        · exact ih book endv (cur + 1) n r h
    · simp at h

theorem splitBooks_shape : ∀ s startV endv started r,
    r ∈ splitBooks startV endv started s →
    r.start_verse.verse = some 1 ∧
      (r.end_verse = some ⟨r.start_verse.book, r.start_verse.chapter, none⟩ ∨
        r = ScriptureReference.make ⟨endv.book, endv.chapter, some 1⟩ (some endv)) := by
  intro s
  induction s with
  | nil => intro _ _ _ r h; simp [splitBooks] at h
  | cons p rest ih =>
    intro startV endv started r h
    simp only [splitBooks] at h
    split at h
    · exact ih startV endv started r h
    · rcases List.mem_append.mp h with h | h
      · exact chapterWhileFuel_shape _ _ _ _ _ r h
      · exact ih startV endv _ r h

/-- C4 (amended) — Intervening-chapter shape: for every catalog and every
multi-chapter reference, each sub-reference `split_chapters()` produces after
the first has start verse 1 (present, not absent — the literal `1` of source
line 401); and each such sub-reference other than the final partial one ending
at the reference's own end verse is a whole-intervening-chapter sub-reference
whose end verse is the start's book and chapter with an absent verse number —
only the end verse is absent. -/
theorem chapter_split_intervening_shape (s : Scriptures) (ref : ScriptureReference)
    (endv : Verse) (he : ref.end_verse = some endv)
    (hmulti : ¬(ref.start_verse.book = endv.book ∧ ref.start_verse.chapter = endv.chapter)) :
    ∀ r ∈ (ref.split_chapters s).tail,
      r.start_verse.verse = some 1 ∧
      (r.end_verse = some ⟨r.start_verse.book, r.start_verse.chapter, none⟩ ∨
        r = ScriptureReference.make ⟨endv.book, endv.chapter, some 1⟩ (some endv)) := by
  intro r hr
  unfold ScriptureReference.split_chapters at hr
  rw [he] at hr
  simp only [hmulti, if_false] at hr
  simp at hr
  exact splitBooks_shape s ref.start_verse endv false r hr

/-- Witness for C4's amended shape at a concrete reference: the first
sub-reference after the head, on `Jarom 1:2-3:1` against the sample catalog,
has start verse `1` and an end verse that is its own book and chapter with an
absent verse number. -/
theorem chapter_split_intervening_shape_witness :
    (⟨⟨Book.JAROM, 2, some 1⟩, some ⟨Book.JAROM, 2, none⟩⟩ : ScriptureReference) ∈
      ((⟨⟨Book.JAROM, 1, some 2⟩, some ⟨Book.JAROM, 3, some 1⟩⟩ :
        ScriptureReference).split_chapters sampleScriptures).tail ∧
    ((⟨⟨Book.JAROM, 2, some 1⟩, some ⟨Book.JAROM, 2, none⟩⟩ :
        ScriptureReference).start_verse.verse = some 1 ∧
      ((⟨⟨Book.JAROM, 2, some 1⟩, some ⟨Book.JAROM, 2, none⟩⟩ :
          ScriptureReference).end_verse = some ⟨Book.JAROM, 2, none⟩ ∨
        (⟨⟨Book.JAROM, 2, some 1⟩, some ⟨Book.JAROM, 2, none⟩⟩ : ScriptureReference) =
          ScriptureReference.make ⟨Book.JAROM, 3, some 1⟩
            (some ⟨Book.JAROM, 3, some 1⟩))) :=
  ⟨List.Mem.head _,
   chapter_split_intervening_shape sampleScriptures
     ⟨⟨Book.JAROM, 1, some 2⟩, some ⟨Book.JAROM, 3, some 1⟩⟩
     ⟨Book.JAROM, 3, some 1⟩ rfl (by decide)
     ⟨⟨Book.JAROM, 2, some 1⟩, some ⟨Book.JAROM, 2, none⟩⟩ (List.Mem.head _)⟩

/-- C4 counterexample — the claim as stated is false: on the reference
`Jarom 1:2-3:1` against the sample catalog, the sub-reference produced for the
whole intervening chapter 2 has start verse `1` (present), not an absent start
verse. -/
theorem chapter_split_intervening_counterexample :
    ((⟨⟨Book.JAROM, 1, some 2⟩, some ⟨Book.JAROM, 3, some 1⟩⟩ :
        ScriptureReference).split_chapters sampleScriptures)[1]? =
      some ⟨⟨Book.JAROM, 2, some 1⟩, some ⟨Book.JAROM, 2, none⟩⟩ ∧
    (some 1 : Option Nat) ≠ none := by
  constructor
  · rfl
  · decide

/-- C8 — not-found lookups: on a well-formed reference addressing a verse,
chapter, or book absent from the catalog, `get_scripture_text` does not raise:
the missing-verse `.get` returns `None` and the f-string embeds the
placeholder `"None"` into the returned text, and a whole-chapter request for
an absent chapter returns the empty string. -/
theorem not_found_returns_placeholder :
    (ScriptureReference.get_scripture_text ⟨⟨Book.JAROM, 1, some 3⟩, none⟩
        sampleScriptures).1 = .ok "Jarom 1:3 None" ∧
    (ScriptureReference.get_scripture_text ⟨⟨Book.ENOS, 1, some 1⟩, none⟩
        sampleScriptures).1 = .ok "Enos 1:1 None" ∧
    (ScriptureReference.get_scripture_text ⟨⟨Book.JAROM, 7, none⟩, none⟩
        sampleScriptures).1 = .ok "" := by
  refine ⟨rfl, rfl, rfl⟩

theorem chapterGetTouch_entries (d : ChapterDict) (c : Nat) :
    ((d.getTouch c).2.map (fun cv => cv.2)).flatten = (d.map (fun cv => cv.2)).flatten := by
  induction d with
  | nil => simp [ChapterDict.getTouch]
  | cons p rest ih =>
    by_cases h : p.1 = c
    · simp [ChapterDict.getTouch, h]
    · simp only [ChapterDict.getTouch, h, if_false]
      simp [ih]

theorem getTouch_verseEntries (s : Scriptures) (b : Book) (c : Nat) :
    verseEntries (s.getTouch b c).2 = verseEntries s := by
  induction s with
  | nil => simp [Scriptures.getTouch, verseEntries]
  | cons p rest ih =>
    by_cases h : p.1 = b
    · simp only [Scriptures.getTouch, h, if_true]
      simp [verseEntries, chapterGetTouch_entries]
    · simp only [Scriptures.getTouch, h, if_false]
      simp only [verseEntries, List.map_cons, List.flatten_cons] at ih ⊢
      rw [ih]

/-- C9 (amended) — Catalog mutation: a `get_scripture_text` call never adds,
removes, or changes any verse-to-text entry of the shared index, for any
reference — including references addressing books or chapters absent from the
index.  (The book and chapter *key* sets can grow: the `defaultdict`
subscripts insert empty entries for absent books/chapters, which is the part
of the original claim that fails.) -/
theorem catalog_verse_entries_preserved (s : Scriptures) (ref : ScriptureReference) :
    verseEntries (ref.get_scripture_lines s).2 = verseEntries s := by
  unfold ScriptureReference.get_scripture_lines
  rcases ref with ⟨⟨b, c, sv⟩, e⟩
  rcases e with _ | endv
  · rcases sv with _ | v
    · simp [getTouch_verseEntries]
    · simp [getTouch_verseEntries]
  · rcases hev : endv.verse with _ | v
    · simp only [hev]
      rcases hgt : (s.getTouch endv.book endv.chapter) with ⟨verses, s1⟩
      rcases hlast : verses.getLast? with _ | p
      · simp [hlast]
        have := getTouch_verseEntries s endv.book endv.chapter
        rw [hgt] at this
        exact this
      · simp [hlast]
        have := getTouch_verseEntries s endv.book endv.chapter
        rw [hgt] at this
        exact this
    · simp [hev]

/-- C9 counterexample — the claim as stated is false: a `get_scripture_text`
call addressing a book absent from the index mutates the shared index, which
gains an empty entry for that book (and chapter), so the set of book entries
differs before and after the call. -/
theorem catalog_mutation_counterexample :
    (ScriptureReference.get_scripture_lines ⟨⟨Book.ENOS, 1, some 1⟩, none⟩
        sampleScriptures).2 = sampleScriptures ++ [(Book.ENOS, [(1, [])])] ∧
    ((ScriptureReference.get_scripture_lines ⟨⟨Book.ENOS, 1, some 1⟩, none⟩
        sampleScriptures).2).map Prod.fst ≠ sampleScriptures.map Prod.fst := by
  constructor
  · rfl
  · decide

/-! ### The range walk of `get_scripture_text` as a slice of the catalog -/

theorem takeThrough_append_of_not {x : Verse} {l1 l2 : List (Verse × String)}
    (h : containsKey x l1 = false) : takeThrough x (l1 ++ l2) = l1 ++ takeThrough x l2 := by
  induction l1 with
  | nil => rfl
  | cons p rest ih =>
    simp only [containsKey, List.any_cons, Bool.or_eq_false_iff, decide_eq_false_iff_not] at h
    simp only [List.cons_append, takeThrough, h.1, if_false]
    rw [show rest.append l2 = rest ++ l2 from rfl, ih (by simp [containsKey, h.2])]

theorem takeThrough_append_of_contains {x : Verse} {l1 l2 : List (Verse × String)}
    (h : containsKey x l1 = true) : takeThrough x (l1 ++ l2) = takeThrough x l1 := by
  induction l1 with
  | nil => simp [containsKey] at h
  | cons p rest ih =>
    by_cases hp : p.1 = x
    · simp [takeThrough, hp]
    · have h' : containsKey x rest = true := by
        simp only [containsKey, List.any_cons, Bool.or_eq_true_iff, decide_eq_true_eq] at h
        rcases h with h | h
        · exact absurd h hp
        · simp [containsKey, h]
      simp only [List.cons_append, takeThrough, hp, if_false]
      rw [show rest.append l2 = rest ++ l2 from rfl, ih h']

theorem takeThrough_eq_self_of_not {x : Verse} {l : List (Verse × String)}
    (h : containsKey x l = false) : takeThrough x l = l := by
  induction l with
  | nil => rfl
  | cons p rest ih =>
    simp only [containsKey, List.any_cons, Bool.or_eq_false_iff, decide_eq_false_iff_not] at h
    simp only [takeThrough, h.1, if_false]
    rw [ih (by simp [containsKey, h.2])]

theorem dropBefore_append_of_not {x : Verse} {l1 l2 : List (Verse × String)}
    (h : containsKey x l1 = false) : dropBefore x (l1 ++ l2) = dropBefore x l2 := by
  unfold dropBefore
  refine dropWhile_append_all ?_
  intro p hp
  simp only [containsKey, List.any_eq_false] at h
  simpa using h p hp

theorem dropBefore_append_of_contains {x : Verse} {l1 l2 : List (Verse × String)}
    (h : containsKey x l1 = true) : dropBefore x (l1 ++ l2) = dropBefore x l1 ++ l2 := by
  induction l1 with
  | nil => simp [containsKey] at h
  | cons p rest ih =>
    by_cases hp : p.1 = x
    · simp [dropBefore, List.dropWhile_cons, hp]
    · have h' : containsKey x rest = true := by
        simp only [containsKey, List.any_cons, Bool.or_eq_true_iff, decide_eq_true_eq] at h
        rcases h with h | h
        · exact absurd h hp
        · simp [containsKey, h]
      have ihh := ih h'
      simp only [dropBefore, List.cons_append, List.dropWhile_cons] at ihh ⊢
      simp only [hp, ne_eq, not_false_iff, decide_eq_true_eq, if_true]
      simpa [hp] using ihh

theorem dropBefore_eq_nil_of_not {x : Verse} {l : List (Verse × String)}
    (h : containsKey x l = false) : dropBefore x l = [] := by
  have := @dropBefore_append_of_not x l [] h
  simpa using this

/-- The innermost verse loop with `started = true` emits every line up to and
including the ending verse. -/
theorem verseLoop_true (sv ev : Verse) (l : List (Verse × String)) :
    verseLoop sv ev true l =
      (true, containsKey ev l, (takeThrough ev l).map (fun p => verseLine p.1 p.2)) := by
  induction l with
  | nil => simp [verseLoop, containsKey, takeThrough]
  | cons p rest ih =>
    by_cases hp : p.1 = ev
    · simp [verseLoop, takeThrough, hp, containsKey]
    · simp [verseLoop, takeThrough, hp, containsKey, ih]

/-- The innermost verse loop with `started = false` skips to the starting
verse and then behaves like the started loop. -/
theorem verseLoop_false (sv ev : Verse) (l : List (Verse × String)) :
    verseLoop sv ev false l =
      (containsKey sv l, (verseLoop sv ev true (dropBefore sv l)).2) := by
  induction l with
  | nil => simp [verseLoop, containsKey, dropBefore]
  | cons p rest ih =>
    obtain ⟨pv, pt⟩ := p
    by_cases hp : pv = sv
    · subst hp
      have hdrop : dropBefore pv ((pv, pt) :: rest) = (pv, pt) :: rest := by
        simp [dropBefore, List.dropWhile_cons]
      rw [hdrop]
      have hcont : containsKey pv ((pv, pt) :: rest) = true := by simp [containsKey]
      rw [hcont]
      by_cases hev : pv = ev
      · simp [verseLoop, hev]
      · simp [verseLoop, hev, takeThrough, verseLoop_true]
    · have hdrop : dropBefore sv ((pv, pt) :: rest) = dropBefore sv rest := by
        simp [dropBefore, List.dropWhile_cons, hp]
      rw [hdrop]
      have hcont : containsKey sv ((pv, pt) :: rest) = containsKey sv rest := by
        simp [containsKey, hp]
      rw [hcont]
      simp only [verseLoop, hp, or_false, if_false]
      exact ih

theorem containsKey_append (x : Verse) (l1 l2 : List (Verse × String)) :
    containsKey x (l1 ++ l2) = (containsKey x l1 || containsKey x l2) := by
  simp [containsKey, List.any_append]

theorem chapterVersesList_cons (cv : Nat × VerseDict) (rest : ChapterDict) :
    chapterVersesList (cv :: rest) = cv.2 ++ chapterVersesList rest := by
  simp [chapterVersesList]

theorem verseEntries_cons (bc : Book × ChapterDict) (rest : Scriptures) :
    verseEntries (bc :: rest) = chapterVersesList bc.2 ++ verseEntries rest := by
  simp [verseEntries, chapterVersesList]

/-- The chapter loop with `started = true`, over chapters none of which the
loop skips. -/
theorem chapterLoop_true (book : Book) (sv ev : Verse) (chs : ChapterDict)
    (hno : ∀ cv ∈ chs, ¬(book = sv.book ∧ cv.1 < sv.chapter)) :
    chapterLoop book sv ev true chs =
      (true, containsKey ev (chapterVersesList chs),
        (takeThrough ev (chapterVersesList chs)).map (fun p => verseLine p.1 p.2)) := by
  induction chs with
  | nil => simp [chapterLoop, chapterVersesList, containsKey, takeThrough]
  | cons cv rest ih =>
    have hskip := hno cv (by simp)
    simp only [chapterLoop, hskip, if_false]
    rw [verseLoop_true, chapterVersesList_cons]
    by_cases hfe : containsKey ev cv.2 = true
    · simp only [hfe, if_true]
      rw [takeThrough_append_of_contains hfe, containsKey_append, hfe]
      simp
    · simp only [hfe, if_false]
      rw [ih (fun cv' h => hno cv' (by simp [h]))]
      rw [containsKey_append, takeThrough_append_of_not (by simpa using hfe),
        takeThrough_eq_self_of_not (by simpa using hfe)]
      simp [hfe]

/-- The chapter loop with `started = false` over a book's chapter dict with
correct verse keys and increasing chapter numbers: it skips to the starting
verse and walks to the ending verse. -/
theorem chapterLoop_false (book : Book) (sv ev : Verse) (chs : ChapterDict)
    (hkeys : ∀ cv ∈ chs, ∀ p ∈ cv.2, (p.1).book = book ∧ (p.1).chapter = cv.1)
    (hpair : (chs.map (fun cv => cv.1)).Pairwise (· < ·)) :
    chapterLoop book sv ev false chs =
      (containsKey sv (chapterVersesList chs),
       containsKey ev (dropBefore sv (chapterVersesList chs)),
       (takeThrough ev (dropBefore sv (chapterVersesList chs))).map
         (fun p => verseLine p.1 p.2)) := by
  induction chs with
  | nil => simp [chapterLoop, chapterVersesList, containsKey, dropBefore, takeThrough]
  | cons cv rest ih =>
    rw [List.map_cons, List.pairwise_cons] at hpair
    have ihh := ih (fun cv' h => hkeys cv' (by simp [h])) hpair.2
    simp only [chapterLoop]
    by_cases hskip : book = sv.book ∧ cv.1 < sv.chapter
    · rw [if_pos hskip]
      have hnosv : containsKey sv cv.2 = false := by
        simp only [containsKey, List.any_eq_false, decide_eq_false_iff_not]
        intro p hp he
        rw [decide_eq_true_eq] at he
        have hk := hkeys cv (by simp) p hp
        rw [he] at hk
        omega
      rw [ihh, chapterVersesList_cons, containsKey_append, hnosv,
        dropBefore_append_of_not hnosv]
      simp
    · rw [if_neg hskip, verseLoop_false, verseLoop_true]
      dsimp only
      rw [chapterVersesList_cons, containsKey_append]
      by_cases hsv : containsKey sv cv.2 = true
      · rw [hsv, dropBefore_append_of_contains hsv]
        by_cases hfe : containsKey ev (dropBefore sv cv.2) = true
        · rw [hfe, takeThrough_append_of_contains hfe, containsKey_append, hfe]
          simp
        · have hfe' : containsKey ev (dropBefore sv cv.2) = false := by simpa using hfe
          have hno : ∀ cv' ∈ rest, ¬(book = sv.book ∧ cv'.1 < sv.chapter) := by
            intro cv' h hc
            rcases hc with ⟨hb, hcmp⟩
            have hgt := hpair.1 cv'.1 (List.mem_map_of_mem _ h)
            have hge : ¬ cv.1 < sv.chapter := fun hlt => hskip ⟨hb, hlt⟩
            omega
          rw [hfe', if_neg (by simp), chapterLoop_true book sv ev rest hno,
            containsKey_append, takeThrough_append_of_not hfe',
            takeThrough_eq_self_of_not hfe', hfe']
          simp
      · have hsv' : containsKey sv cv.2 = false := by simpa using hsv
        rw [hsv', dropBefore_eq_nil_of_not hsv']
        rw [show containsKey ev ([] : List (Verse × String)) = false from rfl,
          show takeThrough ev ([] : List (Verse × String)) = [] from rfl]
        rw [if_neg (by simp), ihh, dropBefore_append_of_not hsv']
        simp

/-- The book loop with `started = true`, over books none of which it skips and
whose chapters the chapter loop does not skip. -/
theorem bookLoop_true (sv ev : Verse) (s : Scriptures)
    (hnoC : ∀ bc ∈ s, ∀ cv ∈ bc.2, ¬(bc.1 = sv.book ∧ cv.1 < sv.chapter))
    (hnoB : ∀ bc ∈ s, ¬ Book.idx bc.1 < Book.idx sv.book) :
    bookLoop sv ev true s =
      (true, containsKey ev (verseEntries s),
        (takeThrough ev (verseEntries s)).map (fun p => verseLine p.1 p.2)) := by
  induction s with
  | nil => simp [bookLoop, verseEntries, containsKey, takeThrough]
  | cons bc rest ih =>
    simp only [bookLoop]
    rw [if_neg (hnoB bc (by simp)),
      chapterLoop_true bc.1 sv ev bc.2 (hnoC bc (by simp)), verseEntries_cons]
    by_cases hfe : containsKey ev (chapterVersesList bc.2) = true
    · rw [hfe, if_pos rfl, takeThrough_append_of_contains hfe, containsKey_append, hfe]
      simp
    · have hfe' : containsKey ev (chapterVersesList bc.2) = false := by simpa using hfe
      rw [hfe', if_neg (by simp),
        ih (fun bc' h => hnoC bc' (by simp [h])) (fun bc' h => hnoB bc' (by simp [h])),
        containsKey_append, takeThrough_append_of_not hfe',
        takeThrough_eq_self_of_not hfe', hfe']
      simp

/-- The range walk of `get_scripture_text` over a catalog with correct keys
and sorted books/chapters equals the catalog slice from the starting verse
through the ending verse. -/
theorem bookLoop_false (sv ev : Verse) (s : Scriptures)
    (hkeys : ∀ bc ∈ s, ∀ cv ∈ bc.2, ∀ p ∈ cv.2, (p.1).book = bc.1 ∧ (p.1).chapter = cv.1)
    (hpairB : (s.map (fun bc => Book.idx bc.1)).Pairwise (· < ·))
    (hpairC : ∀ bc ∈ s, (bc.2.map (fun cv => cv.1)).Pairwise (· < ·)) :
    bookLoop sv ev false s =
      (containsKey sv (verseEntries s),
       containsKey ev (dropBefore sv (verseEntries s)),
       (takeThrough ev (dropBefore sv (verseEntries s))).map
         (fun p => verseLine p.1 p.2)) := by
  induction s with
  | nil => simp [bookLoop, verseEntries, containsKey, dropBefore, takeThrough]
  | cons bc rest ih =>
    rw [List.map_cons, List.pairwise_cons] at hpairB
    have ihh := ih (fun bc' h => hkeys bc' (by simp [h])) hpairB.2
      (fun bc' h => hpairC bc' (by simp [h]))
    simp only [bookLoop]
    by_cases hskip : Book.idx bc.1 < Book.idx sv.book
    · rw [if_pos hskip]
      have hnosv : containsKey sv (chapterVersesList bc.2) = false := by
        simp only [containsKey, List.any_eq_false, decide_eq_false_iff_not]
        intro p hp he
        rw [decide_eq_true_eq] at he
        simp only [chapterVersesList, List.mem_flatten, List.mem_map] at hp
        obtain ⟨vs, ⟨cv, hcv, hvs⟩, hpvs⟩ := hp
        have hk := hkeys bc (by simp) cv hcv p (hvs ▸ hpvs)
        rw [he] at hk
        rw [hk.1] at hskip
        omega
      rw [ihh, verseEntries_cons, containsKey_append, hnosv,
        dropBefore_append_of_not hnosv]
      simp
    · rw [if_neg hskip,
        chapterLoop_false bc.1 sv ev bc.2 (hkeys bc (by simp)) (hpairC bc (by simp)),
        verseEntries_cons, containsKey_append]
      by_cases hsv : containsKey sv (chapterVersesList bc.2) = true
      · rw [hsv, dropBefore_append_of_contains hsv]
        by_cases hfe : containsKey ev (dropBefore sv (chapterVersesList bc.2)) = true
        · rw [hfe, if_pos rfl, takeThrough_append_of_contains hfe, containsKey_append, hfe]
          simp
        · have hfe' : containsKey ev (dropBefore sv (chapterVersesList bc.2)) = false := by
            simpa using hfe
          have hnoB' : ∀ bc' ∈ rest, ¬ Book.idx bc'.1 < Book.idx sv.book := by
            intro bc' h hc
            have hgt := hpairB.1 (Book.idx bc'.1) (List.mem_map_of_mem _ h)
            omega
          have hnoC' : ∀ bc' ∈ rest, ∀ cv ∈ bc'.2, ¬(bc'.1 = sv.book ∧ cv.1 < sv.chapter) := by
            intro bc' h cv _ hc
            have hgt := hpairB.1 (Book.idx bc'.1) (List.mem_map_of_mem _ h)
            rw [hc.1] at hgt
            omega
          rw [hfe', if_neg (by simp), bookLoop_true sv ev rest hnoC' hnoB',
            containsKey_append, takeThrough_append_of_not hfe',
            takeThrough_eq_self_of_not hfe', hfe']
          simp
      · have hsv' : containsKey sv (chapterVersesList bc.2) = false := by simpa using hsv
        rw [hsv', dropBefore_eq_nil_of_not hsv']
        rw [show containsKey ev ([] : List (Verse × String)) = false from rfl,
          show takeThrough ev ([] : List (Verse × String)) = [] from rfl]
        rw [if_neg (by simp), ihh, dropBefore_append_of_not hsv']
        simp

/-! ### Catalog blocks under well-formedness -/

theorem chapterWF_mem {b : Book} {c : Nat} {vs : VerseDict} (h : chapterWF b c vs) :
    ∀ p ∈ vs, ∃ j, j < vs.length ∧ p.1 = ⟨b, c, some (j + 1)⟩ := by
  intro p hp
  obtain ⟨⟨j, hj⟩, hget⟩ := List.mem_iff_get.mp hp
  exact ⟨j, hj, by rw [← hget]; exact h.2 j hj⟩

theorem dropBefore_block_aux (b : Book) (c : Nat) : ∀ (vs : VerseDict) (off v₀ : Nat),
    (∀ j (h : j < vs.length), (vs.get ⟨j, h⟩).1 = ⟨b, c, some (off + j + 1)⟩) →
    off + 1 ≤ v₀ → v₀ ≤ off + vs.length →
    dropBefore ⟨b, c, some v₀⟩ vs = vs.drop (v₀ - off - 1) := by
  intro vs
  induction vs with
  | nil =>
    intro off v₀ _ h1 h2
    simp at h2
    omega
  | cons p rest ih =>
    intro off v₀ hkeys h1 h2
    have hp : p.1 = ⟨b, c, some (off + 1)⟩ := by
      have := hkeys 0 (by simp)
      simpa using this
    by_cases hv : v₀ = off + 1
    · subst hv
      have : dropBefore ⟨b, c, some (off + 1)⟩ (p :: rest) = p :: rest := by
        simp [dropBefore, List.dropWhile_cons, hp]
      rw [this]
      simp
    · have hne : p.1 ≠ ⟨b, c, some v₀⟩ := by
        rw [hp]
        intro hcon
        injection hcon with _ _ hv'
        injection hv' with hv'
        omega
      have hstep : dropBefore ⟨b, c, some v₀⟩ (p :: rest) =
          dropBefore ⟨b, c, some v₀⟩ rest := by
        simp [dropBefore, List.dropWhile_cons, hne]
      rw [hstep, ih (off + 1) v₀ (fun j hj => by
          have := hkeys (j + 1) (by simpa using Nat.succ_lt_succ hj)
          simpa [Nat.add_assoc, Nat.add_comm, Nat.add_left_comm] using this)
        (by omega) (by simp only [List.length_cons] at h2; omega)]
      have : v₀ - off - 1 = (v₀ - (off + 1) - 1) + 1 := by omega
      rw [this]
      simp

theorem takeThrough_block_aux (b : Book) (c : Nat) : ∀ (vs : VerseDict) (off v₁ : Nat),
    (∀ j (h : j < vs.length), (vs.get ⟨j, h⟩).1 = ⟨b, c, some (off + j + 1)⟩) →
    off + 1 ≤ v₁ → v₁ ≤ off + vs.length →
    takeThrough ⟨b, c, some v₁⟩ vs = vs.take (v₁ - off) := by
  intro vs
  induction vs with
  | nil =>
    intro off v₁ _ h1 h2
    simp at h2
    omega
  | cons p rest ih =>
    intro off v₁ hkeys h1 h2
    have hp : p.1 = ⟨b, c, some (off + 1)⟩ := by
      have := hkeys 0 (by simp)
      simpa using this
    by_cases hv : v₁ = off + 1
    · subst hv
      simp only [takeThrough, hp, if_pos rfl]
      have : off + 1 - off = 1 := by omega
      rw [this]
      simp
    · have hne : ¬ p.1 = ⟨b, c, some v₁⟩ := by
        rw [hp]
        intro hcon
        injection hcon with _ _ hv'
        injection hv' with hv'
        omega
      simp only [takeThrough, hne, if_false]
      rw [ih (off + 1) v₁ (fun j hj => by
          have := hkeys (j + 1) (by simpa using Nat.succ_lt_succ hj)
          simpa [Nat.add_assoc, Nat.add_comm, Nat.add_left_comm] using this)
        (by omega) (by simp only [List.length_cons] at h2; omega)]
      have : v₁ - off = (v₁ - (off + 1)) + 1 := by omega
      rw [this]
      simp

theorem dropBefore_block {b : Book} {c : Nat} {vs : VerseDict} (hWF : chapterWF b c vs)
    {v₀ : Nat} (h1 : 1 ≤ v₀) (h2 : v₀ ≤ vs.length) :
    dropBefore ⟨b, c, some v₀⟩ vs = vs.drop (v₀ - 1) := by
  have := dropBefore_block_aux b c vs 0 v₀ (fun j hj => by simpa using hWF.2 j hj)
    (by omega) (by omega)
  simpa using this

theorem takeThrough_block {b : Book} {c : Nat} {vs : VerseDict} (hWF : chapterWF b c vs)
    {v₁ : Nat} (h1 : 1 ≤ v₁) (h2 : v₁ ≤ vs.length) :
    takeThrough ⟨b, c, some v₁⟩ vs = vs.take v₁ := by
  have := takeThrough_block_aux b c vs 0 v₁ (fun j hj => by simpa using hWF.2 j hj)
    (by omega) (by omega)
  simpa using this

theorem containsKey_block {b : Book} {c : Nat} {vs : VerseDict} (hWF : chapterWF b c vs)
    {v : Nat} (h1 : 1 ≤ v) (h2 : v ≤ vs.length) :
    containsKey ⟨b, c, some v⟩ vs = true := by
  simp only [containsKey, List.any_eq_true]
  refine ⟨vs.get ⟨v - 1, by omega⟩, List.get_mem _ _ _, ?_⟩
  rw [hWF.2 (v - 1) (by omega)]
  simp
  omega

theorem not_containsKey_of_ne {x : Verse} {b : Book} {c : Nat} {vs : VerseDict}
    (hWF : chapterWF b c vs) (h : x.book ≠ b ∨ x.chapter ≠ c) :
    containsKey x vs = false := by
  simp only [containsKey, List.any_eq_false, decide_eq_false_iff_not]
  intro p hp he
  rw [decide_eq_true_eq] at he
  obtain ⟨j, hj, hkey⟩ := chapterWF_mem hWF p hp
  rw [he] at hkey
  rcases h with h | h
  · exact h (by rw [hkey])
  · exact h (by rw [hkey])

theorem block_getLast {b : Book} {c : Nat} {vs : VerseDict} (hWF : chapterWF b c vs) :
    vs.getLast?.map (fun p => p.1) = some ⟨b, c, some vs.length⟩ := by
  have hlen : 0 < vs.length := List.length_pos.mpr hWF.1
  rw [List.getLast?_eq_getElem?, List.getElem?_eq_getElem (by omega)]
  simp only [Option.map_some']
  have hkey := hWF.2 (vs.length - 1) (by omega)
  rw [List.get_eq_getElem] at hkey
  rw [hkey]
  have heq : vs.length - 1 + 1 = vs.length := by omega
  rw [heq]

/-! ### Lookups on a well-formed catalog, and well-formedness consequences -/

theorem chapterGetTouch_found {chs : ChapterDict} {c : Nat} {vs : VerseDict}
    (h : (c, vs) ∈ chs) (hpair : (chs.map (fun cv => cv.1)).Pairwise (· < ·)) :
    ChapterDict.getTouch chs c = (vs, chs) := by
  induction chs with
  | nil => simp at h
  | cons cv rest ih =>
    rw [List.map_cons, List.pairwise_cons] at hpair
    rcases List.mem_cons.mp h with heq | hmem
    · rw [← heq]
      simp [ChapterDict.getTouch]
    · have hne : cv.1 ≠ c := by
        intro he
        have := hpair.1 c (List.mem_map_of_mem _ hmem)
        omega
      simp only [ChapterDict.getTouch, hne, if_false]
      rw [ih hmem hpair.2]

theorem scripturesGetTouch_found {s : Scriptures} {b : Book} {chs : ChapterDict}
    {c : Nat} {vs : VerseDict}
    (hb : (b, chs) ∈ s) (hc : (c, vs) ∈ chs)
    (hpairB : (s.map (fun bc => Book.idx bc.1)).Pairwise (· < ·))
    (hpairC : (chs.map (fun cv => cv.1)).Pairwise (· < ·)) :
    Scriptures.getTouch s b c = (vs, s) := by
  induction s with
  | nil => simp at hb
  | cons bc rest ih =>
    rw [List.map_cons, List.pairwise_cons] at hpairB
    rcases List.mem_cons.mp hb with heq | hmem
    · rw [← heq]
      simp [Scriptures.getTouch, chapterGetTouch_found hc hpairC]
    · have hne : bc.1 ≠ b := by
        intro he
        have hm : Book.idx b ∈ rest.map (fun p => Book.idx p.1) :=
          List.mem_map.mpr ⟨(b, chs), hmem, rfl⟩
        have hlt := hpairB.1 (Book.idx b) hm
        rw [he] at hlt
        omega
      simp only [Scriptures.getTouch, hne, if_false]
      rw [ih hmem hpairB.2]

theorem bookWF_pairwise {b : Book} {chs : ChapterDict} (h : bookWF b chs) :
    (chs.map (fun cv => cv.1)).Pairwise (· < ·) := by
  rw [List.pairwise_iff_get]
  intro i j hij
  rw [List.get_map, List.get_map]
  rw [(h i.1 (by simpa using i.2)).1, (h j.1 (by simpa using j.2)).1]
  have : i.1 < j.1 := hij
  omega

theorem scripturesWF_pairwise {s : Scriptures} (h : scripturesWF s) :
    (s.map (fun bc => Book.idx bc.1)).Pairwise (· < ·) :=
  List.chain'_iff_pairwise.mp h.1

theorem bookWF_chapter_mem {b : Book} {chs : ChapterDict} (h : bookWF b chs) :
    ∀ cv ∈ chs, chapterWF b cv.1 cv.2 := by
  intro cv hcv
  obtain ⟨⟨i, hi⟩, hget⟩ := List.mem_iff_get.mp hcv
  have h1 := (h i hi).1
  have h2 := (h i hi).2
  rw [hget] at h1 h2
  rw [← h1] at h2
  exact h2

theorem scripturesWF_keys {s : Scriptures} (h : scripturesWF s) :
    ∀ bc ∈ s, ∀ cv ∈ bc.2, ∀ p ∈ cv.2, (p.1).book = bc.1 ∧ (p.1).chapter = cv.1 := by
  intro bc hbc cv hcv p hp
  have hWF := bookWF_chapter_mem (h.2 bc hbc) cv hcv
  obtain ⟨j, hj, hkey⟩ := chapterWF_mem hWF p hp
  rw [hkey]
  exact ⟨rfl, rfl⟩

theorem scripturesWF_pairwiseC {s : Scriptures} (h : scripturesWF s) :
    ∀ bc ∈ s, (bc.2.map (fun cv => cv.1)).Pairwise (· < ·) := by
  intro bc hbc
  exact bookWF_pairwise (h.2 bc hbc)

/-! ### Catalog decomposition utilities -/

theorem verseEntries_append (l1 l2 : Scriptures) :
    verseEntries (l1 ++ l2) = verseEntries l1 ++ verseEntries l2 := by
  simp [verseEntries]

theorem chapterVersesList_append (l1 l2 : ChapterDict) :
    chapterVersesList (l1 ++ l2) = chapterVersesList l1 ++ chapterVersesList l2 := by
  simp [chapterVersesList]

theorem idx_lt_ne {a b : Book} (h : Book.idx a < Book.idx b) : a ≠ b := by
  intro he
  rw [he] at h
  omega

theorem containsKey_drop_false {x : Verse} {l : List (Verse × String)} (k : Nat)
    (h : containsKey x l = false) : containsKey x (l.drop k) = false := by
  simp only [containsKey, List.any_eq_false] at *
  exact fun p hp => h p (List.mem_of_mem_drop hp)

theorem containsKey_chapterVL_false {x : Verse} {b : Book} {l : ChapterDict}
    (hkeys : ∀ cv ∈ l, ∀ p ∈ cv.2, (p.1).book = b ∧ (p.1).chapter = cv.1)
    (h : ∀ cv ∈ l, ¬(b = x.book ∧ cv.1 = x.chapter)) :
    containsKey x (chapterVersesList l) = false := by
  simp only [containsKey, List.any_eq_false, decide_eq_false_iff_not]
  intro p hp he
  rw [decide_eq_true_eq] at he
  simp only [chapterVersesList, List.mem_flatten, List.mem_map] at hp
  obtain ⟨vs, ⟨cv, hcv, hvs⟩, hpvs⟩ := hp
  have hk := hkeys cv hcv p (hvs ▸ hpvs)
  exact h cv hcv ⟨by rw [← hk.1, he], by rw [← hk.2, he]⟩

theorem containsKey_verseEntries_false {x : Verse} {l : Scriptures}
    (hkeys : ∀ bc ∈ l, ∀ cv ∈ bc.2, ∀ p ∈ cv.2, (p.1).book = bc.1 ∧ (p.1).chapter = cv.1)
    (h : ∀ bc ∈ l, bc.1 ≠ x.book) :
    containsKey x (verseEntries l) = false := by
  induction l with
  | nil => rfl
  | cons bc rest ih =>
    have h1 := containsKey_chapterVL_false (hkeys bc (by simp))
      (fun cv _ hc => h bc (by simp) hc.1)
    have h2 := ih (fun bc' hb => hkeys bc' (by simp [hb])) (fun bc' hb => h bc' (by simp [hb]))
    rw [verseEntries_cons, containsKey_append, h1, h2]
    rfl

theorem bookWF_mem_get {b : Book} {chs : ChapterDict} {c : Nat} {vs : VerseDict}
    (h : bookWF b chs) (hm : (c, vs) ∈ chs) :
    1 ≤ c ∧ c ≤ chs.length ∧ chs.drop (c - 1) = (c, vs) :: chs.drop c := by
  obtain ⟨⟨i, hi⟩, hget⟩ := List.mem_iff_get.mp hm
  have hc : c = i + 1 := by
    have hkey := (h i hi).1
    rw [hget] at hkey
    exact hkey
  refine ⟨by omega, by omega, ?_⟩
  have hlt : c - 1 < chs.length := by omega
  rw [List.drop_eq_getElem_cons hlt]
  have h1 : chs[c - 1] = (c, vs) := by
    have he : c - 1 = i := by omega
    subst he
    rw [List.get_eq_getElem] at hget
    exact hget
  rw [h1]
  have he2 : c - 1 + 1 = c := by omega
  rw [he2]

theorem bookWF_take_keys {b : Book} {chs : ChapterDict} (h : bookWF b chs) (k : Nat) :
    ∀ cv ∈ chs.take k, cv.1 ≤ k := by
  intro cv hcv
  obtain ⟨⟨i, hi⟩, hget⟩ := List.mem_iff_get.mp hcv
  have hi' : i < k ∧ i < chs.length := by
    rw [List.length_take] at hi
    omega
  have hgg : (chs.take k).get ⟨i, hi⟩ = chs.get ⟨i, hi'.2⟩ := by
    rw [List.get_eq_getElem, List.get_eq_getElem]
    exact List.getElem_take chs
  have hkey := (h i hi'.2).1
  rw [← hgg, hget] at hkey
  omega

theorem bookWF_drop_keys {b : Book} {chs : ChapterDict} (h : bookWF b chs) (k : Nat) :
    ∀ cv ∈ chs.drop k, k < cv.1 := by
  intro cv hcv
  obtain ⟨⟨i, hi⟩, hget⟩ := List.mem_iff_get.mp hcv
  have hi' : k + i < chs.length := by
    rw [List.length_drop] at hi
    omega
  have hgg : (chs.drop k).get ⟨i, hi⟩ = chs.get ⟨k + i, hi'⟩ := by
    rw [List.get_eq_getElem, List.get_eq_getElem]
    exact List.getElem_drop chs
  have hkey := (h (k + i) hi').1
  rw [← hgg, hget] at hkey
  omega

theorem sorted_split_one {l : Scriptures} {x : Book × ChapterDict}
    (hp : (l.map (fun bc => Book.idx bc.1)).Pairwise (· < ·)) (hx : x ∈ l) :
    ∃ A Z, l = A ++ x :: Z ∧ (∀ a ∈ A, Book.idx a.1 < Book.idx x.1) ∧
      (∀ z ∈ Z, Book.idx x.1 < Book.idx z.1) ∧
      (Z.map (fun bc => Book.idx bc.1)).Pairwise (· < ·) := by
  induction l with
  | nil => simp at hx
  | cons a rest ih =>
    rw [List.map_cons, List.pairwise_cons] at hp
    rcases List.mem_cons.mp hx with heq | hmem
    · subst heq
      exact ⟨[], rest, rfl, by simp, fun z hz => hp.1 _ (List.mem_map_of_mem _ hz), hp.2⟩
    · obtain ⟨A, Z, hl, hA, hZ, hZp⟩ := ih hp.2 hmem
      refine ⟨a :: A, Z, by rw [hl]; rfl, ?_, hZ, hZp⟩
      intro a' ha'
      rcases List.mem_cons.mp ha' with h1 | h2
      · rw [h1]
        exact hp.1 _ (List.mem_map_of_mem _ hmem)
      · exact hA a' h2

theorem sorted_split_two {l : Scriptures} {x y : Book × ChapterDict}
    (hp : (l.map (fun bc => Book.idx bc.1)).Pairwise (· < ·))
    (hx : x ∈ l) (hy : y ∈ l) (hlt : Book.idx x.1 < Book.idx y.1) :
    ∃ A M Z, l = A ++ x :: (M ++ y :: Z) ∧
      (∀ a ∈ A, Book.idx a.1 < Book.idx x.1) ∧
      (∀ m ∈ M, Book.idx x.1 < Book.idx m.1 ∧ Book.idx m.1 < Book.idx y.1) ∧
      (∀ z ∈ Z, Book.idx y.1 < Book.idx z.1) := by
  obtain ⟨A, Z0, hl, hA, hZ0, hZ0p⟩ := sorted_split_one hp hx
  have hy0 : y ∈ Z0 := by
    rw [hl] at hy
    rcases List.mem_append.mp hy with h1 | h2
    · exact absurd (hA y h1) (by omega)
    · rcases List.mem_cons.mp h2 with h3 | h4
      · rw [h3] at hlt
        omega
      · exact h4
  obtain ⟨M, Z, hz, hM1, hZ, hZp2⟩ := sorted_split_one hZ0p hy0
  refine ⟨A, M, Z, by rw [hl, hz], hA, ?_, hZ⟩
  intro m hm
  exact ⟨hZ0 m (by rw [hz]; simp [hm]), hM1 m hm⟩

theorem takeThrough_drop_block {b : Book} {c : Nat} {vs : VerseDict} (hWF : chapterWF b c vs)
    {v₀ v₁ : Nat} (h0 : 1 ≤ v₀) (h01 : v₀ ≤ v₁) (h2 : v₁ ≤ vs.length) :
    takeThrough ⟨b, c, some v₁⟩ (vs.drop (v₀ - 1)) = (vs.drop (v₀ - 1)).take (v₁ - v₀ + 1) := by
  have hkeys : ∀ j (h : j < (vs.drop (v₀ - 1)).length),
      ((vs.drop (v₀ - 1)).get ⟨j, h⟩).1 = ⟨b, c, some ((v₀ - 1) + j + 1)⟩ := by
    intro j hj
    have hj' : (v₀ - 1) + j < vs.length := by
      rw [List.length_drop] at hj
      omega
    have hgg : (vs.drop (v₀ - 1)).get ⟨j, hj⟩ = vs.get ⟨(v₀ - 1) + j, hj'⟩ := by
      rw [List.get_eq_getElem, List.get_eq_getElem]
      exact List.getElem_drop vs
    rw [hgg]
    exact hWF.2 _ hj'
  have hres := takeThrough_block_aux b c (vs.drop (v₀ - 1)) (v₀ - 1) v₁ hkeys (by omega)
    (by rw [List.length_drop]; omega)
  rw [hres]
  have he : v₁ - (v₀ - 1) = v₁ - v₀ + 1 := by omega
  rw [he]

theorem containsKey_drop_block {b : Book} {c : Nat} {vs : VerseDict} (hWF : chapterWF b c vs)
    {v₀ v₁ : Nat} (h0 : 1 ≤ v₀) (h01 : v₀ ≤ v₁) (h2 : v₁ ≤ vs.length) :
    containsKey ⟨b, c, some v₁⟩ (vs.drop (v₀ - 1)) = true := by
  simp only [containsKey, List.any_eq_true]
  have hj : v₁ - v₀ < (vs.drop (v₀ - 1)).length := by
    rw [List.length_drop]
    omega
  refine ⟨(vs.drop (v₀ - 1)).get ⟨v₁ - v₀, hj⟩, List.get_mem _ _ _, ?_⟩
  have hj' : (v₀ - 1) + (v₁ - v₀) < vs.length := by omega
  have hgg : (vs.drop (v₀ - 1)).get ⟨v₁ - v₀, hj⟩ = vs.get ⟨(v₀ - 1) + (v₁ - v₀), hj'⟩ := by
    rw [List.get_eq_getElem, List.get_eq_getElem]
    exact List.getElem_drop vs
  rw [hgg, hWF.2 _ hj']
  simp
  omega

theorem drop_take_full {α : Type} (vs : List α) (v₀ : Nat) :
    (vs.drop (v₀ - 1)).take (vs.length - v₀ + 1) = vs.drop (v₀ - 1) := by
  apply List.take_of_length_le
  rw [List.length_drop]
  omega

/-! ### `String.intercalate` over concatenations of nonempty pieces -/

theorem intercalate_go_acc (s : String) : ∀ (l : List String) (x y : String),
    String.intercalate.go (x ++ y) s l = x ++ String.intercalate.go y s l := by
  intro l
  induction l with
  | nil => intro x y; rfl
  | cons a as ih =>
    intro x y
    show String.intercalate.go (x ++ y ++ s ++ a) s as =
      x ++ String.intercalate.go (y ++ s ++ a) s as
    have he : x ++ y ++ s ++ a = x ++ (y ++ s ++ a) := by
      simp [String.append_assoc]
    rw [he, ih]

theorem intercalate_go_append (s b : String) (bs : List String) :
    ∀ (as : List String) (acc : String),
    String.intercalate.go acc s (as ++ b :: bs) =
      String.intercalate.go acc s as ++ s ++ String.intercalate.go b s bs := by
  intro as
  induction as with
  | nil =>
    intro acc
    show String.intercalate.go (acc ++ s ++ b) s bs = acc ++ s ++ String.intercalate.go b s bs
    rw [show acc ++ s ++ b = (acc ++ s) ++ b from rfl, intercalate_go_acc s bs (acc ++ s) b]
  | cons x xs ih =>
    intro acc
    show String.intercalate.go (acc ++ s ++ x) s (xs ++ b :: bs) =
      String.intercalate.go (acc ++ s ++ x) s xs ++ s ++ String.intercalate.go b s bs
    exact ih (acc ++ s ++ x)

theorem intercalate_cons_ne (s a : String) {l : List String} (h : l ≠ []) :
    String.intercalate s (a :: l) = a ++ s ++ String.intercalate s l := by
  match l, h with
  | b :: bs, _ =>
    show String.intercalate.go (a ++ s ++ b) s bs =
      a ++ s ++ String.intercalate.go b s bs
    rw [show a ++ s ++ b = (a ++ s) ++ b from rfl, intercalate_go_acc s bs (a ++ s) b]

theorem intercalate_append_ne (s : String) {l1 l2 : List String} (h1 : l1 ≠ []) (h2 : l2 ≠ []) :
    String.intercalate s (l1 ++ l2) =
      String.intercalate s l1 ++ s ++ String.intercalate s l2 := by
  match l1, h1, l2, h2 with
  | a :: as, _, b :: bs, _ =>
    show String.intercalate.go a s (as ++ b :: bs) =
      String.intercalate.go a s as ++ s ++ String.intercalate.go b s bs
    exact intercalate_go_append s b bs as a

theorem intercalate_flatten (s : String) :
    ∀ (Ls : List (List String)), (∀ l ∈ Ls, l ≠ []) →
    String.intercalate s (Ls.map (String.intercalate s)) =
      String.intercalate s Ls.flatten := by
  intro Ls
  induction Ls with
  | nil => intro _; rfl
  | cons l rest ih =>
    intro h
    have hl : l ≠ [] := h l (by simp)
    match rest, ih, h with
    | [], _, _ =>
      show String.intercalate s [String.intercalate s l] = String.intercalate s (l ++ [])
      rw [List.append_nil]
      rfl
    | r :: rs, ih, h =>
      have hrest : ∀ l' ∈ r :: rs, l' ≠ [] := fun l' hl' => h l' (by simp [hl'])
      have hrne : (List.map (String.intercalate s) (r :: rs)) ≠ [] := by simp
      have hfl : ((r :: rs).flatten : List String) ≠ [] := by
        rw [List.flatten_ne_nil_iff]
        exact ⟨r, by simp, hrest r (by simp)⟩
      rw [List.map_cons, intercalate_cons_ne s _ hrne, ih hrest,
        show (l :: r :: rs).flatten = l ++ (r :: rs).flatten from rfl,
        intercalate_append_ne s hl hfl]

/-! ### The range walk localized to catalog blocks -/

theorem bookWF_drop_take_keys {b : Book} {chs : ChapterDict} (h : bookWF b chs) (m k : Nat) :
    ∀ cv ∈ (chs.drop m).take k, m < cv.1 ∧ cv.1 ≤ m + k := by
  intro cv hcv
  obtain ⟨⟨i, hi⟩, hget⟩ := List.mem_iff_get.mp hcv
  have hi' : i < k ∧ i < (chs.drop m).length := by
    rw [List.length_take] at hi
    omega
  have hi'' : m + i < chs.length := by
    have := hi'.2
    rw [List.length_drop] at this
    omega
  have hgg : ((chs.drop m).take k).get ⟨i, hi⟩ = chs.get ⟨m + i, hi''⟩ := by
    rw [List.get_eq_getElem, List.get_eq_getElem]
    rw [List.getElem_take (chs.drop m)]
    exact List.getElem_drop chs
  have hkey := (h (m + i) hi'').1
  rw [← hgg, hget] at hkey
  omega

theorem walk_same_chapter {s : Scriptures} (hWF : scripturesWF s)
    {b : Book} {chs : ChapterDict} {c : Nat} {vs : VerseDict}
    (hb : (b, chs) ∈ s) (hc : (c, vs) ∈ chs)
    {v₀ v₁ : Nat} (h0 : 1 ≤ v₀) (h01 : v₀ ≤ v₁) (h2 : v₁ ≤ vs.length) :
    (bookLoop ⟨b, c, some v₀⟩ ⟨b, c, some v₁⟩ false s).2.2 =
      ((vs.drop (v₀ - 1)).take (v₁ - v₀ + 1)).map (fun p => verseLine p.1 p.2) := by
  have hkeys := scripturesWF_keys hWF
  have hpairB := scripturesWF_pairwise hWF
  have hpairC := scripturesWF_pairwiseC hWF
  have hbWF : bookWF b chs := hWF.2 (b, chs) hb
  have hcWF : chapterWF b c vs := bookWF_chapter_mem hbWF (c, vs) hc
  obtain ⟨hc1, hc2, hdropc⟩ := bookWF_mem_get hbWF hc
  obtain ⟨A, Z, hl, hA, hZ, hZp⟩ := sorted_split_one hpairB hb
  have hCV : chapterVersesList chs =
      chapterVersesList (chs.take (c - 1)) ++ (vs ++ chapterVersesList (chs.drop c)) := by
    conv_lhs => rw [← List.take_append_drop (c - 1) chs]
    rw [chapterVersesList_append, hdropc, chapterVersesList_cons]
  have hVE : verseEntries s =
      verseEntries A ++ (chapterVersesList (chs.take (c - 1)) ++ (vs ++
        (chapterVersesList (chs.drop c) ++ verseEntries Z))) := by
    rw [hl, verseEntries_append, verseEntries_cons, hCV]
    simp [List.append_assoc]
  have hnA : containsKey (⟨b, c, some v₀⟩ : Verse) (verseEntries A) = false := by
    refine containsKey_verseEntries_false (fun bc hbc => hkeys bc (by rw [hl]; simp [hbc])) ?_
    intro bc hbc
    exact idx_lt_ne (hA bc hbc)
  have hnT : containsKey (⟨b, c, some v₀⟩ : Verse)
      (chapterVersesList (chs.take (c - 1))) = false := by
    refine containsKey_chapterVL_false
      (fun cv hcv => hkeys (b, chs) (by rw [hl]; simp) cv (List.mem_of_mem_take hcv)) ?_
    intro cv hcv hcon
    have := bookWF_take_keys hbWF (c - 1) cv hcv
    have hcp : cv.1 = c := hcon.2
    omega
  have hin0 : containsKey (⟨b, c, some v₀⟩ : Verse) vs = true :=
    containsKey_block hcWF h0 (by omega)
  rw [bookLoop_false _ _ s hkeys hpairB hpairC]
  dsimp only
  rw [hVE, dropBefore_append_of_not hnA, dropBefore_append_of_not hnT,
    dropBefore_append_of_contains hin0, dropBefore_block hcWF h0 (by omega),
    takeThrough_append_of_contains (containsKey_drop_block hcWF h0 h01 h2),
    takeThrough_drop_block hcWF h0 h01 h2]

/-- The walk between two chapters of the same book: the tail of the starting
chapter, the chapters strictly between, and the head of the ending chapter. -/
theorem walk_same_book {s : Scriptures} (hWF : scripturesWF s)
    {b : Book} {chs : ChapterDict} {c₀ c₁ : Nat} {vs₀ vs₁ : VerseDict}
    (hb : (b, chs) ∈ s) (hc0 : (c₀, vs₀) ∈ chs) (hc1 : (c₁, vs₁) ∈ chs) (hcc : c₀ < c₁)
    {v₀ v₁ : Nat} (h00 : 1 ≤ v₀) (h02 : v₀ ≤ vs₀.length)
    (h10 : 1 ≤ v₁) (h12 : v₁ ≤ vs₁.length) :
    (bookLoop ⟨b, c₀, some v₀⟩ ⟨b, c₁, some v₁⟩ false s).2.2 =
      (vs₀.drop (v₀ - 1) ++ (chapterVersesList ((chs.drop c₀).take (c₁ - c₀ - 1)) ++
        vs₁.take v₁)).map (fun p => verseLine p.1 p.2) := by
  have hkeys := scripturesWF_keys hWF
  have hpairB := scripturesWF_pairwise hWF
  have hpairC := scripturesWF_pairwiseC hWF
  have hbWF : bookWF b chs := hWF.2 (b, chs) hb
  have hcWF0 : chapterWF b c₀ vs₀ := bookWF_chapter_mem hbWF (c₀, vs₀) hc0
  have hcWF1 : chapterWF b c₁ vs₁ := bookWF_chapter_mem hbWF (c₁, vs₁) hc1
  obtain ⟨hc01, hc02, hdropc0⟩ := bookWF_mem_get hbWF hc0
  obtain ⟨hc11, hc12, hdropc1⟩ := bookWF_mem_get hbWF hc1
  obtain ⟨A, Z, hl, hA, hZ, hZp⟩ := sorted_split_one hpairB hb
  have hmidsplit : chs.drop c₀ =
      (chs.drop c₀).take (c₁ - c₀ - 1) ++ ((c₁, vs₁) :: chs.drop c₁) := by
    conv_lhs => rw [← List.take_append_drop (c₁ - c₀ - 1) (chs.drop c₀)]
    rw [List.drop_drop]
    have he : c₀ + (c₁ - c₀ - 1) = c₁ - 1 := by omega
    rw [he, hdropc1]
  have hCV : chapterVersesList chs =
      chapterVersesList (chs.take (c₀ - 1)) ++ (vs₀ ++
        (chapterVersesList ((chs.drop c₀).take (c₁ - c₀ - 1)) ++ (vs₁ ++
          chapterVersesList (chs.drop c₁)))) := by
    conv_lhs => rw [← List.take_append_drop (c₀ - 1) chs]
    conv_lhs => rw [chapterVersesList_append, hdropc0, chapterVersesList_cons]
    conv_lhs => rw [hmidsplit, chapterVersesList_append, chapterVersesList_cons]
  have hVE : verseEntries s =
      verseEntries A ++ (chapterVersesList (chs.take (c₀ - 1)) ++ (vs₀ ++
        (chapterVersesList ((chs.drop c₀).take (c₁ - c₀ - 1)) ++ (vs₁ ++
          (chapterVersesList (chs.drop c₁) ++ verseEntries Z))))) := by
    rw [hl, verseEntries_append, verseEntries_cons, hCV]
    simp [List.append_assoc]
  have hkeysTop : ∀ cv ∈ chs, ∀ p ∈ cv.2, (p.1).book = b ∧ (p.1).chapter = cv.1 :=
    fun cv hcv => hkeys (b, chs) (by rw [hl]; simp) cv hcv
  have hnA : containsKey (⟨b, c₀, some v₀⟩ : Verse) (verseEntries A) = false := by
    refine containsKey_verseEntries_false (fun bc hbc => hkeys bc (by rw [hl]; simp [hbc])) ?_
    intro bc hbc
    exact idx_lt_ne (hA bc hbc)
  have hnT : containsKey (⟨b, c₀, some v₀⟩ : Verse)
      (chapterVersesList (chs.take (c₀ - 1))) = false := by
    refine containsKey_chapterVL_false
      (fun cv hcv => hkeysTop cv (List.mem_of_mem_take hcv)) ?_
    intro cv hcv hcon
    have := bookWF_take_keys hbWF (c₀ - 1) cv hcv
    have hcp : cv.1 = c₀ := hcon.2
    omega
  have hin0 : containsKey (⟨b, c₀, some v₀⟩ : Verse) vs₀ = true :=
    containsKey_block hcWF0 h00 h02
  have hnE0 : containsKey (⟨b, c₁, some v₁⟩ : Verse) (vs₀.drop (v₀ - 1)) = false := by
    refine containsKey_drop_false _ (not_containsKey_of_ne hcWF0 (Or.inr ?_))
    simp only [ne_eq]
    omega
  have hnEM : containsKey (⟨b, c₁, some v₁⟩ : Verse)
      (chapterVersesList ((chs.drop c₀).take (c₁ - c₀ - 1))) = false := by
    refine containsKey_chapterVL_false
      (fun cv hcv => hkeysTop cv (List.mem_of_mem_drop (List.mem_of_mem_take hcv))) ?_
    intro cv hcv hcon
    have := bookWF_drop_take_keys hbWF c₀ (c₁ - c₀ - 1) cv hcv
    have hcp : cv.1 = c₁ := hcon.2
    omega
  have hin1 : containsKey (⟨b, c₁, some v₁⟩ : Verse) vs₁ = true :=
    containsKey_block hcWF1 h10 h12
  rw [bookLoop_false _ _ s hkeys hpairB hpairC]
  dsimp only
  rw [hVE, dropBefore_append_of_not hnA, dropBefore_append_of_not hnT,
    dropBefore_append_of_contains hin0, dropBefore_block hcWF0 h00 h02,
    takeThrough_append_of_not hnE0,
    takeThrough_append_of_not hnEM, takeThrough_append_of_contains hin1]
  have htt : takeThrough (⟨b, c₁, some v₁⟩ : Verse) vs₁ = vs₁.take v₁ :=
    takeThrough_block hcWF1 h10 h12
  rw [htt]

/-- The walk between chapters of two different books: the tail of the starting
chapter and of the starting book, all chapters of the catalog books strictly
between, and the head chapters of the ending book up through the head of the
ending chapter. -/
theorem walk_cross_book {s : Scriptures} (hWF : scripturesWF s)
    {b₀ b₁ : Book} {chs₀ chs₁ : ChapterDict} {c₀ c₁ : Nat} {vs₀ vs₁ : VerseDict}
    {A M Z : Scriptures}
    (hl : s = A ++ (b₀, chs₀) :: (M ++ (b₁, chs₁) :: Z))
    (hA : ∀ a ∈ A, Book.idx a.1 < Book.idx b₀)
    (hM : ∀ m ∈ M, Book.idx b₀ < Book.idx m.1 ∧ Book.idx m.1 < Book.idx b₁)
    (hbb : Book.idx b₀ < Book.idx b₁)
    (hc0 : (c₀, vs₀) ∈ chs₀) (hc1 : (c₁, vs₁) ∈ chs₁)
    {v₀ v₁ : Nat} (h00 : 1 ≤ v₀) (h02 : v₀ ≤ vs₀.length)
    (h10 : 1 ≤ v₁) (h12 : v₁ ≤ vs₁.length) :
    (bookLoop ⟨b₀, c₀, some v₀⟩ ⟨b₁, c₁, some v₁⟩ false s).2.2 =
      (vs₀.drop (v₀ - 1) ++ (chapterVersesList (chs₀.drop c₀) ++ (verseEntries M ++
        (chapterVersesList (chs₁.take (c₁ - 1)) ++ vs₁.take v₁)))).map
        (fun p => verseLine p.1 p.2) := by
  have hkeys := scripturesWF_keys hWF
  have hpairB := scripturesWF_pairwise hWF
  have hpairC := scripturesWF_pairwiseC hWF
  have hb0 : (b₀, chs₀) ∈ s := by rw [hl]; simp
  have hb1 : (b₁, chs₁) ∈ s := by rw [hl]; simp
  have hbWF0 : bookWF b₀ chs₀ := hWF.2 (b₀, chs₀) hb0
  have hbWF1 : bookWF b₁ chs₁ := hWF.2 (b₁, chs₁) hb1
  have hcWF0 : chapterWF b₀ c₀ vs₀ := bookWF_chapter_mem hbWF0 (c₀, vs₀) hc0
  have hcWF1 : chapterWF b₁ c₁ vs₁ := bookWF_chapter_mem hbWF1 (c₁, vs₁) hc1
  obtain ⟨hc01, hc02, hdropc0⟩ := bookWF_mem_get hbWF0 hc0
  obtain ⟨hc11, hc12, hdropc1⟩ := bookWF_mem_get hbWF1 hc1
  have hCV0 : chapterVersesList chs₀ =
      chapterVersesList (chs₀.take (c₀ - 1)) ++ (vs₀ ++ chapterVersesList (chs₀.drop c₀)) := by
    conv_lhs => rw [← List.take_append_drop (c₀ - 1) chs₀]
    rw [chapterVersesList_append, hdropc0, chapterVersesList_cons]
  have hCV1 : chapterVersesList chs₁ =
      chapterVersesList (chs₁.take (c₁ - 1)) ++ (vs₁ ++ chapterVersesList (chs₁.drop c₁)) := by
    conv_lhs => rw [← List.take_append_drop (c₁ - 1) chs₁]
    rw [chapterVersesList_append, hdropc1, chapterVersesList_cons]
  have hVE : verseEntries s =
      verseEntries A ++ (chapterVersesList (chs₀.take (c₀ - 1)) ++ (vs₀ ++
        (chapterVersesList (chs₀.drop c₀) ++ (verseEntries M ++
          (chapterVersesList (chs₁.take (c₁ - 1)) ++ (vs₁ ++
            (chapterVersesList (chs₁.drop c₁) ++ verseEntries Z))))))) := by
    rw [hl, verseEntries_append, verseEntries_cons, verseEntries_append,
      verseEntries_cons, hCV0, hCV1]
    simp [List.append_assoc]
  have hkeys0 : ∀ cv ∈ chs₀, ∀ p ∈ cv.2, (p.1).book = b₀ ∧ (p.1).chapter = cv.1 :=
    fun cv hcv => hkeys (b₀, chs₀) hb0 cv hcv
  have hkeys1 : ∀ cv ∈ chs₁, ∀ p ∈ cv.2, (p.1).book = b₁ ∧ (p.1).chapter = cv.1 :=
    fun cv hcv => hkeys (b₁, chs₁) hb1 cv hcv
  have hnA : containsKey (⟨b₀, c₀, some v₀⟩ : Verse) (verseEntries A) = false := by
    refine containsKey_verseEntries_false (fun bc hbc => hkeys bc (by rw [hl]; simp [hbc])) ?_
    intro bc hbc
    exact idx_lt_ne (hA bc hbc)
  have hnT : containsKey (⟨b₀, c₀, some v₀⟩ : Verse)
      (chapterVersesList (chs₀.take (c₀ - 1))) = false := by
    refine containsKey_chapterVL_false
      (fun cv hcv => hkeys0 cv (List.mem_of_mem_take hcv)) ?_
    intro cv hcv hcon
    have := bookWF_take_keys hbWF0 (c₀ - 1) cv hcv
    have hcp : cv.1 = c₀ := hcon.2
    omega
  have hin0 : containsKey (⟨b₀, c₀, some v₀⟩ : Verse) vs₀ = true :=
    containsKey_block hcWF0 h00 h02
  have hb01 : b₀ ≠ b₁ := idx_lt_ne hbb
  have hnE0 : containsKey (⟨b₁, c₁, some v₁⟩ : Verse) (vs₀.drop (v₀ - 1)) = false := by
    refine containsKey_drop_false _ (not_containsKey_of_ne hcWF0 (Or.inl ?_))
    simp only [ne_eq]
    exact fun h => hb01 h.symm
  have hnED : containsKey (⟨b₁, c₁, some v₁⟩ : Verse)
      (chapterVersesList (chs₀.drop c₀)) = false := by
    refine containsKey_chapterVL_false
      (fun cv hcv => hkeys0 cv (List.mem_of_mem_drop hcv)) ?_
    intro cv hcv hcon
    exact hb01 hcon.1
  have hnEM : containsKey (⟨b₁, c₁, some v₁⟩ : Verse) (verseEntries M) = false := by
    refine containsKey_verseEntries_false
      (fun bc hbc => hkeys bc (by rw [hl]; simp [hbc])) ?_
    intro bc hbc
    exact idx_lt_ne (hM bc hbc).2
  have hnE1 : containsKey (⟨b₁, c₁, some v₁⟩ : Verse)
      (chapterVersesList (chs₁.take (c₁ - 1))) = false := by
    refine containsKey_chapterVL_false
      (fun cv hcv => hkeys1 cv (List.mem_of_mem_take hcv)) ?_
    intro cv hcv hcon
    have := bookWF_take_keys hbWF1 (c₁ - 1) cv hcv
    have hcp : cv.1 = c₁ := hcon.2
    omega
  have hin1 : containsKey (⟨b₁, c₁, some v₁⟩ : Verse) vs₁ = true :=
    containsKey_block hcWF1 h10 h12
  rw [bookLoop_false _ _ s hkeys hpairB hpairC]
  dsimp only
  rw [hVE, dropBefore_append_of_not hnA, dropBefore_append_of_not hnT,
    dropBefore_append_of_contains hin0, dropBefore_block hcWF0 h00 h02,
    takeThrough_append_of_not hnE0,
    takeThrough_append_of_not hnED, takeThrough_append_of_not hnEM,
    takeThrough_append_of_not hnE1, takeThrough_append_of_contains hin1]
  have htt : takeThrough (⟨b₁, c₁, some v₁⟩ : Verse) vs₁ = vs₁.take v₁ :=
    takeThrough_block hcWF1 h10 h12
  rw [htt]

/-! ### The lines of the sub-references `split_chapters` emits -/

theorem dictGet_first {b : Book} {c : Nat} {vs : VerseDict} (hWF : chapterWF b c vs) :
    ∃ t, vs.take 1 = [(⟨b, c, some 1⟩, t)] ∧ dictGet vs ⟨b, c, some 1⟩ = some t := by
  match vs, hWF.1 with
  | p :: rest, _ =>
    have h0 : p.1 = (⟨b, c, some 1⟩ : Verse) := by
      have := hWF.2 0 (by simp)
      simpa using this
    refine ⟨p.2, ?_, ?_⟩
    · have hp : p = ((⟨b, c, some 1⟩ : Verse), p.2) := by rw [← h0]
      rw [show (p :: rest).take 1 = [p] from rfl, hp]
    · unfold dictGet
      rw [List.find?_cons_of_pos _ (by simp [h0])]
      rfl

/-- `get_scripture_lines` of the head sub-reference `start_verse - chapter end`:
the tail of the starting chapter from the starting verse on. -/
theorem head_ref_lines {s : Scriptures} (hWF : scripturesWF s)
    {b : Book} {chs : ChapterDict} {c : Nat} {vs : VerseDict}
    (hb : (b, chs) ∈ s) (hc : (c, vs) ∈ chs)
    {v₀ : Nat} (h0 : 1 ≤ v₀) (h02 : v₀ ≤ vs.length) :
    ScriptureReference.get_scripture_lines
        (ScriptureReference.make ⟨b, c, some v₀⟩ (some ⟨b, c, none⟩)) s =
      (.ok ((vs.drop (v₀ - 1)).map (fun p => verseLine p.1 p.2)), s) := by
  have hbWF : bookWF b chs := hWF.2 (b, chs) hb
  have hcWF : chapterWF b c vs := bookWF_chapter_mem hbWF (c, vs) hc
  have hlen : 1 ≤ vs.length := List.length_pos.mpr hcWF.1
  have htouch : Scriptures.getTouch s b c = (vs, s) :=
    scripturesGetTouch_found hb hc (scripturesWF_pairwise hWF) (bookWF_pairwise hbWF)
  have hmake : ScriptureReference.make ⟨b, c, some v₀⟩ (some ⟨b, c, none⟩) =
      ⟨⟨b, c, some v₀⟩, some ⟨b, c, none⟩⟩ := by
    simp [ScriptureReference.make]
  rw [hmake]
  simp only [ScriptureReference.get_scripture_lines, htouch, block_getLast hcWF]
  rw [walk_same_chapter hWF hb hc h0 h02 (le_refl _)]
  rw [drop_take_full]

/-- `get_scripture_lines` of a whole-chapter sub-reference `b ch:1 - b ch`:
all the lines of that chapter. -/
theorem whole_chapter_lines {s : Scriptures} (hWF : scripturesWF s)
    {b : Book} {chs : ChapterDict} {ch : Nat} {vs : VerseDict}
    (hb : (b, chs) ∈ s) (hc : (ch, vs) ∈ chs) :
    ScriptureReference.get_scripture_lines
        (ScriptureReference.make ⟨b, ch, some 1⟩ (some ⟨b, ch, none⟩)) s =
      (.ok (vs.map (fun p => verseLine p.1 p.2)), s) := by
  have hcWF : chapterWF b ch vs := bookWF_chapter_mem (hWF.2 (b, chs) hb) (ch, vs) hc
  have hlen : 1 ≤ vs.length := List.length_pos.mpr hcWF.1
  have h := head_ref_lines hWF hb hc (le_refl 1) hlen
  simpa using h

/-- `get_scripture_lines` of the final sub-reference `b₁ c₁:1 - b₁ c₁:v₁`:
the head of the ending chapter up through the ending verse.  (When `v₁ = 1`
the model validator collapses the reference to a bare single verse, whose
branch of `get_scripture_text` looks the verse up directly.) -/
theorem final_ref_lines {s : Scriptures} (hWF : scripturesWF s)
    {b : Book} {chs : ChapterDict} {c : Nat} {vs : VerseDict}
    (hb : (b, chs) ∈ s) (hc : (c, vs) ∈ chs)
    {v₁ : Nat} (h10 : 1 ≤ v₁) (h12 : v₁ ≤ vs.length) :
    ScriptureReference.get_scripture_lines
        (ScriptureReference.make ⟨b, c, some 1⟩ (some ⟨b, c, some v₁⟩)) s =
      (.ok ((vs.take v₁).map (fun p => verseLine p.1 p.2)), s) := by
  have hbWF : bookWF b chs := hWF.2 (b, chs) hb
  have hcWF : chapterWF b c vs := bookWF_chapter_mem hbWF (c, vs) hc
  have htouch : Scriptures.getTouch s b c = (vs, s) :=
    scripturesGetTouch_found hb hc (scripturesWF_pairwise hWF) (bookWF_pairwise hbWF)
  by_cases hv : v₁ = 1
  · subst hv
    have hmake : ScriptureReference.make ⟨b, c, some 1⟩ (some ⟨b, c, some 1⟩) =
        ⟨⟨b, c, some 1⟩, none⟩ := by
      simp [ScriptureReference.make]
    rw [hmake]
    obtain ⟨t, htake, hget⟩ := dictGet_first hcWF
    simp only [ScriptureReference.get_scripture_lines, htouch, hget, htake]
    simp [verseLine, pyShowOpt]
  · have hne : ¬ ((⟨b, c, some v₁⟩ : Verse) = ⟨b, c, some 1⟩) := by
      intro hcon
      injection hcon with _ _ hv'
      injection hv' with hv'
      exact hv hv'
    have hmake : ScriptureReference.make ⟨b, c, some 1⟩ (some ⟨b, c, some v₁⟩) =
        ⟨⟨b, c, some 1⟩, some ⟨b, c, some v₁⟩⟩ := by
      simp [ScriptureReference.make, hne]
    rw [hmake]
    simp only [ScriptureReference.get_scripture_lines]
    rw [walk_same_chapter hWF hb hc (le_refl 1) h10 h12]
    have he : v₁ - 1 + 1 = v₁ := by omega
    simp [he]

/-! ### The chapter `while` loop and book loop of `split_chapters`, localized -/

theorem chapterWhile_unfold (book : Book) (ev : Verse) (cur n : Nat) :
    chapterWhile book ev cur n =
      if cur ≤ n then
        (if book = ev.book ∧ cur = ev.chapter then
          [ScriptureReference.make ⟨book, cur, some 1⟩ (some ev)]
        else
          ScriptureReference.make ⟨book, cur, some 1⟩ (some ⟨book, cur, none⟩) ::
            chapterWhile book ev (cur + 1) n)
      else [] := by
  by_cases h : cur ≤ n
  · unfold chapterWhile
    rw [show n + 1 - cur = (n - cur) + 1 from by omega,
      show n + 1 - (cur + 1) = n - cur from by omega]
    simp only [chapterWhileFuel]
  · unfold chapterWhile
    rw [show n + 1 - cur = 0 from by omega]
    simp only [chapterWhileFuel]
    rw [if_neg h]

theorem chapterWhile_lines_noend {s : Scriptures} (hWF : scripturesWF s)
    {book : Book} {chs : ChapterDict} (hb : (book, chs) ∈ s) (ev : Verse)
    (hne : book ≠ ev.book) :
    ∀ k cur, 1 ≤ cur → chs.length + 1 - cur = k →
    (chapterWhile book ev cur chs.length).map
        (fun r => (ScriptureReference.get_scripture_lines r s).1) =
      (chs.drop (cur - 1)).map
        (fun cv => Except.ok (cv.2.map (fun p => verseLine p.1 p.2))) := by
  intro k
  induction k with
  | zero =>
    intro cur h1 hk
    rw [chapterWhile_unfold, if_neg (by omega), List.drop_eq_nil_of_le (by omega)]
    rfl
  | succ k ih =>
    intro cur h1 hk
    by_cases hcn : cur ≤ chs.length
    · have hbWF : bookWF book chs := hWF.2 (book, chs) hb
      have hlt : cur - 1 < chs.length := by omega
      have hkey : (chs.get ⟨cur - 1, hlt⟩).1 = cur := by
        have h := (hbWF (cur - 1) hlt).1
        omega
      have hmemc : (cur, (chs.get ⟨cur - 1, hlt⟩).2) ∈ chs := by
        have he : (cur, (chs.get ⟨cur - 1, hlt⟩).2) = chs.get ⟨cur - 1, hlt⟩ :=
          Prod.ext hkey.symm rfl
        rw [he]
        exact List.get_mem _ _ _
      rw [chapterWhile_unfold, if_pos hcn, if_neg (fun hc => hne hc.1),
        List.map_cons, whole_chapter_lines hWF hb hmemc,
        ih (cur + 1) (by omega) (by omega),
        List.drop_eq_getElem_cons hlt, List.map_cons]
      rw [show cur - 1 + 1 = cur from by omega]
      simp [List.get_eq_getElem]
    · rw [chapterWhile_unfold, if_neg hcn, List.drop_eq_nil_of_le (by omega)]
      rfl

theorem chapterWhile_lines_end {s : Scriptures} (hWF : scripturesWF s)
    {book : Book} {chs : ChapterDict} (hb : (book, chs) ∈ s) (ev : Verse)
    (heq : book = ev.book) (hlen : ev.chapter ≤ chs.length) :
    ∀ k cur, 1 ≤ cur → cur ≤ ev.chapter → ev.chapter + 1 - cur = k →
    (chapterWhile book ev cur chs.length).map
        (fun r => (ScriptureReference.get_scripture_lines r s).1) =
      ((chs.drop (cur - 1)).take (ev.chapter - cur)).map
          (fun cv => Except.ok (cv.2.map (fun p => verseLine p.1 p.2))) ++
        [(ScriptureReference.get_scripture_lines
            (ScriptureReference.make ⟨book, ev.chapter, some 1⟩ (some ev)) s).1] := by
  intro k
  induction k with
  | zero =>
    intro cur h1 h2 hk
    omega
  | succ k ih =>
    intro cur h1 h2 hk
    by_cases hstop : cur = ev.chapter
    · subst hstop
      rw [chapterWhile_unfold, if_pos (by omega), if_pos ⟨heq, rfl⟩]
      rw [show ev.chapter - ev.chapter = 0 from by omega]
      simp
    · have hcur1 : cur < ev.chapter := by omega
      have hbWF : bookWF book chs := hWF.2 (book, chs) hb
      have hlt : cur - 1 < chs.length := by omega
      have hkey : (chs.get ⟨cur - 1, hlt⟩).1 = cur := by
        have h := (hbWF (cur - 1) hlt).1
        omega
      have hmemc : (cur, (chs.get ⟨cur - 1, hlt⟩).2) ∈ chs := by
        have he : (cur, (chs.get ⟨cur - 1, hlt⟩).2) = chs.get ⟨cur - 1, hlt⟩ :=
          Prod.ext hkey.symm rfl
        rw [he]
        exact List.get_mem _ _ _
      rw [chapterWhile_unfold, if_pos (by omega), if_neg (fun hc => hstop hc.2),
        List.map_cons, whole_chapter_lines hWF hb hmemc,
        ih (cur + 1) (by omega) (by omega) (by omega),
        List.drop_eq_getElem_cons hlt,
        show ev.chapter - cur = (ev.chapter - (cur + 1)) + 1 from by omega,
        List.take_succ_cons, List.map_cons]
      rw [show cur - 1 + 1 = cur from by omega, List.cons_append]
      simp [List.get_eq_getElem]

theorem splitBooks_skip_before (sv ev : Verse) :
    ∀ (A l : Scriptures), (∀ a ∈ A, Book.idx a.1 < Book.idx sv.book) →
    splitBooks sv ev false (A ++ l) = splitBooks sv ev false l := by
  intro A
  induction A with
  | nil => intro l _; rfl
  | cons a rest ih =>
    intro l h
    rw [List.cons_append]
    simp only [splitBooks]
    rw [if_pos (Or.inl (h a (by simp)))]
    exact ih l (fun a' ha' => h a' (by simp [ha']))

theorem splitBooks_skip_after (sv ev : Verse) :
    ∀ (Z : Scriptures), (∀ z ∈ Z, Book.idx ev.book < Book.idx z.1) →
    splitBooks sv ev true Z = [] := by
  intro Z
  induction Z with
  | nil => intro _; rfl
  | cons z rest ih =>
    intro h
    simp only [splitBooks]
    rw [if_pos (Or.inr ⟨trivial, h z (by simp)⟩)]
    exact ih (fun z' hz' => h z' (by simp [hz']))

theorem splitBooks_start_book (sv ev : Verse) (chs : ChapterDict) (rest : Scriptures) :
    splitBooks sv ev false ((sv.book, chs) :: rest) =
      chapterWhile sv.book ev (sv.chapter + 1) chs.length ++ splitBooks sv ev true rest := by
  simp only [splitBooks]
  rw [if_neg (by simp), if_pos (by simp)]

theorem splitBooks_mid_books (sv ev : Verse) :
    ∀ (M rest : Scriptures),
      (∀ m ∈ M, Book.idx sv.book < Book.idx m.1 ∧ Book.idx m.1 < Book.idx ev.book) →
    splitBooks sv ev true (M ++ rest) =
      (M.map (fun m => chapterWhile m.1 ev 1 m.2.length)).flatten ++
        splitBooks sv ev true rest := by
  intro M
  induction M with
  | nil => intro rest _; rfl
  | cons m ms ih =>
    intro rest h
    have hm := h m (by simp)
    rw [List.cons_append]
    simp only [splitBooks]
    rw [if_neg ?_]
    · rw [if_neg (fun hc => by simp at hc)]
      rw [ih rest (fun m' hm' => h m' (by simp [hm'])),
        List.map_cons, List.flatten_cons, List.append_assoc]
    · intro hc
      rcases hc with h1 | h2
      · omega
      · exact absurd h2.2 (by omega)

theorem splitBooks_end_book (sv ev : Verse) (chs : ChapterDict) (rest : Scriptures)
    (hgt : Book.idx sv.book < Book.idx ev.book)
    (hrest : ∀ z ∈ rest, Book.idx ev.book < Book.idx z.1) :
    splitBooks sv ev true ((ev.book, chs) :: rest) =
      chapterWhile ev.book ev 1 chs.length := by
  simp only [splitBooks]
  rw [if_neg ?_]
  · rw [if_neg (fun hc => by simp at hc)]
    rw [splitBooks_skip_after sv ev rest hrest, List.append_nil]
  · intro hc
    rcases hc with h1 | h2
    · omega
    · exact absurd h2.2 (by omega)

/-! ### Coverage of the chapter split: case assembly -/

theorem coverage_same_book {s : Scriptures} (hWF : scripturesWF s)
    {b : Book} {chs : ChapterDict} {c₀ c₁ : Nat} {vs₀ vs₁ : VerseDict}
    (hb : (b, chs) ∈ s) (hc0 : (c₀, vs₀) ∈ chs) (hc1 : (c₁, vs₁) ∈ chs) (hcc : c₀ < c₁)
    {v₀ v₁ : Nat} (h00 : 1 ≤ v₀) (h02 : v₀ ≤ vs₀.length)
    (h10 : 1 ≤ v₁) (h12 : v₁ ≤ vs₁.length) :
    ∃ Ls : List (List String),
      (ScriptureReference.split_chapters ⟨⟨b, c₀, some v₀⟩, some ⟨b, c₁, some v₁⟩⟩ s).map
          (fun r => (ScriptureReference.get_scripture_lines r s).1) = Ls.map Except.ok ∧
      (ScriptureReference.get_scripture_lines ⟨⟨b, c₀, some v₀⟩, some ⟨b, c₁, some v₁⟩⟩ s).1 =
        Except.ok Ls.flatten ∧
      (∀ l ∈ Ls, l ≠ []) := by
  have hbWF : bookWF b chs := hWF.2 (b, chs) hb
  have hcWF0 : chapterWF b c₀ vs₀ := bookWF_chapter_mem hbWF (c₀, vs₀) hc0
  have hcWF1 : chapterWF b c₁ vs₁ := bookWF_chapter_mem hbWF (c₁, vs₁) hc1
  obtain ⟨hc01, hc02, hdropc0⟩ := bookWF_mem_get hbWF hc0
  obtain ⟨hc11, hc12, hdropc1⟩ := bookWF_mem_get hbWF hc1
  obtain ⟨A, Z, hl, hA, hZ, hZp⟩ := sorted_split_one (scripturesWF_pairwise hWF) hb
  have hsplitB : splitBooks ⟨b, c₀, some v₀⟩ ⟨b, c₁, some v₁⟩ false s =
      chapterWhile b ⟨b, c₁, some v₁⟩ (c₀ + 1) chs.length := by
    rw [hl, splitBooks_skip_before _ _ A _ hA, splitBooks_start_book,
      splitBooks_skip_after _ _ Z hZ, List.append_nil]
  refine ⟨((vs₀.drop (v₀ - 1)).map (fun p => verseLine p.1 p.2)) ::
    (((chs.drop c₀).take (c₁ - c₀ - 1)).map
        (fun cv => cv.2.map (fun p => verseLine p.1 p.2)) ++
      [(vs₁.take v₁).map (fun p => verseLine p.1 p.2)]), ?_, ?_, ?_⟩
  · simp only [ScriptureReference.split_chapters]
    rw [if_neg (fun hc => absurd hc.2 (by omega))]
    rw [List.map_cons, hsplitB, head_ref_lines hWF hb hc0 h00 h02,
      chapterWhile_lines_end hWF hb ⟨b, c₁, some v₁⟩ rfl hc12
        (c₁ + 1 - (c₀ + 1)) (c₀ + 1) (by omega) (by show c₀ + 1 ≤ c₁; omega) rfl,
      final_ref_lines hWF hb hc1 h10 h12,
      show c₁ - (c₀ + 1) = c₁ - c₀ - 1 from by omega]
    simp [List.map_map, Function.comp_def]
  · simp only [ScriptureReference.get_scripture_lines]
    rw [walk_same_book hWF hb hc0 hc1 hcc h00 h02 h10 h12]
    simp [chapterVersesList, List.map_append, List.map_flatten, List.map_map,
      List.flatten_cons, List.flatten_append, List.append_assoc, Function.comp_def]
  · intro l hl'
    simp only [List.mem_cons, List.mem_append, List.mem_map, List.mem_singleton] at hl'
    rcases hl' with h1 | ⟨cv, hcv, h2⟩ | h3 | h4
    · subst h1
      apply List.ne_nil_of_length_pos
      rw [List.length_map, List.length_drop]
      omega
    · subst h2
      have hcv' : cv ∈ chs := List.mem_of_mem_drop (List.mem_of_mem_take hcv)
      have := (bookWF_chapter_mem hbWF cv hcv').1
      simp only [ne_eq, List.map_eq_nil_iff]
      exact this
    · subst h3
      apply List.ne_nil_of_length_pos
      rw [List.length_map, List.length_take]
      simp
      omega
    · simp at h4

theorem coverage_cross_book {s : Scriptures} (hWF : scripturesWF s)
    {b₀ b₁ : Book} {chs₀ chs₁ : ChapterDict} {c₀ c₁ : Nat} {vs₀ vs₁ : VerseDict}
    {A M Z : Scriptures}
    (hl : s = A ++ (b₀, chs₀) :: (M ++ (b₁, chs₁) :: Z))
    (hA : ∀ a ∈ A, Book.idx a.1 < Book.idx b₀)
    (hM : ∀ m ∈ M, Book.idx b₀ < Book.idx m.1 ∧ Book.idx m.1 < Book.idx b₁)
    (hZ : ∀ z ∈ Z, Book.idx b₁ < Book.idx z.1)
    (hbb : Book.idx b₀ < Book.idx b₁)
    (hc0 : (c₀, vs₀) ∈ chs₀) (hc1 : (c₁, vs₁) ∈ chs₁)
    {v₀ v₁ : Nat} (h00 : 1 ≤ v₀) (h02 : v₀ ≤ vs₀.length)
    (h10 : 1 ≤ v₁) (h12 : v₁ ≤ vs₁.length) :
    ∃ Ls : List (List String),
      (ScriptureReference.split_chapters ⟨⟨b₀, c₀, some v₀⟩, some ⟨b₁, c₁, some v₁⟩⟩ s).map
          (fun r => (ScriptureReference.get_scripture_lines r s).1) = Ls.map Except.ok ∧
      (ScriptureReference.get_scripture_lines ⟨⟨b₀, c₀, some v₀⟩, some ⟨b₁, c₁, some v₁⟩⟩ s).1 =
        Except.ok Ls.flatten ∧
      (∀ l ∈ Ls, l ≠ []) := by
  have hb0 : (b₀, chs₀) ∈ s := by rw [hl]; simp
  have hb1 : (b₁, chs₁) ∈ s := by rw [hl]; simp
  have hbWF0 : bookWF b₀ chs₀ := hWF.2 (b₀, chs₀) hb0
  have hbWF1 : bookWF b₁ chs₁ := hWF.2 (b₁, chs₁) hb1
  have hcWF0 : chapterWF b₀ c₀ vs₀ := bookWF_chapter_mem hbWF0 (c₀, vs₀) hc0
  have hcWF1 : chapterWF b₁ c₁ vs₁ := bookWF_chapter_mem hbWF1 (c₁, vs₁) hc1
  obtain ⟨hc01, hc02, hdropc0⟩ := bookWF_mem_get hbWF0 hc0
  obtain ⟨hc11, hc12, hdropc1⟩ := bookWF_mem_get hbWF1 hc1
  have hb01 : b₀ ≠ b₁ := idx_lt_ne hbb
  have hMmem : ∀ m ∈ M, (m.1, m.2) ∈ s := by
    intro m hm
    rw [Prod.mk.eta, hl]
    simp [hm]
  have hsplitB : splitBooks ⟨b₀, c₀, some v₀⟩ ⟨b₁, c₁, some v₁⟩ false s =
      chapterWhile b₀ ⟨b₁, c₁, some v₁⟩ (c₀ + 1) chs₀.length ++
        ((M.map (fun m => chapterWhile m.1 ⟨b₁, c₁, some v₁⟩ 1 m.2.length)).flatten ++
          chapterWhile b₁ ⟨b₁, c₁, some v₁⟩ 1 chs₁.length) := by
    rw [hl, splitBooks_skip_before _ _ A _ hA, splitBooks_start_book,
      splitBooks_mid_books _ _ M _ hM, splitBooks_end_book _ _ chs₁ Z hbb hZ]
  refine ⟨((vs₀.drop (v₀ - 1)).map (fun p => verseLine p.1 p.2)) ::
    ((chs₀.drop c₀).map (fun cv => cv.2.map (fun p => verseLine p.1 p.2)) ++
      ((M.map (fun m => m.2.map (fun cv => cv.2.map (fun p => verseLine p.1 p.2)))).flatten ++
        ((chs₁.take (c₁ - 1)).map (fun cv => cv.2.map (fun p => verseLine p.1 p.2)) ++
          [(vs₁.take v₁).map (fun p => verseLine p.1 p.2)]))), ?_, ?_, ?_⟩
  · have hMline : List.map (fun (m : Book × ChapterDict) =>
        List.map (fun r => (ScriptureReference.get_scripture_lines r s).1)
          (chapterWhile m.1 ⟨b₁, c₁, some v₁⟩ 1 m.2.length)) M =
        M.map (fun m => m.2.map
          (fun cv => Except.ok (cv.2.map (fun p => verseLine p.1 p.2)))) := by
      refine List.map_congr_left ?_
      intro m hm
      rw [chapterWhile_lines_noend hWF (hMmem m hm) ⟨b₁, c₁, some v₁⟩
          (idx_lt_ne (hM m hm).2) m.2.length 1 (le_refl 1) (by omega),
        show (1 : Nat) - 1 = 0 from rfl, List.drop_zero]
    simp only [ScriptureReference.split_chapters]
    rw [if_neg (fun hc => hb01 hc.1)]
    rw [List.map_cons, hsplitB, head_ref_lines hWF hb0 hc0 h00 h02,
      List.map_append, List.map_append,
      chapterWhile_lines_noend hWF hb0 ⟨b₁, c₁, some v₁⟩ hb01
        (chs₀.length + 1 - (c₀ + 1)) (c₀ + 1) (by omega) rfl,
      show c₀ + 1 - 1 = c₀ from rfl,
      List.map_flatten, List.map_map]
    simp only [Function.comp_def]
    rw [hMline,
      chapterWhile_lines_end hWF hb1 ⟨b₁, c₁, some v₁⟩ rfl hc12
        c₁ 1 (le_refl 1) (by show (1 : Nat) ≤ c₁; omega) (by show c₁ + 1 - 1 = c₁; omega),
      show (1 : Nat) - 1 = 0 from rfl, List.drop_zero,
      final_ref_lines hWF hb1 hc1 h10 h12]
    simp [List.map_map, Function.comp_def, List.map_flatten]
  · simp only [ScriptureReference.get_scripture_lines]
    rw [walk_cross_book hWF hl hA hM hbb hc0 hc1 h00 h02 h10 h12]
    simp [chapterVersesList, verseEntries, List.map_append, List.map_flatten,
      List.map_map, List.flatten_cons, List.flatten_append, List.flatten_flatten,
      List.append_assoc, Function.comp_def]
  · intro l hl'
    simp only [List.mem_cons, List.mem_append, List.mem_map, List.mem_flatten,
      List.mem_singleton] at hl'
    rcases hl' with h1 | ⟨cv, hcv, h2⟩ | ⟨sub, ⟨m, hm, hsub⟩, hlsub⟩ | ⟨cv, hcv, h2⟩ | h3 | h4
    · subst h1
      apply List.ne_nil_of_length_pos
      rw [List.length_map, List.length_drop]
      omega
    · subst h2
      have hcv' : cv ∈ chs₀ := List.mem_of_mem_drop hcv
      have hne := (bookWF_chapter_mem hbWF0 cv hcv').1
      simp only [ne_eq, List.map_eq_nil_iff]
      exact hne
    · subst hsub
      rcases List.mem_map.mp hlsub with ⟨cv, hcv, h2⟩
      subst h2
      have hmWF : bookWF m.1 m.2 := hWF.2 (m.1, m.2) (hMmem m hm)
      have hne := (bookWF_chapter_mem hmWF cv hcv).1
      simp only [ne_eq, List.map_eq_nil_iff]
      exact hne
    · subst h2
      have hcv' : cv ∈ chs₁ := List.mem_of_mem_take hcv
      have hne := (bookWF_chapter_mem hbWF1 cv hcv').1
      simp only [ne_eq, List.map_eq_nil_iff]
      exact hne
    · subst h3
      apply List.ne_nil_of_length_pos
      rw [List.length_map, List.length_take]
      simp
      omega
    · simp at h4

theorem coverage_text_of_lines {s : Scriptures} {ref : ScriptureReference}
    {Ls : List (List String)}
    (horig : (ScriptureReference.get_scripture_lines ref s).1 = Except.ok Ls.flatten)
    (hne : ∀ l ∈ Ls, l ≠ []) :
    (ScriptureReference.get_scripture_text ref s).1 =
      Except.ok (String.intercalate "\n" (Ls.map (String.intercalate "\n"))) := by
  have hflat := intercalate_flatten "\n" Ls hne
  rcases hp : ScriptureReference.get_scripture_lines ref s with ⟨r, s1⟩
  rw [hp] at horig
  have horig' : r = Except.ok Ls.flatten := horig
  simp only [ScriptureReference.get_scripture_text, hp]
  rw [horig', hflat]
  rfl

/-- C3 — Chapter-split coverage law: for a well-formed catalog and a
multi-chapter reference whose start and end verses both address verses present
in the catalog, with the start strictly before the end in canon order, every
sub-reference `split_chapters` produces yields its `get_scripture_text` lines
successfully, their concatenation in order is exactly the lines of
`get_scripture_text` of the original reference (the same verse set, no gaps
and no overlaps at chapter boundaries), and the newline-join of the
sub-references' texts equals the original reference's text. -/
theorem chapter_split_coverage (s : Scriptures) (b₀ b₁ : Book)
    (c₀ c₁ v₀ v₁ : Nat) (chs₀ chs₁ : ChapterDict) (vs₀ vs₁ : VerseDict)
    (hWF : scripturesWF s)
    (hb0 : (b₀, chs₀) ∈ s) (hc0 : (c₀, vs₀) ∈ chs₀)
    (hb1 : (b₁, chs₁) ∈ s) (hc1 : (c₁, vs₁) ∈ chs₁)
    (hlt : canonLt (b₀, c₀) (b₁, c₁))
    (h00 : 1 ≤ v₀) (h02 : v₀ ≤ vs₀.length) (h10 : 1 ≤ v₁) (h12 : v₁ ≤ vs₁.length) :
    ∃ Ls : List (List String),
      (ScriptureReference.split_chapters ⟨⟨b₀, c₀, some v₀⟩, some ⟨b₁, c₁, some v₁⟩⟩ s).map
          (fun r => (ScriptureReference.get_scripture_lines r s).1) = Ls.map Except.ok ∧
      (ScriptureReference.get_scripture_lines
          ⟨⟨b₀, c₀, some v₀⟩, some ⟨b₁, c₁, some v₁⟩⟩ s).1 = Except.ok Ls.flatten ∧
      (ScriptureReference.get_scripture_text
          ⟨⟨b₀, c₀, some v₀⟩, some ⟨b₁, c₁, some v₁⟩⟩ s).1 =
        Except.ok (String.intercalate "\n" (Ls.map (String.intercalate "\n"))) := by
  rcases hlt with hbb | ⟨heq, hcc⟩
  · obtain ⟨A, M, Z, hl, hA, hM, hZ⟩ :=
      sorted_split_two (scripturesWF_pairwise hWF) hb0 hb1 hbb
    obtain ⟨Ls, h1, h2, h3⟩ :=
      coverage_cross_book hWF hl hA hM hZ hbb hc0 hc1 h00 h02 h10 h12
    exact ⟨Ls, h1, h2, coverage_text_of_lines h2 h3⟩
  · have heq' : b₀ = b₁ := heq
    subst heq'
    have hchs : chs₁ = chs₀ := by
      obtain ⟨A, Z, hl, hA, hZ, _⟩ := sorted_split_one (scripturesWF_pairwise hWF) hb0
      rw [hl] at hb1
      rcases List.mem_append.mp hb1 with h1 | h2
      · have hcontra := hA _ h1
        simp at hcontra
      · rcases List.mem_cons.mp h2 with h3 | h4
        · exact congrArg Prod.snd h3
        · have hcontra := hZ _ h4
          simp at hcontra
    subst hchs
    obtain ⟨Ls, h1, h2, h3⟩ :=
      coverage_same_book hWF hb0 hc0 hc1 hcc h00 h02 h10 h12
    exact ⟨Ls, h1, h2, coverage_text_of_lines h2 h3⟩

theorem chapter_split_coverage_witness :
    scripturesWF sampleScriptures ∧
    canonLt (Book.JAROM, 1) (Book.OMNI, 1) ∧
    (∃ Ls : List (List String),
      (ScriptureReference.split_chapters
          ⟨⟨Book.JAROM, 1, some 2⟩, some ⟨Book.OMNI, 1, some 1⟩⟩ sampleScriptures).map
          (fun r => (ScriptureReference.get_scripture_lines r sampleScriptures).1) =
        Ls.map Except.ok ∧
      (ScriptureReference.get_scripture_lines
          ⟨⟨Book.JAROM, 1, some 2⟩, some ⟨Book.OMNI, 1, some 1⟩⟩ sampleScriptures).1 =
        Except.ok Ls.flatten ∧
      (ScriptureReference.get_scripture_text
          ⟨⟨Book.JAROM, 1, some 2⟩, some ⟨Book.OMNI, 1, some 1⟩⟩ sampleScriptures).1 =
        Except.ok (String.intercalate "\n" (Ls.map (String.intercalate "\n")))) :=
  ⟨⟨List.Chain.cons (by decide) List.Chain.nil,
    by
      intro p hp
      rcases List.mem_cons.mp hp with h | hp2
      · subst h
        decide
      · rcases List.mem_cons.mp hp2 with h | hp3
        · subst h
          decide
        · simp at hp3⟩, by decide,
    chapter_split_coverage sampleScriptures Book.JAROM Book.OMNI 1 1 2 1
      [(1, [(⟨Book.JAROM, 1, some 1⟩, "ta"), (⟨Book.JAROM, 1, some 2⟩, "tb")]),
       (2, [(⟨Book.JAROM, 2, some 1⟩, "tc"), (⟨Book.JAROM, 2, some 2⟩, "td")]),
       (3, [(⟨Book.JAROM, 3, some 1⟩, "te"), (⟨Book.JAROM, 3, some 2⟩, "tf")])]
      [(1, [(⟨Book.OMNI, 1, some 1⟩, "tg"), (⟨Book.OMNI, 1, some 2⟩, "th")])]
      [(⟨Book.JAROM, 1, some 1⟩, "ta"), (⟨Book.JAROM, 1, some 2⟩, "tb")]
      [(⟨Book.OMNI, 1, some 1⟩, "tg"), (⟨Book.OMNI, 1, some 2⟩, "th")]
      ⟨List.Chain.cons (by decide) List.Chain.nil,
        by
          intro p hp
          rcases List.mem_cons.mp hp with h | hp2
          · subst h
            decide
          · rcases List.mem_cons.mp hp2 with h | hp3
            · subst h
              decide
            · simp at hp3⟩
      (List.Mem.head _) (List.Mem.head _)
      (List.Mem.tail _ (List.Mem.head _)) (List.Mem.head _) (by decide)
      (by decide) (by decide) (by decide) (by decide)⟩
